import Mathlib

/-!
Interpreter kernels of FEXCore: a shallow embedding.

Embedding of the scalar kernels of
`External/FEXCore/Source/Interface/Core/Interpreter/ALUOps.cpp`, of the
packed kernels of `External/FEXCore/Source/Interface/Core/Interpreter/VectorOps.cpp`
and of the guest context structs of `External/FEXCore/include/FEXCore/Core/UContext.h`.

* A 16-byte SSA slot is the natural number of its little-endian bytes.
* Unsigned machine integers of width `w` bits are naturals below `2 ^ w`,
  signed ones are integers; every conversion and every wrap-around is explicit.
* A kernel takes the kernel's operand size, the previous content of the
  destination slot and the source slots, and returns the new content of the
  destination slot, or `none` on the `LOGMAN_MSG_A_FMT` branch of its switch.
* A packed kernel also takes the content of its uninitialised local array `Tmp`
  on entry; elements of a slot are read with `lane` and written with `setLane`.
* A packed struct is the list of its member declarations, name and size; a C++
  `enum` is an inductive type with the list of its enumerators in declaration
  order; the names of the namespaces `x86_64` and `x86` prefix their structs.
-/

namespace FEXCore.CPU

/-! ## Slots and machine integers -/

/-- Modelled from the spec: the 16-byte slot of the SSA value store (declared in
`InterpreterDefines.h`, outside the excerpt), as the value of its bytes read
little-endian. -/
abbrev Slot := Nat

/-- Modelled from the spec: `*GetSrc<T*>(Data->SSAData, Arg)` for an unsigned type `T`
of `n` bytes (declared in `InterpreterDefines.h`): the low `n` bytes of the slot. -/
def GetSrc (n : Nat) (s : Slot) : Nat := s % 2 ^ (8 * n)

/-- Modelled from the spec: a store of `n` bytes at the start of the destination slot
(`*reinterpret_cast<T*>(GDP) = v`, `memcpy(GDP, &v, n)`): the low `n` bytes
become `v` truncated, the other bytes of the slot keep their content. -/
def storeLow (n : Nat) (dst : Slot) (v : Nat) : Slot :=
  dst / 2 ^ (8 * n) * 2 ^ (8 * n) + v % 2 ^ (8 * n)

/-- Modelled from the spec: the macro `GD` of `InterpreterDefines.h`,
`*GetDest<uint64_t*>(Data->SSAData, Node)`; `GD = v` stores eight bytes. -/
def GD (dst : Slot) (v : Nat) : Slot := storeLow 8 dst v

/-- Byte `i` of a slot. -/
def byteAt (s : Slot) (i : Nat) : Nat := s / 2 ^ (8 * i) % 256

/-- `static_cast` to the signed type of `w` bits: two's-complement reading of the
low `w` bits. -/
def toSigned (w : Nat) (x : Nat) : Int :=
  if x % 2 ^ w < 2 ^ (w - 1) then ((x % 2 ^ w : Nat) : Int)
  else ((x % 2 ^ w : Nat) : Int) - 2 ^ w

/-- Conversion of an integer to the unsigned type of `w` bits. -/
def toUnsigned (w : Nat) (z : Int) : Nat := (z % 2 ^ w).toNat

/-- Result of a signed operation on `w` bits, overflow modelled as wrap-around. -/
def wrapSigned (w : Nat) (z : Int) : Int := toSigned w (toUnsigned w z)

/-- Modelled from the spec: the macro `DO_OP(size, type, func)` of
`InterpreterDefines.h`: one switch case that reads both sources at `type`,
applies `func` and stores the result at `type` in the destination. -/
def DO_OP (size : Nat) (Func : Nat → Nat → Nat → Nat) (dst Src1 Src2 : Slot) : Slot :=
  storeLow size dst (Func (8 * size) (GetSrc size Src1) (GetSrc size Src2))

/-! ## Add, Sub -/

/-- `Op_Add`: `[](auto a, auto b) { return a + b; }` at `uint32_t` and `uint64_t`. -/
def Op_Add (OpSize : Nat) (dst Src1 Src2 : Slot) : Option Slot :=
  let Func := fun (w a b : Nat) => (a + b) % 2 ^ w
  match OpSize with
  | 4 => some (DO_OP 4 Func dst Src1 Src2)
  | 8 => some (DO_OP 8 Func dst Src1 Src2)
  | _ => none

/-- `Op_Sub`: `[](auto a, auto b) { return a - b; }` at `uint32_t` and `uint64_t`. -/
def Op_Sub (OpSize : Nat) (dst Src1 Src2 : Slot) : Option Slot :=
  let Func := fun (w a b : Nat) => toUnsigned w ((a : Int) - (b : Int))
  match OpSize with
  | 4 => some (DO_OP 4 Func dst Src1 Src2)
  | 8 => some (DO_OP 8 Func dst Src1 Src2)
  | _ => none

/-! ## Div, Rem -/

/-- `Op_Div`: both sources are read as `uint64_t`, cast to the signed type of the
operand size, widened to `int64_t` and divided with the truncating `/` of C++;
at size 16 both sources are read as `__int128_t` and sixteen bytes are stored.
The source leaves a zero divisor undefined; the model then has the value of
`Int.tdiv`, which no statement below relies on. -/
def Op_Div (OpSize : Nat) (dst Src1 Src2 : Slot) : Option Slot :=
  let S1 := GetSrc 8 Src1
  let S2 := GetSrc 8 Src2
  match OpSize with
  | 1 => some (GD dst (toUnsigned 64 (wrapSigned 64 (Int.tdiv (toSigned 8 S1) (toSigned 8 S2)))))
  | 2 => some (GD dst (toUnsigned 64 (wrapSigned 64 (Int.tdiv (toSigned 16 S1) (toSigned 16 S2)))))
  | 4 => some (GD dst (toUnsigned 64 (wrapSigned 64 (Int.tdiv (toSigned 32 S1) (toSigned 32 S2)))))
  | 8 => some (GD dst (toUnsigned 64 (wrapSigned 64 (Int.tdiv (toSigned 64 S1) (toSigned 64 S2)))))
  | 16 =>
    let Tmp := wrapSigned 128
      (Int.tdiv (toSigned 128 (GetSrc 16 Src1)) (toSigned 128 (GetSrc 16 Src2)))
    some (storeLow 16 dst (toUnsigned 128 Tmp))
  | _ => none

/-- `Op_Rem`: as `Op_Div`, with the truncating `%` of C++. -/
def Op_Rem (OpSize : Nat) (dst Src1 Src2 : Slot) : Option Slot :=
  let S1 := GetSrc 8 Src1
  let S2 := GetSrc 8 Src2
  match OpSize with
  | 1 => some (GD dst (toUnsigned 64 (wrapSigned 64 (Int.tmod (toSigned 8 S1) (toSigned 8 S2)))))
  | 2 => some (GD dst (toUnsigned 64 (wrapSigned 64 (Int.tmod (toSigned 16 S1) (toSigned 16 S2)))))
  | 4 => some (GD dst (toUnsigned 64 (wrapSigned 64 (Int.tmod (toSigned 32 S1) (toSigned 32 S2)))))
  | 8 => some (GD dst (toUnsigned 64 (wrapSigned 64 (Int.tmod (toSigned 64 S1) (toSigned 64 S2)))))
  | 16 =>
    let Tmp := wrapSigned 128
      (Int.tmod (toSigned 128 (GetSrc 16 Src1)) (toSigned 128 (GetSrc 16 Src2)))
    some (storeLow 16 dst (toUnsigned 128 Tmp))
  | _ => none

/-! ## MulH, UMulH -/

/-- `Op_MulH`: at size 4 the product of the two sources cast to `int32_t` and
widened to `int64_t`, shifted right by 32; at size 8 the `__int128_t` product of
the sources cast to `int64_t`, shifted right by 64. The shifts are arithmetic. -/
def Op_MulH (OpSize : Nat) (dst Src1 Src2 : Slot) : Option Slot :=
  let S1 := GetSrc 8 Src1
  let S2 := GetSrc 8 Src2
  match OpSize with
  | 4 =>
    let Tmp : Int := wrapSigned 64 (toSigned 32 S1 * toSigned 32 S2)
    some (GD dst (toUnsigned 64 (Tmp >>> (32 : Nat))))
  | 8 =>
    let Tmp : Int := wrapSigned 128 (toSigned 64 S1 * toSigned 64 S2)
    some (GD dst (toUnsigned 64 (Tmp >>> (64 : Nat))))
  | _ => none

/-- `Op_UMulH`: at size 4 the sources are cast to `uint64_t` (they are `uint64_t`
already), multiplied on 64 bits, stored, and the stored value is shifted right
by 32 in place; at sizes 8 and 16 the `__uint128_t` product of the two
`uint64_t` sources is shifted right by 64. -/
def Op_UMulH (OpSize : Nat) (dst Src1 Src2 : Slot) : Option Slot :=
  let S1 := GetSrc 8 Src1
  let S2 := GetSrc 8 Src2
  match OpSize with
  | 4 =>
    let d := GD dst ((S1 * S2) % 2 ^ 64)
    some (GD d (GetSrc 8 d >>> 32))
  | 8 =>
    let Tmp := (S1 * S2) % 2 ^ 128
    some (GD dst (Tmp >>> 64))
  | 16 =>
    let Tmp := (S1 * S2) % 2 ^ 128
    some (GD dst (Tmp >>> 64))
  | _ => none

/-! ## LDiv, LUDiv, LRem, LURem -/

/-- `Op_LUDiv`: the dividend is `(SrcHigh << N) | SrcLow` on `2N` bits, unsigned;
sizes 2 and 4 store the quotient truncated to the operand size through `GD`,
size 8 copies the low eight bytes of the `__uint128_t` quotient. -/
def Op_LUDiv (OpSize : Nat) (dst Src1 Src2 Src3 : Slot) : Option Slot :=
  match OpSize with
  | 2 =>
    let SrcLow := GetSrc 2 Src1
    let SrcHigh := GetSrc 2 Src2
    let Divisor := GetSrc 2 Src3
    let Source := ((SrcHigh <<< 16) % 2 ^ 32) ||| SrcLow
    let Res := Source / Divisor
    some (GD dst (Res % 2 ^ 16))
  | 4 =>
    let SrcLow := GetSrc 4 Src1
    let SrcHigh := GetSrc 4 Src2
    let Divisor := GetSrc 4 Src3
    let Source := ((SrcHigh <<< 32) % 2 ^ 64) ||| SrcLow
    let Res := Source / Divisor
    some (GD dst (Res % 2 ^ 32))
  | 8 =>
    let SrcLow := GetSrc 8 Src1
    let SrcHigh := GetSrc 8 Src2
    let Divisor := GetSrc 8 Src3
    let Source := ((SrcHigh <<< 64) % 2 ^ 128) ||| SrcLow
    let Res := Source / Divisor
    some (storeLow 8 dst Res)
  | _ => none

/-- `Op_LURem`: as `Op_LUDiv` with `%`. -/
def Op_LURem (OpSize : Nat) (dst Src1 Src2 Src3 : Slot) : Option Slot :=
  match OpSize with
  | 2 =>
    let SrcLow := GetSrc 2 Src1
    let SrcHigh := GetSrc 2 Src2
    let Divisor := GetSrc 2 Src3
    let Source := ((SrcHigh <<< 16) % 2 ^ 32) ||| SrcLow
    let Res := Source % Divisor
    some (GD dst (Res % 2 ^ 16))
  | 4 =>
    let SrcLow := GetSrc 4 Src1
    let SrcHigh := GetSrc 4 Src2
    let Divisor := GetSrc 4 Src3
    let Source := ((SrcHigh <<< 32) % 2 ^ 64) ||| SrcLow
    let Res := Source % Divisor
    some (GD dst (Res % 2 ^ 32))
  | 8 =>
    let SrcLow := GetSrc 8 Src1
    let SrcHigh := GetSrc 8 Src2
    let Divisor := GetSrc 8 Src3
    let Source := ((SrcHigh <<< 64) % 2 ^ 128) ||| SrcLow
    let Res := Source % Divisor
    some (storeLow 8 dst Res)
  | _ => none

/-- `Op_LDiv`: the dividend is the two's-complement reading on `2N` bits of
`(SrcHigh << N) | SrcLow`, the divisor is source 3 read as a signed `N`-bit
value; the quotient of the truncating `/` is cast to the signed operand type
and stored through `GD` (sizes 2, 4) or its low eight bytes are copied
(size 8). Signed overflow is modelled as wrap-around. -/
def Op_LDiv (OpSize : Nat) (dst Src1 Src2 Src3 : Slot) : Option Slot :=
  match OpSize with
  | 2 =>
    let SrcLow := GetSrc 2 Src1
    let SrcHigh := GetSrc 2 Src2
    let Divisor : Int := toSigned 16 (GetSrc 2 Src3)
    let Source : Int := toSigned 32 (((SrcHigh <<< 16) % 2 ^ 32) ||| SrcLow)
    let Res : Int := wrapSigned 32 (Int.tdiv Source Divisor)
    some (GD dst (toUnsigned 64 (wrapSigned 16 Res)))
  | 4 =>
    let SrcLow := GetSrc 4 Src1
    let SrcHigh := GetSrc 4 Src2
    let Divisor : Int := toSigned 32 (GetSrc 4 Src3)
    let Source : Int := toSigned 64 (((SrcHigh <<< 32) % 2 ^ 64) ||| SrcLow)
    let Res : Int := wrapSigned 64 (Int.tdiv Source Divisor)
    some (GD dst (toUnsigned 64 (wrapSigned 32 Res)))
  | 8 =>
    let SrcLow := GetSrc 8 Src1
    let SrcHigh := GetSrc 8 Src2
    let Divisor : Int := toSigned 64 (GetSrc 8 Src3)
    let Source : Int := toSigned 128 (((SrcHigh <<< 64) % 2 ^ 128) ||| SrcLow)
    let Res : Int := wrapSigned 128 (Int.tdiv Source Divisor)
    some (storeLow 8 dst (toUnsigned 128 Res))
  | _ => none

/-- `Op_LRem`: as `Op_LDiv` with the truncating `%`. -/
def Op_LRem (OpSize : Nat) (dst Src1 Src2 Src3 : Slot) : Option Slot :=
  match OpSize with
  | 2 =>
    let SrcLow := GetSrc 2 Src1
    let SrcHigh := GetSrc 2 Src2
    let Divisor : Int := toSigned 16 (GetSrc 2 Src3)
    let Source : Int := toSigned 32 (((SrcHigh <<< 16) % 2 ^ 32) ||| SrcLow)
    let Res : Int := wrapSigned 32 (Int.tmod Source Divisor)
    some (GD dst (toUnsigned 64 (wrapSigned 16 Res)))
  | 4 =>
    let SrcLow := GetSrc 4 Src1
    let SrcHigh := GetSrc 4 Src2
    let Divisor : Int := toSigned 32 (GetSrc 4 Src3)
    let Source : Int := toSigned 64 (((SrcHigh <<< 32) % 2 ^ 64) ||| SrcLow)
    let Res : Int := wrapSigned 64 (Int.tmod Source Divisor)
    some (GD dst (toUnsigned 64 (wrapSigned 32 Res)))
  | 8 =>
    let SrcLow := GetSrc 8 Src1
    let SrcHigh := GetSrc 8 Src2
    let Divisor : Int := toSigned 64 (GetSrc 8 Src3)
    let Source : Int := toSigned 128 (((SrcHigh <<< 64) % 2 ^ 128) ||| SrcLow)
    let Res : Int := wrapSigned 128 (Int.tmod Source Divisor)
    some (storeLow 8 dst (toUnsigned 128 Res))
  | _ => none

/-! ## Lshl, Lshr, Ashr, Ror, Extr -/

/-- `Op_Lshl`: `uint8_t Mask = OpSize * 8 - 1`; the source cast to the unsigned
type of the operand size is shifted left by `Src2 & Mask` in that type. -/
def Op_Lshl (OpSize : Nat) (dst Src1 Src2 : Slot) : Option Slot :=
  let S1 := GetSrc 8 Src1
  let S2 := GetSrc 8 Src2
  let Mask := toUnsigned 8 ((OpSize : Int) * 8 - 1)
  match OpSize with
  | 4 => some (GD dst (((S1 % 2 ^ 32) <<< (S2 &&& Mask)) % 2 ^ 32))
  | 8 => some (GD dst (((S1 % 2 ^ 64) <<< (S2 &&& Mask)) % 2 ^ 64))
  | _ => none

/-- `Op_Lshr`: logical shift right by `Src2 & Mask` in the unsigned type of the
operand size. -/
def Op_Lshr (OpSize : Nat) (dst Src1 Src2 : Slot) : Option Slot :=
  let S1 := GetSrc 8 Src1
  let S2 := GetSrc 8 Src2
  let Mask := toUnsigned 8 ((OpSize : Int) * 8 - 1)
  match OpSize with
  | 4 => some (GD dst ((S1 % 2 ^ 32) >>> (S2 &&& Mask)))
  | 8 => some (GD dst ((S1 % 2 ^ 64) >>> (S2 &&& Mask)))
  | _ => none

/-- `Op_Ashr`: arithmetic shift right by `Src2 & Mask` of the source cast to the
signed type of the operand size; the result is cast back to the unsigned
type. -/
def Op_Ashr (OpSize : Nat) (dst Src1 Src2 : Slot) : Option Slot :=
  let S1 := GetSrc 8 Src1
  let S2 := GetSrc 8 Src2
  let Mask := toUnsigned 8 ((OpSize : Int) * 8 - 1)
  match OpSize with
  | 4 => some (GD dst (toUnsigned 32 (toSigned 32 S1 >>> (S2 &&& Mask : Nat))))
  | 8 => some (GD dst (toUnsigned 64 (toSigned 64 S1 >>> (S2 &&& Mask : Nat))))
  | _ => none

/-- `a << n` in an unsigned type of `w` bits. C++ defines it for `n < w` only; for
`n ≥ w` the flag selects one of the two behaviours of a hardware shifter: the
count is taken modulo `w` (`true`), or every bit is shifted out (`false`). -/
def shlU (wrapCount : Bool) (w a n : Nat) : Nat :=
  if n < w then (a <<< n) % 2 ^ w
  else if wrapCount then (a <<< (n % w)) % 2 ^ w else 0

/-- The lambda `Ror` of `Op_Ror` at a type of `w` bits (`sizeof(In) * 8 = w`):
`R &= RotateMask; return (In >> R) | (In << (sizeof(In) * 8 - R));`. For
`R = 0` the left shift is by the full width, see `shlU`. -/
def Ror (wrapCount : Bool) (w In R : Nat) : Nat :=
  let RotateMask := w - 1
  let R := R &&& RotateMask
  (In >>> R) ||| shlU wrapCount w In (w - R)

/-- `Op_Ror`: both sources are cast to the unsigned type of the operand size and
passed to the lambda `Ror`. -/
def Op_Ror (wrapCount : Bool) (OpSize : Nat) (dst Src1 Src2 : Slot) : Option Slot :=
  let S1 := GetSrc 8 Src1
  let S2 := GetSrc 8 Src2
  match OpSize with
  | 4 => some (GD dst (Ror wrapCount 32 (S1 % 2 ^ 32) (S2 % 2 ^ 32)))
  | 8 => some (GD dst (Ror wrapCount 64 (S1 % 2 ^ 64) (S2 % 2 ^ 64)))
  | _ => none

/-- The lambda `Extr` of `Op_Extr` at a source type of `w` bits: the sources are
joined in a `__uint128_t`, shifted right by `lsb`, and the result is converted
to the source type. -/
def Extr (w Src1 Src2 lsb : Nat) : Nat :=
  let Result := Src1 % 2 ^ 128
  let Result := (Result <<< w) % 2 ^ 128
  let Result := Result ||| Src2
  let Result := Result >>> lsb
  Result % 2 ^ w

/-- `Op_Extr`: the immediate `Op->LSB` is passed as the `uint8_t` parameter of the
lambda. -/
def Op_Extr (OpSize LSB : Nat) (dst Src1 Src2 : Slot) : Option Slot :=
  let S1 := GetSrc 8 Src1
  let S2 := GetSrc 8 Src2
  match OpSize with
  | 4 => some (GD dst (Extr 32 (S1 % 2 ^ 32) (S2 % 2 ^ 32) (LSB % 256)))
  | 8 => some (GD dst (Extr 64 (S1 % 2 ^ 64) (S2 % 2 ^ 64) (LSB % 256)))
  | _ => none

/-! ## Bfi -/

/-- `~x` in an unsigned type of `w` bits. -/
def bitNot (w x : Nat) : Nat := 2 ^ w - 1 - x % 2 ^ w

/-- `Op_Bfi`, with the immediates `Op->Width` and `Op->lsb`. `1ULL << Width` is
taken on 64 bits; at `Width = 64`, where C++ leaves the shift undefined, the
source replaces the mask by `~0ULL` on the next line. The kernel has no switch
on the operand size. -/
def Op_Bfi (Width lsb : Nat) (dst Src1 Src2 : Slot) : Option Slot :=
  let SourceMask := toUnsigned 64 ((((1 <<< Width) % 2 ^ 64 : Nat) : Int) - 1)
  let SourceMask := if Width = 64 then bitNot 64 0 else SourceMask
  let DestMask := bitNot 64 ((SourceMask <<< lsb) % 2 ^ 64)
  let S1 := GetSrc 8 Src1
  let S2 := GetSrc 8 Src2
  let Res := (S1 &&& DestMask) ||| (((S2 &&& SourceMask) <<< lsb) % 2 ^ 64)
  some (GD dst Res)

/-! ## Bfe, Sbfe -/

/-- The zero-extending bit-field extract in the words of the specification:
`(src >> lsb) & ((1 << Width) - 1)`, the mask being all-ones at `Width = 64`. -/
def Bfe_spec (src Width lsb : Nat) : Nat :=
  let mask := if Width = 64 then 2 ^ 64 - 1 else (1 <<< Width) - 1
  (src >>> lsb) &&& mask

/-- `Op_Bfe`, with the immediates `Op->Width` and `Op->lsb`:
`LOGMAN_THROW_A_FMT(IROp->Size <= 8, ...)`, then the mask is built as in
`Op_Bfi`, shifted left by `lsb` on 64 bits, and the masked source is shifted
right by `lsb`. -/
def Op_Bfe (OpSize Width lsb : Nat) (dst Src : Slot) : Option Slot :=
  if OpSize ≤ 8 then
    let SourceMask := toUnsigned 64 ((((1 <<< Width) % 2 ^ 64 : Nat) : Int) - 1)
    let SourceMask := if Width = 64 then bitNot 64 0 else SourceMask
    let SourceMask := (SourceMask <<< lsb) % 2 ^ 64
    let S := GetSrc 8 Src
    some (GD dst ((S &&& SourceMask) >>> lsb))
  else none

/-- `Op_Sbfe`: the source is read as `int64_t`;
`ShiftLeftAmount = 64 - (Width + lsb)` is computed on `int` and converted to
`uint64_t`, `ShiftRightAmount = ShiftLeftAmount + lsb`; `Src <<= ShiftLeftAmount`
is the signed left shift (the value modulo `2^64`), `Src >>= ShiftRightAmount`
the arithmetic right shift. -/
def Op_Sbfe (OpSize Width lsb : Nat) (dst Src : Slot) : Option Slot :=
  if OpSize ≤ 8 then
    let S : Int := toSigned 64 (GetSrc 8 Src)
    let ShiftLeftAmount := toUnsigned 64 (64 - ((Width : Int) + (lsb : Int)))
    let ShiftRightAmount := (ShiftLeftAmount + lsb) % 2 ^ 64
    let S := wrapSigned 64 (S * 2 ^ ShiftLeftAmount)
    let S := S >>> (ShiftRightAmount : Nat)
    some (GD dst (toUnsigned 64 S))
  else none

/-! ## Not, Popcount, FindMSB -/

/-- `Op_Not`: `mask[OpSize]` from the table of nine entries, then
`GD = (~Src) & Mask`. An index above 8 is outside the table in the source; the
model reads `0` there. The kernel has no switch on the operand size. -/
def Op_Not (OpSize : Nat) (dst Src : Slot) : Option Slot :=
  let S := GetSrc 8 Src
  let mask : List Nat := [0, 0xFF, 0xFFFF, 0, 0xFFFFFFFF, 0, 0, 0, 0xFFFFFFFFFFFFFFFF]
  let Mask := mask.getD OpSize 0
  some (GD dst (bitNot 64 S &&& Mask))

/-- `std::popcount` on an unsigned type of `w` bits: the number of positions below
`w` whose bit is set. -/
def popcount (w x : Nat) : Nat := (List.range w).countP (fun i => x.testBit i)

/-- `Op_Popcount`: `GD = std::popcount(Src)` on the source read as `uint64_t`;
the operand size is not read. -/
def Op_Popcount (dst Src : Slot) : Option Slot :=
  some (GD dst (popcount 64 (GetSrc 8 Src)))

/-- `std::countl_zero` on an unsigned type of `w` bits: the number of consecutive
zero bits from position `w - 1` downwards (`w` for the value zero). -/
def countl_zero (w x : Nat) : Nat :=
  ((List.range w).takeWhile (fun i => !x.testBit (w - 1 - i))).length

/-- `std::countr_zero` on an unsigned type of `w` bits: the number of consecutive
zero bits from position `0` upwards (`w` for the value zero). -/
def countr_zero : Nat → Nat → Nat
  | 0, _ => 0
  | w + 1, x => if x % 2 = 1 then 0 else 1 + countr_zero w (x / 2)

/-- `Op_FindMSB`: `GD = (OpSize * 8 - std::countl_zero(src)) - 1`, the source read
at the unsigned type of the operand size, the expression computed on `int` and
converted to `uint64_t` by the store. -/
def Op_FindMSB (OpSize : Nat) (dst Src : Slot) : Option Slot :=
  match OpSize with
  | 1 => some (GD dst (toUnsigned 64
      (((OpSize : Int) * 8 - (countl_zero 8 (GetSrc 1 Src) : Int)) - 1)))
  | 2 => some (GD dst (toUnsigned 64
      (((OpSize : Int) * 8 - (countl_zero 16 (GetSrc 2 Src) : Int)) - 1)))
  | 4 => some (GD dst (toUnsigned 64
      (((OpSize : Int) * 8 - (countl_zero 32 (GetSrc 4 Src) : Int)) - 1)))
  | 8 => some (GD dst (toUnsigned 64
      (((OpSize : Int) * 8 - (countl_zero 64 (GetSrc 8 Src) : Int)) - 1)))
  | _ => none

/-! ## Vector lanes -/

/-- Element `i` of a slot read as an array of unsigned `w`-byte elements
(`Src_d[i]` after `reinterpret_cast<type*>`). -/
def lane (w : Nat) (v : Slot) (i : Nat) : Nat := v / 2 ^ (8 * w * i) % 2 ^ (8 * w)

/-- The store `Dst_d[i] = x` on an array of `w`-byte elements: element `i` becomes
`x` truncated to `w` bytes, the bytes below and above keep their content. -/
def setLane (w : Nat) (v : Slot) (i : Nat) (x : Nat) : Slot :=
  2 ^ (8 * w * i) * (2 ^ (8 * w) * (v / 2 ^ (8 * w * (i + 1))) + x % 2 ^ (8 * w))
    + v % 2 ^ (8 * w * i)

/-- Modelled from the spec: the macro `DO_VECTOR_OP(size, type, func)` of
`InterpreterDefines.h`: one switch case with the loop
`for (i = 0; i < Elements; ++i) Dst_d[i] = func(Src1_d[i], Src2_d[i]);` over the
local array `Tmp`. `Func` receives the element width in bits and the two
elements as stored, and returns the value that is converted to the element
type by the store. -/
def DO_VECTOR_OP (size : Nat) (Func : Nat → Nat → Nat → Nat) (Elements : Nat)
    (Tmp Src1 Src2 : Slot) : Slot :=
  (List.range Elements).foldl
    (fun T i => setLane size T i (Func (8 * size) (lane size Src1 i) (lane size Src2 i))) Tmp

/-! ## VUQAdd, VSQAdd -/

/-- The lambda `Func` of `Op_VUQAdd` at an unsigned element type of `w` bits:
`decltype(a) res = a + b; return res < a ? ~0U : res;`. `~0U` has type
`unsigned int`, so the value returned on overflow is `0xFFFFFFFF` whatever the
element type; the store of the result converts it to the element type. -/
def VUQAdd_Func (w a b : Nat) : Nat :=
  let res := (a + b) % 2 ^ w
  if res < a then 2 ^ 32 - 1 else res

/-- `Op_VUQAdd`. `Tmp` is the content of the uninitialised local array
`uint8_t Tmp[16]` on entry; `Elements = OpSize / ElementSize`; the result is
copied with `memcpy(GDP, Tmp, OpSize)`, which stays inside the array for an
operand size up to 16. -/
def Op_VUQAdd (Tmp : Slot) (OpSize ElementSize : Nat) (dst Src1 Src2 : Slot) : Option Slot :=
  let Elements := OpSize / ElementSize
  match ElementSize with
  | 1 => some (storeLow OpSize dst (DO_VECTOR_OP 1 VUQAdd_Func Elements Tmp Src1 Src2))
  | 2 => some (storeLow OpSize dst (DO_VECTOR_OP 2 VUQAdd_Func Elements Tmp Src1 Src2))
  | 4 => some (storeLow OpSize dst (DO_VECTOR_OP 4 VUQAdd_Func Elements Tmp Src1 Src2))
  | 8 => some (storeLow OpSize dst (DO_VECTOR_OP 8 VUQAdd_Func Elements Tmp Src1 Src2))
  | _ => none

/-- The lambda `Func` of `Op_VSQAdd` at a signed element type of `w` bits, on the
elements as stored: `res = a + b` in the element type (overflow modelled as
wrap-around), then `max` is returned when `a > 0` and `b > max - a`, `min`
when `a <= 0` and `b < min - a`, and `res` otherwise; `max - a` and `min - a`
cannot overflow under their guards. -/
def VSQAdd_Func (w a b : Nat) : Nat :=
  let sa : Int := toSigned w a
  let sb : Int := toSigned w b
  let max : Int := 2 ^ (w - 1) - 1
  let min : Int := -(2 ^ (w - 1))
  let res : Int := wrapSigned w (sa + sb)
  if sa > 0 then
    (if sb > max - sa then toUnsigned w max else toUnsigned w res)
  else if sb < min - sa then toUnsigned w min
  else toUnsigned w res

/-- `Op_VSQAdd`: as `Op_VUQAdd`, on the signed element types. -/
def Op_VSQAdd (Tmp : Slot) (OpSize ElementSize : Nat) (dst Src1 Src2 : Slot) : Option Slot :=
  let Elements := OpSize / ElementSize
  match ElementSize with
  | 1 => some (storeLow OpSize dst (DO_VECTOR_OP 1 VSQAdd_Func Elements Tmp Src1 Src2))
  | 2 => some (storeLow OpSize dst (DO_VECTOR_OP 2 VSQAdd_Func Elements Tmp Src1 Src2))
  | 4 => some (storeLow OpSize dst (DO_VECTOR_OP 4 VSQAdd_Func Elements Tmp Src1 Src2))
  | 8 => some (storeLow OpSize dst (DO_VECTOR_OP 8 VSQAdd_Func Elements Tmp Src1 Src2))
  | _ => none

/-! ## PDep, PExt -/

/-- The loop of `Op_PDep`,
`for (Index = 0; Mask > 0; Index++) { Offset = countr_zero(Mask); Mask &= Mask - 1;
Result |= ((Input >> Index) & 1) << Offset; }`, from the state
`(Mask, Index, Result)`, on `uint64_t`. The first argument after `Input` bounds
the number of iterations; the function returns the final `Index` and `Result`,
or `none` when the bound is reached with `Mask > 0`. -/
def PDep_loop (Input : Nat) : Nat → Nat → Nat → Nat → Option (Nat × Nat)
  | 0, Mask, Index, Result => if 0 < Mask then none else some (Index, Result)
  | fuel + 1, Mask, Index, Result =>
    if 0 < Mask then
      let Offset := countr_zero 64 Mask
      let Mask := Mask &&& (Mask - 1)
      let Result := Result ||| ((((Input >>> Index) &&& 1) <<< Offset) % 2 ^ 64)
      PDep_loop Input fuel Mask (Index + 1) Result
    else some (Index, Result)

/-- `Op_PDep`: sizes other than 4 and 8 take the `LOGMAN_MSG_A_FMT` branch and
return; the sources are read at `uint32_t` or `uint64_t` and widened, and the
loop runs on a mask of at most 64 set bits. -/
def Op_PDep (OpSize : Nat) (dst Src1 Src2 : Slot) : Option Slot :=
  if OpSize ≠ 4 ∧ OpSize ≠ 8 then none
  else
    let Input := if OpSize = 4 then GetSrc 4 Src1 else GetSrc 8 Src1
    let Mask := if OpSize = 4 then GetSrc 4 Src2 else GetSrc 8 Src2
    match PDep_loop Input 64 Mask 0 0 with
    | some (_, Result) => some (GD dst Result)
    | none => none

/-- The loop of `Op_PExt`,
`for (Offset = 0; Mask > 0; Offset++) { Index = countr_zero(Mask); Mask &= Mask - 1;
Result |= ((Input >> Index) & 1) << Offset; }`, from the state
`(Mask, Offset, Result)`; conventions as in `PDep_loop`. -/
def PExt_loop (Input : Nat) : Nat → Nat → Nat → Nat → Option (Nat × Nat)
  | 0, Mask, Offset, Result => if 0 < Mask then none else some (Offset, Result)
  | fuel + 1, Mask, Offset, Result =>
    if 0 < Mask then
      let Index := countr_zero 64 Mask
      let Mask := Mask &&& (Mask - 1)
      let Result := Result ||| ((((Input >>> Index) &&& 1) <<< Offset) % 2 ^ 64)
      PExt_loop Input fuel Mask (Offset + 1) Result
    else some (Offset, Result)

/-- `Op_PExt`: as `Op_PDep`, with the loop of `PExt_loop`. -/
def Op_PExt (OpSize : Nat) (dst Src1 Src2 : Slot) : Option Slot :=
  if OpSize ≠ 4 ∧ OpSize ≠ 8 then none
  else
    let Input := if OpSize = 4 then GetSrc 4 Src1 else GetSrc 8 Src1
    let Mask := if OpSize = 4 then GetSrc 4 Src2 else GetSrc 8 Src2
    match PExt_loop Input 64 Mask 0 0 with
    | some (_, Result) => some (GD dst Result)
    | none => none

/-! ## VectorImm, VMov, VBSL -/

/-- Modelled from the spec: the macro `DO_VECTOR_0SRC_OP(size, type, func)` of
`InterpreterDefines.h`: the loop
`for (i = 0; i < Elements; ++i) Dst_d[i] = func();` over the local array `Tmp`.
`Func` receives the element width in bits. -/
def DO_VECTOR_0SRC_OP (size : Nat) (Func : Nat → Nat) (Elements : Nat) (Tmp : Slot) : Slot :=
  (List.range Elements).foldl (fun T i => setLane size T i (Func (8 * size))) Tmp

/-- Modelled from the spec: the macro `DO_VECTOR_1SRC_OP(size, type, func)` of
`InterpreterDefines.h`: the loop
`for (i = 0; i < Elements; ++i) Dst_d[i] = func(Src_d[i]);` over the local array
`Tmp`. -/
def DO_VECTOR_1SRC_OP (size : Nat) (Func : Nat → Nat → Nat) (Elements : Nat)
    (Tmp Src : Slot) : Slot :=
  (List.range Elements).foldl
    (fun T i => setLane size T i (Func (8 * size) (lane size Src i))) Tmp

/-- `Op_VectorImm`, with the immediate `Op->Immediate`: `uint8_t Imm` is captured
by the lambda `[Imm]() { return Imm; }`, whose result, a `uint8_t`, is stored
in elements of type `int8_t`, `int16_t`, `int32_t` or `int64_t`. -/
def Op_VectorImm (Tmp : Slot) (OpSize ElementSize Immediate : Nat) (dst : Slot) : Option Slot :=
  let Elements := OpSize / ElementSize
  let Imm := Immediate % 2 ^ 8
  let Func := fun (_ : Nat) => Imm
  match ElementSize with
  | 1 => some (storeLow OpSize dst (DO_VECTOR_0SRC_OP 1 Func Elements Tmp))
  | 2 => some (storeLow OpSize dst (DO_VECTOR_0SRC_OP 2 Func Elements Tmp))
  | 4 => some (storeLow OpSize dst (DO_VECTOR_0SRC_OP 4 Func Elements Tmp))
  | 8 => some (storeLow OpSize dst (DO_VECTOR_0SRC_OP 8 Func Elements Tmp))
  | _ => none

/-- `Op_VMov`: the source is read as `__uint128_t` and `memcpy(GDP, &Src, OpSize)`
copies its low `OpSize` bytes. The kernel has no switch on the operand size. -/
def Op_VMov (OpSize : Nat) (dst Src : Slot) : Option Slot :=
  some (storeLow OpSize dst (GetSrc 16 Src))

/-- `Op_VBSL`: `Tmp = Src2 & Src1; Tmp |= Src3 & ~Src1;` on `__uint128_t`, then
sixteen bytes are stored. -/
def Op_VBSL (dst Src1 Src2 Src3 : Slot) : Option Slot :=
  let S1 := GetSrc 16 Src1
  let S2 := GetSrc 16 Src2
  let S3 := GetSrc 16 Src3
  let Tmp := S2 &&& S1
  let Tmp := Tmp ||| (S3 &&& bitNot 128 S1)
  some (storeLow 16 dst Tmp)

/-! ## VCMPEQ, VCMPGT, VSQSub -/

/-- The lambda `Func` of `Op_VCMPEQ`: `a == b ? ~0ULL : 0`. -/
def VCMPEQ_Func (_w a b : Nat) : Nat := if a = b then 2 ^ 64 - 1 else 0

/-- `Op_VCMPEQ`, on the unsigned element types. -/
def Op_VCMPEQ (Tmp : Slot) (OpSize ElementSize : Nat) (dst Src1 Src2 : Slot) : Option Slot :=
  let Elements := OpSize / ElementSize
  match ElementSize with
  | 1 => some (storeLow OpSize dst (DO_VECTOR_OP 1 VCMPEQ_Func Elements Tmp Src1 Src2))
  | 2 => some (storeLow OpSize dst (DO_VECTOR_OP 2 VCMPEQ_Func Elements Tmp Src1 Src2))
  | 4 => some (storeLow OpSize dst (DO_VECTOR_OP 4 VCMPEQ_Func Elements Tmp Src1 Src2))
  | 8 => some (storeLow OpSize dst (DO_VECTOR_OP 8 VCMPEQ_Func Elements Tmp Src1 Src2))
  | _ => none

/-- The lambda `Func` of `Op_VCMPGT` at a signed element type of `w` bits:
`a > b ? ~0ULL : 0`. -/
def VCMPGT_Func (w a b : Nat) : Nat := if toSigned w a > toSigned w b then 2 ^ 64 - 1 else 0

/-- `Op_VCMPGT`, on the signed element types. -/
def Op_VCMPGT (Tmp : Slot) (OpSize ElementSize : Nat) (dst Src1 Src2 : Slot) : Option Slot :=
  let Elements := OpSize / ElementSize
  match ElementSize with
  | 1 => some (storeLow OpSize dst (DO_VECTOR_OP 1 VCMPGT_Func Elements Tmp Src1 Src2))
  | 2 => some (storeLow OpSize dst (DO_VECTOR_OP 2 VCMPGT_Func Elements Tmp Src1 Src2))
  | 4 => some (storeLow OpSize dst (DO_VECTOR_OP 4 VCMPGT_Func Elements Tmp Src1 Src2))
  | 8 => some (storeLow OpSize dst (DO_VECTOR_OP 8 VCMPGT_Func Elements Tmp Src1 Src2))
  | _ => none

/-- The lambda `Func` of `Op_VSQSub` at a signed element type of `w` bits:
`__int128_t res = a - b;` where `a - b` is formed in the promoted type of the
operands (`int` for elements up to 32 bits, the 64-bit type for `int64_t`;
overflow modelled as wrap-around at that width) and only then converted to
`__int128_t`; then `min` is returned when `res < min`, `max` when `res > max`,
and `res` converted to the element type otherwise. -/
def VSQSub_Func (w a b : Nat) : Nat :=
  let sa : Int := toSigned w a
  let sb : Int := toSigned w b
  let max : Int := 2 ^ (w - 1) - 1
  let min : Int := -(2 ^ (w - 1))
  let promoted : Nat := if w < 32 then 32 else w
  let res : Int := wrapSigned promoted (sa - sb)
  if res < min then toUnsigned w min
  else if res > max then toUnsigned w max
  else toUnsigned w res

/-- `Op_VSQSub`, on the signed element types. -/
def Op_VSQSub (Tmp : Slot) (OpSize ElementSize : Nat) (dst Src1 Src2 : Slot) : Option Slot :=
  let Elements := OpSize / ElementSize
  match ElementSize with
  | 1 => some (storeLow OpSize dst (DO_VECTOR_OP 1 VSQSub_Func Elements Tmp Src1 Src2))
  | 2 => some (storeLow OpSize dst (DO_VECTOR_OP 2 VSQSub_Func Elements Tmp Src1 Src2))
  | 4 => some (storeLow OpSize dst (DO_VECTOR_OP 4 VSQSub_Func Elements Tmp Src1 Src2))
  | 8 => some (storeLow OpSize dst (DO_VECTOR_OP 8 VSQSub_Func Elements Tmp Src1 Src2))
  | _ => none

/-! ## VExtr, VShlI, VUShrNI2 -/

/-- `Op_VExtr`, with the immediate `Op->Index`: both sources are read as
`__uint128_t` whatever the operand size; `Offset = Index * ElementSize * 8`.
When `Offset >= OpSize * 8` the result is `Src1 >> (Offset - OpSize * 8)`,
otherwise `(Src1 << (OpSize * 8 - Offset)) | (Src2 >> Offset)` on 128 bits; the
low `OpSize` bytes are stored. The left shift is by the full width when
`OpSize = 16` and `Offset = 0`, see `shlU`. -/
def Op_VExtr (wrapCount : Bool) (OpSize ElementSize Index : Nat) (dst Src1 Src2 : Slot) :
    Option Slot :=
  let S1 := GetSrc 16 Src1
  let S2 := GetSrc 16 Src2
  let Offset := Index * ElementSize * 8
  let Dst :=
    if Offset ≥ OpSize * 8 then
      let Offset := Offset - OpSize * 8
      S1 >>> Offset
    else
      shlU wrapCount 128 S1 (OpSize * 8 - Offset) ||| (S2 >>> Offset)
  some (storeLow OpSize dst Dst)

/-- The lambda `Func` of `Op_VShlI` at an unsigned element type of `w` bits:
`BitShift >= (sizeof(a) * 8) ? 0 : (a << BitShift)`, the shift being taken in
the promoted type of the operand (`int` for elements below 32 bits). -/
def VShlI_Func (BitShift : Nat) (w a : Nat) : Nat :=
  let promoted : Nat := if w < 32 then 32 else w
  if BitShift ≥ w then 0 else (a <<< BitShift) % 2 ^ promoted

/-- `Op_VShlI`, with the immediate `Op->BitShift` read as `uint8_t`. -/
def Op_VShlI (Tmp : Slot) (OpSize ElementSize BitShift : Nat) (dst Src : Slot) : Option Slot :=
  let Elements := OpSize / ElementSize
  let Func := VShlI_Func (BitShift % 2 ^ 8)
  match ElementSize with
  | 1 => some (storeLow OpSize dst (DO_VECTOR_1SRC_OP 1 Func Elements Tmp Src))
  | 2 => some (storeLow OpSize dst (DO_VECTOR_1SRC_OP 2 Func Elements Tmp Src))
  | 4 => some (storeLow OpSize dst (DO_VECTOR_1SRC_OP 4 Func Elements Tmp Src))
  | 8 => some (storeLow OpSize dst (DO_VECTOR_1SRC_OP 8 Func Elements Tmp Src))
  | _ => none

/-- Modelled from the spec: the macro
`DO_VECTOR_1SRC_2TYPE_OP_TOP(size, type, type2, func, min, max)` of
`InterpreterDefines.h`, used by the kernels whose name ends in `2`: the lower
half of the result (`Elements` elements of `size` bytes) is taken from source 1
and element `i + Elements` becomes `(type) func(Src2_d[i], min, max)`, the
second source being read at `type2`, of twice the size. -/
def DO_VECTOR_1SRC_2TYPE_OP_TOP (size : Nat) (Func : Nat → Nat → Nat) (Elements : Nat)
    (Tmp Src1 Src2 : Slot) : Slot :=
  (List.range Elements).foldl
    (fun T i => setLane size T (i + Elements) (Func (8 * (2 * size)) (lane (2 * size) Src2 i)))
    (storeLow (size * Elements) Tmp Src1)

/-- The lambda `Func` of `Op_VUShrNI2` at a wide unsigned type of `w` bits:
`BitShift >= (sizeof(a) * 8) ? 0 : a >> BitShift`. -/
def VUShrNI2_Func (BitShift : Nat) (w a : Nat) : Nat :=
  if BitShift ≥ w then 0 else a >>> BitShift

/-- `Op_VUShrNI2`, with the immediate `Op->BitShift` read as `uint8_t`:
`Elements = OpSize / (ElementSize << 1)`. -/
def Op_VUShrNI2 (Tmp : Slot) (OpSize ElementSize BitShift : Nat) (dst Src1 Src2 : Slot) :
    Option Slot :=
  let Elements := OpSize / (ElementSize <<< 1)
  let Func := VUShrNI2_Func (BitShift % 2 ^ 8)
  match ElementSize with
  | 1 => some (storeLow OpSize dst (DO_VECTOR_1SRC_2TYPE_OP_TOP 1 Func Elements Tmp Src1 Src2))
  | 2 => some (storeLow OpSize dst (DO_VECTOR_1SRC_2TYPE_OP_TOP 2 Func Elements Tmp Src1 Src2))
  | 4 => some (storeLow OpSize dst (DO_VECTOR_1SRC_2TYPE_OP_TOP 4 Func Elements Tmp Src1 Src2))
  | _ => none

/-! ## Floating-point compares: FCmp and the VFCMP kernels -/

/-- Number of fraction bits of the IEEE-754 binary format of `w` bits: 23 for
`float` (`w = 32`), 52 for `double`. -/
def fracBits (w : Nat) : Nat := if w = 32 then 23 else 52

/-- `std::isnan` on the bits `x` of a `float` (`w = 32`) or of a `double`
(`w = 64`): the exponent field is all ones and the fraction is not zero. -/
def isnan (w x : Nat) : Bool :=
  let f := fracBits w
  let e := w - 1 - f
  (x / 2 ^ f % 2 ^ e == 2 ^ e - 1) && (x % 2 ^ f != 0)

/-- The order key of the bits `x` of a value that is not a NaN: the magnitude
bits as an integer, negated when the sign bit is set, so that both zeros have
key 0 and the keys are ordered as the values are. -/
def floatKey (w x : Nat) : Int :=
  if x / 2 ^ (w - 1) % 2 = 1 then -((x % 2 ^ (w - 1) : Nat) : Int)
  else ((x % 2 ^ (w - 1) : Nat) : Int)

/-- The C++ `a < b` on `float` or `double` operands given by their bits: false
when either operand is a NaN. -/
def float_lt (w a b : Nat) : Bool :=
  !isnan w a && !isnan w b && decide (floatKey w a < floatKey w b)

/-- The C++ `a == b` on `float` or `double` operands given by their bits: false
when either operand is a NaN. -/
def float_eq (w a b : Nat) : Bool :=
  !isnan w a && !isnan w b && decide (floatKey w a = floatKey w b)

/-- The statement `ResultFlags |= (1 << flag)` on the `uint32_t` variable
`ResultFlags`. -/
def setFlag (ResultFlags flag : Nat) : Nat := (ResultFlags ||| (1 <<< flag)) % 2 ^ 32

/-- One branch of `Op_FCmp` (the `float` and the `double` branch have the same
text): `ResultFlags` after the three tests, on operands of `w` bits. The bit
indices `IR::FCMP_FLAG_LT`, `IR::FCMP_FLAG_UNORDERED`, `IR::FCMP_FLAG_EQ` are
declared in the IR headers and are parameters here. -/
def FCmp_flags (FCMP_FLAG_LT FCMP_FLAG_UNORDERED FCMP_FLAG_EQ : Nat) (w Flags Src1 Src2 : Nat) :
    Nat :=
  let Unordered : Bool := isnan w Src1 || isnan w Src2
  let R0 : Nat := 0
  let R1 : Nat :=
    if Flags &&& (1 <<< FCMP_FLAG_LT) ≠ 0 then
      if Unordered || float_lt w Src1 Src2 then setFlag R0 FCMP_FLAG_LT else R0
    else R0
  let R2 : Nat :=
    if Flags &&& (1 <<< FCMP_FLAG_UNORDERED) ≠ 0 then
      if Unordered then setFlag R1 FCMP_FLAG_UNORDERED else R1
    else R1
  let R3 : Nat :=
    if Flags &&& (1 <<< FCMP_FLAG_EQ) ≠ 0 then
      if Unordered || float_eq w Src1 Src2 then setFlag R2 FCMP_FLAG_EQ else R2
    else R2
  R3

/-- `Op_FCmp`, with the immediates `Op->ElementSize` and `Op->Flags`: the
operands are read as `float` when `ElementSize == 4` and as `double` otherwise;
`GD = ResultFlags`. -/
def Op_FCmp (FCMP_FLAG_LT FCMP_FLAG_UNORDERED FCMP_FLAG_EQ : Nat) (ElementSize Flags : Nat)
    (dst Src1 Src2 : Slot) : Option Slot :=
  if ElementSize = 4 then
    some (GD dst (FCmp_flags FCMP_FLAG_LT FCMP_FLAG_UNORDERED FCMP_FLAG_EQ 32 Flags
      (GetSrc 4 Src1) (GetSrc 4 Src2)))
  else
    some (GD dst (FCmp_flags FCMP_FLAG_LT FCMP_FLAG_UNORDERED FCMP_FLAG_EQ 64 Flags
      (GetSrc 8 Src1) (GetSrc 8 Src2)))

/-- Modelled from the spec: the macro `DO_SCALAR_COMPARE_OP(size, type, type2, func)`
of `InterpreterDefines.h`: one switch case storing
`Dst_d[0] = func(Src1_d[0], Src2_d[0])` in the local array `Tmp`, the sources
read at the floating-point `type` and the result stored at the unsigned
`type2` of the same size. -/
def DO_SCALAR_COMPARE_OP (size : Nat) (Func : Nat → Nat → Nat → Nat) (Tmp Src1 Src2 : Slot) :
    Slot :=
  setLane size Tmp 0 (Func (8 * size) (lane size Src1 0) (lane size Src2 0))

/-- Modelled from the spec: the macro `DO_VECTOR_COMPARE_OP(size, type, type2, func)`
of `InterpreterDefines.h`: one switch case with the loop
`for (i = 0; i < Elements; ++i) Dst_d[i] = func(Src1_d[i], Src2_d[i]);` over the
local array `Tmp`. -/
def DO_VECTOR_COMPARE_OP (size : Nat) (Func : Nat → Nat → Nat → Nat) (Elements : Nat)
    (Tmp Src1 Src2 : Slot) : Slot :=
  (List.range Elements).foldl
    (fun T i => setLane size T i (Func (8 * size) (lane size Src1 i) (lane size Src2 i))) Tmp

/-- The body shared, word for word, by the seven float compare kernels, which
differ in the lambda `Func` only: the scalar switch when
`ElementSize == OpSize`, the vector switch otherwise, then
`memcpy(GDP, Tmp, OpSize)`. -/
def VFCMP_body (Func : Nat → Nat → Nat → Nat) (Tmp : Slot) (OpSize ElementSize : Nat)
    (dst Src1 Src2 : Slot) : Option Slot :=
  let Elements := OpSize / ElementSize
  if ElementSize = OpSize then
    match ElementSize with
    | 4 => some (storeLow OpSize dst (DO_SCALAR_COMPARE_OP 4 Func Tmp Src1 Src2))
    | 8 => some (storeLow OpSize dst (DO_SCALAR_COMPARE_OP 8 Func Tmp Src1 Src2))
    | _ => none
  else
    match ElementSize with
    | 4 => some (storeLow OpSize dst (DO_VECTOR_COMPARE_OP 4 Func Elements Tmp Src1 Src2))
    | 8 => some (storeLow OpSize dst (DO_VECTOR_COMPARE_OP 8 Func Elements Tmp Src1 Src2))
    | _ => none

/-- The lambda of `Op_VFCMPEQ`: `a == b ? ~0ULL : 0`. -/
def VFCMPEQ_Func (w a b : Nat) : Nat := if float_eq w a b then 2 ^ 64 - 1 else 0

/-- The lambda of `Op_VFCMPNEQ`: `a != b ? ~0ULL : 0`. -/
def VFCMPNEQ_Func (w a b : Nat) : Nat := if !float_eq w a b then 2 ^ 64 - 1 else 0

/-- The lambda of `Op_VFCMPLT`: `a < b ? ~0ULL : 0`. -/
def VFCMPLT_Func (w a b : Nat) : Nat := if float_lt w a b then 2 ^ 64 - 1 else 0

/-- The lambda of `Op_VFCMPGT`: `a > b ? ~0ULL : 0`. -/
def VFCMPGT_Func (w a b : Nat) : Nat := if float_lt w b a then 2 ^ 64 - 1 else 0

/-- The lambda of `Op_VFCMPLE`: `a <= b ? ~0ULL : 0`. -/
def VFCMPLE_Func (w a b : Nat) : Nat :=
  if float_lt w a b || float_eq w a b then 2 ^ 64 - 1 else 0

/-- The lambda of `Op_VFCMPORD`: `(!std::isnan(a) && !std::isnan(b)) ? ~0ULL : 0`. -/
def VFCMPORD_Func (w a b : Nat) : Nat := if !isnan w a && !isnan w b then 2 ^ 64 - 1 else 0

/-- The lambda of `Op_VFCMPUNO`: `(std::isnan(a) || std::isnan(b)) ? ~0ULL : 0`. -/
def VFCMPUNO_Func (w a b : Nat) : Nat := if isnan w a || isnan w b then 2 ^ 64 - 1 else 0

def Op_VFCMPEQ (Tmp : Slot) (OpSize ElementSize : Nat) (dst Src1 Src2 : Slot) : Option Slot :=
  VFCMP_body VFCMPEQ_Func Tmp OpSize ElementSize dst Src1 Src2

def Op_VFCMPNEQ (Tmp : Slot) (OpSize ElementSize : Nat) (dst Src1 Src2 : Slot) : Option Slot :=
  VFCMP_body VFCMPNEQ_Func Tmp OpSize ElementSize dst Src1 Src2

def Op_VFCMPLT (Tmp : Slot) (OpSize ElementSize : Nat) (dst Src1 Src2 : Slot) : Option Slot :=
  VFCMP_body VFCMPLT_Func Tmp OpSize ElementSize dst Src1 Src2

/-- `Op_VFCMPGT`; the kernel casts the operation to `IROp_VFCMPLT`, which has the
same fields. -/
def Op_VFCMPGT (Tmp : Slot) (OpSize ElementSize : Nat) (dst Src1 Src2 : Slot) : Option Slot :=
  VFCMP_body VFCMPGT_Func Tmp OpSize ElementSize dst Src1 Src2

def Op_VFCMPLE (Tmp : Slot) (OpSize ElementSize : Nat) (dst Src1 Src2 : Slot) : Option Slot :=
  VFCMP_body VFCMPLE_Func Tmp OpSize ElementSize dst Src1 Src2

def Op_VFCMPORD (Tmp : Slot) (OpSize ElementSize : Nat) (dst Src1 Src2 : Slot) : Option Slot :=
  VFCMP_body VFCMPORD_Func Tmp OpSize ElementSize dst Src1 Src2

def Op_VFCMPUNO (Tmp : Slot) (OpSize ElementSize : Nat) (dst Src1 Src2 : Slot) : Option Slot :=
  VFCMP_body VFCMPUNO_Func Tmp OpSize ElementSize dst Src1 Src2

/-! ## Guest context layouts (`UContext.h`) -/

/-- Sizes in bytes of the scalar types used by `UContext.h`. -/
def uint16_t : Nat := 2

def uint32_t : Nat := 4

def int32_t : Nat := 4

/-- The type `int` of the Linux hosts, 4 bytes. -/
def c_int : Nat := 4

def uint64_t : Nat := 8

def __uint128_t : Nat := 16

/-- The names of the members of the structs of `UContext.h`; `bitfield` is the
unnamed bit-field `uint32_t : 32` of `x86_64::stack_t`. -/
inductive Member where
  | ss_sp | ss_flags | bitfield | ss_size
  | fcw | fsw | ftw | fop | fip | fdp | mxcsr | mxcsr_mask | _st | _xmm | _res
  | gregs | fpregs | __reserved | val
  | uc_flags | uc_link | uc_stack | uc_mcontext | uc_sigmask
  | si_signo | si_errno | si_code | _sifields
  | oldmask | cr2 | significand | exponent
  | cssel | dataoff | datasel | status | pad | reserved | _st_pad | pad2 | pad3
  deriving DecidableEq

/-- One member declaration of a struct: its name and the size in bytes of its
type (for an array, element size times length). -/
structure Field where
  name : Member
  size : Nat

/-- Modelled from the spec: `sizeof` of a struct declared `FEX_PACKED`
(`CompilerDefs.h`): packed layout, the members follow each other without
padding, so the size is the sum of the member sizes. -/
def sizeof (s : List Field) : Nat := (s.map Field.size).sum

/-- Modelled from the spec: `offsetof` in a packed struct: the sum of the sizes of
the members declared before the member; `none` for a name the struct does not
declare. -/
def offsetof : List Field → Member → Option Nat
  | [], _ => none
  | f :: fs, m => if f.name = m then some 0 else (offsetof fs m).map (fun o => f.size + o)

/-- The size of the named member of a struct. -/
def memberSize : List Field → Member → Option Nat
  | [], _ => none
  | f :: fs, m => if f.name = m then some f.size else memberSize fs m

/-- Size of a `union`: the largest of its member sizes. -/
def unionSize (members : List Nat) : Nat := members.foldl max 0

/-- The value of an enumerator of a C++ `enum` whose first enumerator is `= 0`
and whose other enumerators have no initialiser: its position in the
declaration order. -/
def enumValue {α : Type} [DecidableEq α] (enumerators : List α) (e : α) : Nat :=
  enumerators.indexOf e

/-- `FEXCore::x86_64::stack_t`; `ptr` is the size of a host pointer and of
`size_t`. -/
def x86_64.stack_t (ptr : Nat) : List Field :=
  [⟨.ss_sp, ptr⟩, ⟨.ss_flags, int32_t⟩, ⟨.bitfield, 32 / 8⟩, ⟨.ss_size, ptr⟩]

/-- `FEXCore::x86_64::_libc_fpstate`, the FXSAVE format. -/
def x86_64._libc_fpstate : List Field :=
  [⟨.fcw, uint16_t⟩, ⟨.fsw, uint16_t⟩, ⟨.ftw, uint16_t⟩, ⟨.fop, uint16_t⟩,
   ⟨.fip, uint64_t⟩, ⟨.fdp, uint64_t⟩, ⟨.mxcsr, uint32_t⟩, ⟨.mxcsr_mask, uint32_t⟩,
   ⟨._st, __uint128_t * 8⟩, ⟨._xmm, __uint128_t * 16⟩, ⟨._res, uint32_t * 24⟩]

/-- `FEXCore::x86_64::ContextRegs`. -/
inductive x86_64.ContextRegs where
  | FEX_REG_R8 | FEX_REG_R9 | FEX_REG_R10 | FEX_REG_R11 | FEX_REG_R12 | FEX_REG_R13
  | FEX_REG_R14 | FEX_REG_R15 | FEX_REG_RDI | FEX_REG_RSI | FEX_REG_RBP | FEX_REG_RBX
  | FEX_REG_RDX | FEX_REG_RAX | FEX_REG_RCX | FEX_REG_RSP | FEX_REG_RIP | FEX_REG_EFL
  | FEX_REG_CSGSFS | FEX_REG_ERR | FEX_REG_TRAPNO | FEX_REG_OLDMASK | FEX_REG_CR2
  deriving DecidableEq, Fintype

/-- The enumerators of `x86_64::ContextRegs` in declaration order, the first one
declared `= 0`. -/
def x86_64.ContextRegs.enumerators : List x86_64.ContextRegs :=
  [.FEX_REG_R8, .FEX_REG_R9, .FEX_REG_R10, .FEX_REG_R11, .FEX_REG_R12, .FEX_REG_R13,
   .FEX_REG_R14, .FEX_REG_R15, .FEX_REG_RDI, .FEX_REG_RSI, .FEX_REG_RBP, .FEX_REG_RBX,
   .FEX_REG_RDX, .FEX_REG_RAX, .FEX_REG_RCX, .FEX_REG_RSP, .FEX_REG_RIP, .FEX_REG_EFL,
   .FEX_REG_CSGSFS, .FEX_REG_ERR, .FEX_REG_TRAPNO, .FEX_REG_OLDMASK, .FEX_REG_CR2]

/-- `FEXCore::x86_64::mcontext_t`. -/
def x86_64.mcontext_t (ptr : Nat) : List Field :=
  [⟨.gregs, uint64_t * 23⟩, ⟨.fpregs, ptr⟩, ⟨.__reserved, uint64_t * 8⟩]

/-- `FEXCore::x86_64::sigset_t`. -/
def x86_64.sigset_t : List Field := [⟨.val, uint64_t * 16⟩]

/-- `FEXCore::x86_64::ucontext_t`. -/
def x86_64.ucontext_t (ptr : Nat) : List Field :=
  [⟨.uc_flags, uint64_t⟩, ⟨.uc_link, ptr⟩, ⟨.uc_stack, sizeof (x86_64.stack_t ptr)⟩,
   ⟨.uc_mcontext, sizeof (x86_64.mcontext_t ptr)⟩, ⟨.uc_sigmask, sizeof x86_64.sigset_t⟩]

/-- `FEXCore::x86::ContextRegs`. -/
inductive x86.ContextRegs where
  | FEX_REG_GS | FEX_REG_FS | FEX_REG_ES | FEX_REG_DS | FEX_REG_RDI | FEX_REG_RSI
  | FEX_REG_RBP | FEX_REG_RSP | FEX_REG_RBX | FEX_REG_RDX | FEX_REG_RCX | FEX_REG_RAX
  | FEX_REG_TRAPNO | FEX_REG_ERR | FEX_REG_EIP | FEX_REG_CS | FEX_REG_EFL | FEX_REG_UESP
  | FEX_REG_SS
  deriving DecidableEq, Fintype

/-- The enumerators of `x86::ContextRegs` in declaration order, the first one
declared `= 0`. -/
def x86.ContextRegs.enumerators : List x86.ContextRegs :=
  [.FEX_REG_GS, .FEX_REG_FS, .FEX_REG_ES, .FEX_REG_DS, .FEX_REG_RDI, .FEX_REG_RSI,
   .FEX_REG_RBP, .FEX_REG_RSP, .FEX_REG_RBX, .FEX_REG_RDX, .FEX_REG_RCX, .FEX_REG_RAX,
   .FEX_REG_TRAPNO, .FEX_REG_ERR, .FEX_REG_EIP, .FEX_REG_CS, .FEX_REG_EFL, .FEX_REG_UESP,
   .FEX_REG_SS]

/-- The union `_sifields` of `FEXCore::x86::siginfo_t`: `pad[29]`, `_sigfault`
(one `uint32_t`), `_sigchld` (five `int32_t`), `_timer` (two `int` and a
`sigval_t`, itself a union of an `int` and a `uint32_t`). -/
def x86.siginfo_t._sifields : Nat :=
  unionSize [uint32_t * 29, uint32_t, int32_t * 5, c_int + c_int + unionSize [c_int, uint32_t]]

/-- The data members of `FEXCore::x86::siginfo_t`. -/
def x86.siginfo_t.layout : List Field :=
  [⟨.si_signo, c_int⟩, ⟨.si_errno, c_int⟩, ⟨.si_code, c_int⟩,
   ⟨._sifields, x86.siginfo_t._sifields⟩]

/-- `FEXCore::x86::stack_t`. -/
def x86.stack_t : List Field :=
  [⟨.ss_sp, uint32_t⟩, ⟨.ss_flags, c_int⟩, ⟨.ss_size, uint32_t⟩]

/-- `FEXCore::x86::mcontext_t`. -/
def x86.mcontext_t : List Field :=
  [⟨.gregs, uint32_t * 19⟩, ⟨.fpregs, uint32_t⟩, ⟨.oldmask, uint32_t⟩, ⟨.cr2, uint32_t⟩]

/-- `FEXCore::x86::_libc_fpreg` (not declared packed; its members are all
`uint16_t`, so there is no padding either). -/
def x86._libc_fpreg : List Field := [⟨.significand, uint16_t * 4⟩, ⟨.exponent, uint16_t⟩]

/-- `FEXCore::x86::_libc_fpstate`. -/
def x86._libc_fpstate : List Field :=
  [⟨.fcw, uint32_t⟩, ⟨.fsw, uint32_t⟩, ⟨.ftw, uint32_t⟩, ⟨.fop, uint32_t⟩,
   ⟨.cssel, uint32_t⟩, ⟨.dataoff, uint32_t⟩, ⟨.datasel, uint32_t⟩,
   ⟨._st, sizeof x86._libc_fpreg * 8⟩, ⟨.status, uint32_t⟩,
   ⟨.pad, uint32_t * 6⟩, ⟨.mxcsr, uint32_t⟩, ⟨.reserved, uint32_t⟩,
   ⟨._st_pad, __uint128_t * 8⟩, ⟨._xmm, __uint128_t * 8⟩,
   ⟨.pad2, uint32_t * 44⟩, ⟨.pad3, uint32_t * 12⟩]

/-- `FEXCore::x86::ucontext_t`; the signal mask is the one of `x86_64`. -/
def x86.ucontext_t : List Field :=
  [⟨.uc_flags, uint32_t⟩, ⟨.uc_link, uint32_t⟩, ⟨.uc_stack, sizeof x86.stack_t⟩,
   ⟨.uc_mcontext, sizeof x86.mcontext_t⟩, ⟨.uc_sigmask, sizeof x86_64.sigset_t⟩]

/-! ## The 32-bit guest `siginfo_t` and its conversions -/

/-- The value of a `FEXCore::x86::siginfo_t`: the three `int` members and the
member `pad` of the union `_sifields`, an array of 29 `uint32_t`. -/
structure x86.siginfo_t where
  si_signo : Int
  si_errno : Int
  si_code : Int
  pad : List Nat

/-- The value of the host `::siginfo_t`, of 128 bytes, seen through the member
`FEXDef` of the union `HostSigInfo_t`: three `uint32_t`, the `uint32_t`
`__pad0` and the array `_pad` of 28 `uint32_t`. -/
structure x86.HostSigInfo_t where
  si_signo : Nat
  si_errno : Nat
  si_code : Nat
  __pad0 : Nat
  _pad : List Nat

/-- `memcpy(dst, src, n)` between two arrays of `uint32_t`, for `n` a multiple
of 4 within both arrays: the first `n / 4` elements of `dst` become those of
`src`, the others keep their content. -/
def memcpy_words (dst src : List Nat) (n : Nat) : List Nat :=
  src.take (n / uint32_t) ++ dst.drop (n / uint32_t)

/-- `siginfo_t::operator ::siginfo_t() const`: `HostSigInfo_t val{}` is all
zeros; the three `int` members are converted to `uint32_t`, `__pad0` is set to
zero and `std::min(sizeof(val.FEXDef._pad), sizeof(_sifields.pad))` bytes of
`_sifields.pad` are copied to `val.FEXDef._pad`. -/
def x86.siginfo_t.toHost (self : x86.siginfo_t) : x86.HostSigInfo_t :=
  let val : x86.HostSigInfo_t := ⟨0, 0, 0, 0, List.replicate 28 0⟩
  ⟨toUnsigned 32 self.si_signo, toUnsigned 32 self.si_errno, toUnsigned 32 self.si_code, 0,
    memcpy_words val._pad self.pad (min (uint32_t * 28) (uint32_t * 29))⟩

/-- The constructor `siginfo_t(::siginfo_t val)`. `self` is the content of the
object under construction on entry (no member has an initialiser); the three
`uint32_t` members of the host value are converted to `int` and
`std::min(sizeof(host.FEXDef._pad), sizeof(_sifields.pad))` bytes of
`host.FEXDef._pad` are copied to `_sifields.pad`. -/
def x86.siginfo_t.ofHost (self : x86.siginfo_t) (val : x86.HostSigInfo_t) : x86.siginfo_t :=
  ⟨toSigned 32 val.si_signo, toSigned 32 val.si_errno, toSigned 32 val.si_code,
    memcpy_words self.pad val._pad (min (uint32_t * 28) (uint32_t * 29))⟩

/-! ## Neg, Mul, UMul, UDiv, URem -/

/-- `Op_Neg`: the source is read as `uint64_t`; `GD = -static_cast<int32_t>(Src)`
at size 4 and `GD = -static_cast<int64_t>(Src)` at size 8, the negation of the
most negative value modelled as wrap-around and the result converted to
`uint64_t` by the store. -/
def Op_Neg (OpSize : Nat) (dst Src : Slot) : Option Slot :=
  let S := GetSrc 8 Src
  match OpSize with
  | 4 => some (GD dst (toUnsigned 64 (wrapSigned 32 (-(toSigned 32 S)))))
  | 8 => some (GD dst (toUnsigned 64 (wrapSigned 64 (-(toSigned 64 S)))))
  | _ => none

/-- `Op_Mul`: both sources are read as `uint64_t`. At size 4 the sources cast to
`int32_t` and widened to `int64_t` are multiplied; at size 8 the sources cast to
`int64_t` are multiplied (overflow modelled as wrap-around); at size 16 the
sources cast to `int64_t` and widened to `__int128_t` are multiplied and
sixteen bytes are stored. -/
def Op_Mul (OpSize : Nat) (dst Src1 Src2 : Slot) : Option Slot :=
  let S1 := GetSrc 8 Src1
  let S2 := GetSrc 8 Src2
  match OpSize with
  | 4 => some (GD dst (toUnsigned 64 (wrapSigned 64 (toSigned 32 S1 * toSigned 32 S2))))
  | 8 => some (GD dst (toUnsigned 64 (wrapSigned 64 (toSigned 64 S1 * toSigned 64 S2))))
  | 16 =>
    let Tmp : Int := wrapSigned 128 (toSigned 64 S1 * toSigned 64 S2)
    some (storeLow 16 dst (toUnsigned 128 Tmp))
  | _ => none

/-- `Op_UMul`: both sources are read as `uint64_t`. At size 4 the product of the
sources cast to `uint32_t` is formed on `uint32_t`; at size 8 on `uint64_t`; at
size 16 the sources widened to `__uint128_t` are multiplied and sixteen bytes
are stored. -/
def Op_UMul (OpSize : Nat) (dst Src1 Src2 : Slot) : Option Slot :=
  let S1 := GetSrc 8 Src1
  let S2 := GetSrc 8 Src2
  match OpSize with
  | 4 => some (GD dst ((S1 % 2 ^ 32 * (S2 % 2 ^ 32)) % 2 ^ 32))
  | 8 => some (GD dst ((S1 * S2) % 2 ^ 64))
  | 16 =>
    let Tmp := (S1 * S2) % 2 ^ 128
    some (storeLow 16 dst Tmp)
  | _ => none

/-- `Op_UDiv`: both sources are read as `uint64_t`, cast to the unsigned type of
the operand size, widened to `uint64_t` and divided; at size 16 both sources
are read as `__uint128_t` and sixteen bytes are stored. The source leaves a
zero divisor undefined; the model then has the value of the division of `Nat`. -/
def Op_UDiv (OpSize : Nat) (dst Src1 Src2 : Slot) : Option Slot :=
  let S1 := GetSrc 8 Src1
  let S2 := GetSrc 8 Src2
  match OpSize with
  | 1 => some (GD dst (S1 % 2 ^ 8 / (S2 % 2 ^ 8)))
  | 2 => some (GD dst (S1 % 2 ^ 16 / (S2 % 2 ^ 16)))
  | 4 => some (GD dst (S1 % 2 ^ 32 / (S2 % 2 ^ 32)))
  | 8 => some (GD dst (S1 / S2))
  | 16 => some (storeLow 16 dst (GetSrc 16 Src1 / GetSrc 16 Src2))
  | _ => none

/-- `Op_URem`: as `Op_UDiv`, with `%`. -/
def Op_URem (OpSize : Nat) (dst Src1 Src2 : Slot) : Option Slot :=
  let S1 := GetSrc 8 Src1
  let S2 := GetSrc 8 Src2
  match OpSize with
  | 1 => some (GD dst (S1 % 2 ^ 8 % (S2 % 2 ^ 8)))
  | 2 => some (GD dst (S1 % 2 ^ 16 % (S2 % 2 ^ 16)))
  | 4 => some (GD dst (S1 % 2 ^ 32 % (S2 % 2 ^ 32)))
  | 8 => some (GD dst (S1 % S2))
  | 16 => some (storeLow 16 dst (GetSrc 16 Src1 % GetSrc 16 Src2))
  | _ => none

/-! ## Or, And, Andn, Xor -/

/-- `Op_Or`: `[](auto a, auto b) { return a | b; }` at the unsigned types of 1, 2,
4, 8 and 16 bytes. -/
def Op_Or (OpSize : Nat) (dst Src1 Src2 : Slot) : Option Slot :=
  let Func := fun (_w a b : Nat) => a ||| b
  match OpSize with
  | 1 => some (DO_OP 1 Func dst Src1 Src2)
  | 2 => some (DO_OP 2 Func dst Src1 Src2)
  | 4 => some (DO_OP 4 Func dst Src1 Src2)
  | 8 => some (DO_OP 8 Func dst Src1 Src2)
  | 16 => some (DO_OP 16 Func dst Src1 Src2)
  | _ => none

/-- `Op_And`: `[](auto a, auto b) { return a & b; }` at the unsigned types of 1,
2, 4 and 8 bytes. -/
def Op_And (OpSize : Nat) (dst Src1 Src2 : Slot) : Option Slot :=
  let Func := fun (_w a b : Nat) => a &&& b
  match OpSize with
  | 1 => some (DO_OP 1 Func dst Src1 Src2)
  | 2 => some (DO_OP 2 Func dst Src1 Src2)
  | 4 => some (DO_OP 4 Func dst Src1 Src2)
  | 8 => some (DO_OP 8 Func dst Src1 Src2)
  | _ => none

/-- `Op_Andn`: `static_cast<Type>(a & static_cast<Type>(~b))` at the unsigned
types of 1, 2, 4 and 8 bytes. -/
def Op_Andn (OpSize : Nat) (dst Src1 Src2 : Slot) : Option Slot :=
  let Func := fun (w a b : Nat) => (a &&& bitNot w b) % 2 ^ w
  match OpSize with
  | 1 => some (DO_OP 1 Func dst Src1 Src2)
  | 2 => some (DO_OP 2 Func dst Src1 Src2)
  | 4 => some (DO_OP 4 Func dst Src1 Src2)
  | 8 => some (DO_OP 8 Func dst Src1 Src2)
  | _ => none

/-- `Op_Xor`: `[](auto a, auto b) { return a ^ b; }` at the unsigned types of 1,
2, 4 and 8 bytes. -/
def Op_Xor (OpSize : Nat) (dst Src1 Src2 : Slot) : Option Slot :=
  let Func := fun (_w a b : Nat) => a ^^^ b
  match OpSize with
  | 1 => some (DO_OP 1 Func dst Src1 Src2)
  | 2 => some (DO_OP 2 Func dst Src1 Src2)
  | 4 => some (DO_OP 4 Func dst Src1 Src2)
  | 8 => some (DO_OP 8 Func dst Src1 Src2)
  | _ => none

/-! ## FindTrailingZeros, CountLeadingZeroes, Rev -/

/-- `Op_FindTrailingZeros`: `GD = std::countr_zero(Src)`, the source read at the
unsigned type of the operand size. -/
def Op_FindTrailingZeros (OpSize : Nat) (dst Src : Slot) : Option Slot :=
  match OpSize with
  | 1 => some (GD dst (countr_zero 8 (GetSrc 1 Src)))
  | 2 => some (GD dst (countr_zero 16 (GetSrc 2 Src)))
  | 4 => some (GD dst (countr_zero 32 (GetSrc 4 Src)))
  | 8 => some (GD dst (countr_zero 64 (GetSrc 8 Src)))
  | _ => none

/-- `Op_CountLeadingZeroes`: `GD = std::countl_zero(Src)`, the source read at
the unsigned type of the operand size. -/
def Op_CountLeadingZeroes (OpSize : Nat) (dst Src : Slot) : Option Slot :=
  match OpSize with
  | 1 => some (GD dst (countl_zero 8 (GetSrc 1 Src)))
  | 2 => some (GD dst (countl_zero 16 (GetSrc 2 Src)))
  | 4 => some (GD dst (countl_zero 32 (GetSrc 4 Src)))
  | 8 => some (GD dst (countl_zero 64 (GetSrc 8 Src)))
  | _ => none

/-- Modelled from the spec: `BSwap16`, `BSwap32`, `BSwap64` of `BitUtils.h`, the
byte swap of a value of `n` bytes: byte `i` of the value becomes byte
`n - 1 - i` of the result. -/
def BSwap (n x : Nat) : Nat :=
  (List.range n).foldl (fun r i => r ||| (byteAt x i <<< (8 * (n - 1 - i)))) 0

/-- `Op_Rev`: `GD = BSwap16/32/64(Src)`, the source read at the unsigned type of
the operand size. -/
def Op_Rev (OpSize : Nat) (dst Src : Slot) : Option Slot :=
  match OpSize with
  | 2 => some (GD dst (BSwap 2 (GetSrc 2 Src)))
  | 4 => some (GD dst (BSwap 4 (GetSrc 4 Src)))
  | 8 => some (GD dst (BSwap 8 (GetSrc 8 Src)))
  | _ => none

/-! ## VZip, VUnZip -/

/-- The loop of one switch case of `Op_VZip` over the local array `Tmp`:
`Dst_d[i*2] = Src1_d[BaseOffset + i]; Dst_d[i*2+1] = Src2_d[BaseOffset + i];`
for `i` below `Elements`, on elements of `size` bytes. -/
def VZip_loop (size Elements BaseOffset : Nat) (Tmp Src1 Src2 : Slot) : Slot :=
  (List.range Elements).foldl
    (fun T i => setLane size (setLane size T (i * 2) (lane size Src1 (BaseOffset + i)))
      (i * 2 + 1) (lane size Src2 (BaseOffset + i))) Tmp

/-- `Op_VZip`, the kernel of both `VZip` and `VZip2`: `IsVZip2` is the test
`IROp->Op == IR::OP_VZIP2`. `Elements = OpSize / ElementSize`,
`BaseOffset = IsVZip2 ? Elements / 2 : 0`, then `Elements >>= 1`. -/
def Op_VZip (IsVZip2 : Bool) (Tmp : Slot) (OpSize ElementSize : Nat) (dst Src1 Src2 : Slot) :
    Option Slot :=
  let Elements := OpSize / ElementSize
  let BaseOffset := if IsVZip2 then Elements / 2 else 0
  let Elements := Elements >>> 1
  match ElementSize with
  | 1 => some (storeLow OpSize dst (VZip_loop 1 Elements BaseOffset Tmp Src1 Src2))
  | 2 => some (storeLow OpSize dst (VZip_loop 2 Elements BaseOffset Tmp Src1 Src2))
  | 4 => some (storeLow OpSize dst (VZip_loop 4 Elements BaseOffset Tmp Src1 Src2))
  | 8 => some (storeLow OpSize dst (VZip_loop 8 Elements BaseOffset Tmp Src1 Src2))
  | _ => none

/-- The loop of one switch case of `Op_VUnZip` over the local array `Tmp`:
`Dst_d[i] = Src1_d[Start + (i * 2)]; Dst_d[Elements+i] = Src2_d[Start + (i * 2)];`
for `i` below `Elements`, on elements of `size` bytes. -/
def VUnZip_loop (size Elements Start : Nat) (Tmp Src1 Src2 : Slot) : Slot :=
  (List.range Elements).foldl
    (fun T i => setLane size (setLane size T i (lane size Src1 (Start + i * 2)))
      (Elements + i) (lane size Src2 (Start + i * 2))) Tmp

/-- `Op_VUnZip`, the kernel of both `VUnZip` and `VUnZip2`: `IsVUnZip` is the
test `IROp->Op == IR::OP_VUNZIP`. `Elements = OpSize / ElementSize`,
`Start = IsVUnZip ? 0 : 1`, then `Elements >>= 1`. -/
def Op_VUnZip (IsVUnZip : Bool) (Tmp : Slot) (OpSize ElementSize : Nat) (dst Src1 Src2 : Slot) :
    Option Slot :=
  let Elements := OpSize / ElementSize
  let Start := if IsVUnZip then 0 else 1
  let Elements := Elements >>> 1
  match ElementSize with
  | 1 => some (storeLow OpSize dst (VUnZip_loop 1 Elements Start Tmp Src1 Src2))
  | 2 => some (storeLow OpSize dst (VUnZip_loop 2 Elements Start Tmp Src1 Src2))
  | 4 => some (storeLow OpSize dst (VUnZip_loop 4 Elements Start Tmp Src1 Src2))
  | 8 => some (storeLow OpSize dst (VUnZip_loop 8 Elements Start Tmp Src1 Src2))
  | _ => none

/-! ## Basic facts about slots -/

theorem GetSrc_lt (n : Nat) (s : Slot) : GetSrc n s < 2 ^ (8 * n) :=
  Nat.mod_lt _ (by positivity)

theorem GetSrc_storeLow (n : Nat) (dst : Slot) (v : Nat) :
    GetSrc n (storeLow n dst v) = v % 2 ^ (8 * n) := by
  unfold GetSrc storeLow
  rw [Nat.add_comm, Nat.add_mul_mod_self_right, Nat.mod_mod]

theorem storeLow_div (n : Nat) (dst : Slot) (v : Nat) :
    storeLow n dst v / 2 ^ (8 * n) = dst / 2 ^ (8 * n) := by
  unfold storeLow
  have hp : 0 < 2 ^ (8 * n) := by positivity
  rw [Nat.add_comm, Nat.add_mul_div_right _ _ hp,
    Nat.div_eq_of_lt (Nat.mod_lt _ hp), Nat.zero_add]

theorem GetSrc_GD (dst : Slot) (v : Nat) : GetSrc 8 (GD dst v) = v % 2 ^ 64 :=
  GetSrc_storeLow 8 dst v

theorem GetSrc_GetSrc_of_le {m n : Nat} (h : m ≤ n) (s : Slot) :
    GetSrc m (GetSrc n s) = GetSrc m s := by
  unfold GetSrc
  exact Nat.mod_mod_of_dvd _ (pow_dvd_pow 2 (by omega))

theorem toUnsigned_lt (w : Nat) (z : Int) : toUnsigned w z < 2 ^ w := by
  unfold toUnsigned
  have hp : (0 : Int) < 2 ^ w := by positivity
  have h1 := Int.emod_lt_of_pos z hp
  have h2 := Int.emod_nonneg z hp.ne.symm
  zify
  rw [Int.toNat_of_nonneg h2]
  exact h1

theorem toUnsigned_cast (w : Nat) (z : Int) : ((toUnsigned w z : Nat) : Int) = z % 2 ^ w := by
  unfold toUnsigned
  exact Int.toNat_of_nonneg (Int.emod_nonneg z (by positivity))

/-! ## Two's complement -/

theorem two_pow_pred (w : Nat) (hw : 0 < w) : (2 : Nat) ^ w = 2 * 2 ^ (w - 1) := by
  obtain ⟨n, rfl⟩ : ∃ n, w = n + 1 := ⟨w - 1, by omega⟩
  simp [pow_succ, Nat.mul_comm]

theorem toSigned_bounds (w : Nat) (hw : 0 < w) (x : Nat) :
    -(2 : Int) ^ (w - 1) ≤ toSigned w x ∧ toSigned w x < 2 ^ (w - 1) := by
  unfold toSigned
  have h2 := two_pow_pred w hw
  have hm := Nat.mod_lt x (show 0 < 2 ^ w by positivity)
  have e1 : (2 : Int) ^ (w - 1) = ((2 ^ (w - 1) : Nat) : Int) := by push_cast; rfl
  have e2 : (2 : Int) ^ w = ((2 ^ w : Nat) : Int) := by push_cast; rfl
  rw [e1, e2]
  split <;> omega

theorem toSigned_emod (w : Nat) (x : Nat) : toSigned w x % 2 ^ w = ((x % 2 ^ w : Nat) : Int) := by
  unfold toSigned
  have hm := Nat.mod_lt x (show 0 < 2 ^ w by positivity)
  have e2 : (2 : Int) ^ w = ((2 ^ w : Nat) : Int) := by push_cast; rfl
  split
  · rw [e2]
    exact Int.emod_eq_of_lt (by omega) (by omega)
  · rw [Int.sub_emod, Int.emod_self, sub_zero, Int.emod_emod, e2]
    exact Int.emod_eq_of_lt (by omega) (by omega)

theorem toUnsigned_toSigned (w : Nat) (x : Nat) : toUnsigned w (toSigned w x) = x % 2 ^ w := by
  unfold toUnsigned
  rw [toSigned_emod]
  exact Int.toNat_natCast _

theorem toSigned_mod_of_le {w v : Nat} (h : w ≤ v) (x : Nat) :
    toSigned w (x % 2 ^ v) = toSigned w x := by
  unfold toSigned
  rw [Nat.mod_mod_of_dvd _ (pow_dvd_pow 2 h)]

theorem toSigned_GetSrc {w n : Nat} (h : w ≤ 8 * n) (s : Slot) :
    toSigned w (GetSrc n s) = toSigned w s :=
  toSigned_mod_of_le h s

theorem wrapSigned_of_range (w : Nat) (hw : 0 < w) (z : Int)
    (h1 : -(2 : Int) ^ (w - 1) ≤ z) (h2 : z < 2 ^ (w - 1)) : wrapSigned w z = z := by
  unfold wrapSigned toSigned
  have hp := two_pow_pred w hw
  have hlt := toUnsigned_lt w z
  rw [Nat.mod_eq_of_lt hlt]
  have hc := toUnsigned_cast w z
  have e1 : (2 : Int) ^ (w - 1) = ((2 ^ (w - 1) : Nat) : Int) := by push_cast; rfl
  have e2 : (2 : Int) ^ w = ((2 ^ w : Nat) : Int) := by push_cast; rfl
  rw [e1] at h1 h2
  rw [e2] at hc ⊢
  have hpz : (0 : Int) < ((2 ^ w : Nat) : Int) := by positivity
  have hdiv := Int.emod_add_ediv z ((2 ^ w : Nat) : Int)
  rw [← hc] at hdiv
  generalize z / ((2 ^ w : Nat) : Int) = k at hdiv
  generalize toUnsigned w z = u at *
  generalize (2 : Nat) ^ w = P at *
  generalize (2 : Nat) ^ (w - 1) = H at *
  subst hp
  push_cast at hdiv h1 h2 ⊢
  split
  · have hk : k = 0 := by nlinarith
    subst hk; linarith
  · have hk : k = -1 := by nlinarith
    subst hk; linarith

theorem mul_bounds (A B P : Int) (hA : -P ≤ A ∧ A ≤ P) (hB : -P ≤ B ∧ B ≤ P) :
    -(P * P) ≤ A * B ∧ A * B ≤ P * P := by
  have h : |A * B| ≤ P * P := by
    rw [abs_mul]
    exact mul_le_mul (abs_le.mpr hA) (abs_le.mpr hB) (abs_nonneg _)
      (le_trans (abs_nonneg A) (abs_le.mpr hA))
  exact abs_le.mp h

theorem GetSrc_GD_of_le {n : Nat} (h : n ≤ 8) (dst : Slot) (v : Nat) :
    GetSrc n (GD dst v) = v % 2 ^ (8 * n) := by
  rw [← GetSrc_GetSrc_of_le h, GetSrc_GD]
  exact Nat.mod_mod_of_dvd _ (pow_dvd_pow 2 (by omega))

/-! ## Truncating division -/

theorem natAbs_tmod (a b : Int) : (Int.tmod a b).natAbs = a.natAbs % b.natAbs := by
  cases a <;> cases b <;> simp [Int.tmod, Int.natAbs_neg] <;> rfl

theorem tmod_abs_lt (a b : Int) (hb : b ≠ 0) : |Int.tmod a b| < |b| := by
  rw [Int.abs_eq_natAbs, Int.abs_eq_natAbs, natAbs_tmod]
  exact_mod_cast Nat.mod_lt _ (Int.natAbs_pos.mpr hb)

theorem tmod_nonpos (a b : Int) (ha : a ≤ 0) : Int.tmod a b ≤ 0 := by
  have h := Int.tmod_nonneg (a := -a) (-b) (by omega)
  have e : (-a).tmod (-b) = -(a.tmod b) := by
    have h1 := Int.tdiv_add_tmod a b
    have h2 := Int.tdiv_add_tmod (-a) (-b)
    rw [Int.neg_tdiv_neg] at h2
    linarith
  omega

theorem tmod_sign (a b : Int) :
    Int.tmod a b = 0 ∨ (0 < Int.tmod a b ∧ 0 < a) ∨ (Int.tmod a b < 0 ∧ a < 0) := by
  rcases lt_trichotomy (Int.tmod a b) 0 with h | h | h
  · right; right
    refine ⟨h, ?_⟩
    by_contra hn
    have := Int.tmod_nonneg b (not_lt.mp hn)
    omega
  · exact Or.inl h
  · right; left
    refine ⟨h, ?_⟩
    by_contra hn
    have h2 := tmod_nonpos a b (not_lt.mp hn)
    omega

theorem tdiv_abs_le (a b : Int) : |Int.tdiv a b| ≤ |a| := by
  rw [Int.abs_eq_natAbs, Int.abs_eq_natAbs, Int.natAbs_tdiv]
  exact_mod_cast Nat.div_le_self _ _

/-! ## Claims -/

/-- C1: at operand sizes 4 and 8, Add and Sub return a slot and the low `OpSize`
bytes they write are `(a + b) mod 2^(8*OpSize)` and `(a - b) mod 2^(8*OpSize)`,
`a` and `b` being the low `OpSize` bytes of the two source slots; Add at size 4
of `0x7FFFFFFF` and `1` writes `0x80000000`. -/
theorem C1_add_sub_wrap (OpSize : Nat) (dst Src1 Src2 : Slot)
    (hsize : OpSize = 4 ∨ OpSize = 8) :
    (∃ d, Op_Add OpSize dst Src1 Src2 = some d ∧
        GetSrc OpSize d = (GetSrc OpSize Src1 + GetSrc OpSize Src2) % 2 ^ (8 * OpSize)) ∧
    (∃ d, Op_Sub OpSize dst Src1 Src2 = some d ∧
        ((GetSrc OpSize d : Nat) : Int)
          = ((GetSrc OpSize Src1 : Int) - (GetSrc OpSize Src2 : Int)) % 2 ^ (8 * OpSize)) ∧
    (Op_Add 4 dst 0x7FFFFFFF 1).map (GetSrc 4) = some 0x80000000 := by
  refine ⟨?_, ?_, ?_⟩
  · rcases hsize with rfl | rfl
    · exact ⟨_, rfl, by simp [DO_OP, GetSrc_storeLow]⟩
    · exact ⟨_, rfl, by simp [DO_OP, GetSrc_storeLow]⟩
  · rcases hsize with rfl | rfl
    · refine ⟨_, rfl, ?_⟩
      simp only [DO_OP, GetSrc_storeLow]
      rw [Nat.mod_eq_of_lt (toUnsigned_lt _ _), toUnsigned_cast]
    · refine ⟨_, rfl, ?_⟩
      simp only [DO_OP, GetSrc_storeLow]
      rw [Nat.mod_eq_of_lt (toUnsigned_lt _ _), toUnsigned_cast]
  · simp only [Op_Add, DO_OP, Option.map, GetSrc_storeLow]
    simp [GetSrc]

/-- Witness for C1 at operand size 4. -/
theorem C1_add_sub_wrap_witness :
    ((4 : Nat) = 4 ∨ (4 : Nat) = 8) ∧
    (∃ d, Op_Add 4 0 0x7FFFFFFF 1 = some d ∧
        GetSrc 4 d = (GetSrc 4 0x7FFFFFFF + GetSrc 4 1) % 2 ^ (8 * 4)) ∧
    (∃ d, Op_Sub 4 0 0x7FFFFFFF 1 = some d ∧
        ((GetSrc 4 d : Nat) : Int)
          = ((GetSrc 4 0x7FFFFFFF : Int) - (GetSrc 4 1 : Int)) % 2 ^ (8 * 4)) ∧
    (Op_Add 4 0 0x7FFFFFFF 1).map (GetSrc 4) = some 0x80000000 :=
  ⟨Or.inl rfl, C1_add_sub_wrap 4 0 0x7FFFFFFF 1 (Or.inl rfl)⟩

/-- C2: MulH returns a slot at sizes 8 and 4. At size 8 the 64-bit result, read as
a signed value, is the floor of `s64(a) * s64(b) / 2^64`. At size 4 the low 32
bits of the result are the high 32 bits of the 64-bit two's-complement product
of the sign-extended low 32 bits of the sources. MulH at size 8 of `2^63 - 1`
and `2` is `0`. -/
theorem C2_mulh_high_half (dst Src1 Src2 : Slot) :
    (∃ d, Op_MulH 8 dst Src1 Src2 = some d ∧
        toSigned 64 (GetSrc 8 d)
          = Int.fdiv (toSigned 64 (GetSrc 8 Src1) * toSigned 64 (GetSrc 8 Src2)) (2 ^ 64)) ∧
    (∃ d, Op_MulH 4 dst Src1 Src2 = some d ∧
        GetSrc 4 d
          = toUnsigned 64 (toSigned 32 (GetSrc 4 Src1) * toSigned 32 (GetSrc 4 Src2)) / 2 ^ 32) ∧
    (Op_MulH 8 dst (2 ^ 63 - 1) 2).map (GetSrc 8) = some 0 := by
  have key8 : ∀ s1 s2 : Slot, toSigned 64 (GetSrc 8 (GD dst (toUnsigned 64
      (wrapSigned 128 (toSigned 64 (GetSrc 8 s1) * toSigned 64 (GetSrc 8 s2)) >>> (64 : Nat)))))
      = Int.fdiv (toSigned 64 (GetSrc 8 s1) * toSigned 64 (GetSrc 8 s2)) (2 ^ 64) := by
    intro s1 s2
    have hA := toSigned_bounds 64 (by norm_num) (GetSrc 8 s1)
    have hB := toSigned_bounds 64 (by norm_num) (GetSrc 8 s2)
    generalize toSigned 64 (GetSrc 8 s1) = A at *
    generalize toSigned 64 (GetSrc 8 s2) = B at *
    norm_num at hA hB
    have hp := mul_bounds A B (2 ^ 63) ⟨hA.1, hA.2.le⟩ ⟨hB.1, hB.2.le⟩
    norm_num at hp
    generalize A * B = p at *
    rw [wrapSigned_of_range 128 (by norm_num) p (by norm_num; omega) (by norm_num; omega)]
    rw [GetSrc_GD, Nat.mod_eq_of_lt (toUnsigned_lt _ _), Int.shiftRight_eq_div_pow,
      Int.fdiv_eq_ediv _ (by norm_num)]
    exact wrapSigned_of_range 64 (by norm_num) _ (by norm_num; omega) (by norm_num; omega)
  refine ⟨⟨_, rfl, key8 Src1 Src2⟩, ⟨_, rfl, ?_⟩, ?_⟩
  · rw [GetSrc_GD_of_le (by norm_num)]
    rw [toSigned_GetSrc (by norm_num), toSigned_GetSrc (by norm_num),
      toSigned_GetSrc (by norm_num), toSigned_GetSrc (by norm_num)]
    have hA := toSigned_bounds 32 (by norm_num) Src1
    have hB := toSigned_bounds 32 (by norm_num) Src2
    generalize toSigned 32 Src1 = A at *
    generalize toSigned 32 Src2 = B at *
    norm_num at hA hB
    have hp := mul_bounds A B (2 ^ 31) ⟨hA.1, hA.2.le⟩ ⟨hB.1, hB.2.le⟩
    norm_num at hp
    generalize A * B = p at *
    rw [wrapSigned_of_range 64 (by norm_num) p (by norm_num; omega) (by norm_num; omega)]
    zify
    rw [toUnsigned_cast, toUnsigned_cast, Int.shiftRight_eq_div_pow]
    norm_num
    omega
  · have h := key8 (2 ^ 63 - 1) 2
    have e : Int.fdiv (toSigned 64 (GetSrc 8 (2 ^ 63 - 1)) * toSigned 64 (GetSrc 8 2)) (2 ^ 64)
        = 0 := by decide
    rw [e] at h
    show some (GetSrc 8 _) = some 0
    congr 1
    have hlt := GetSrc_lt 8 (GD dst (toUnsigned 64 (wrapSigned 128
      (toSigned 64 (GetSrc 8 (2 ^ 63 - 1)) * toSigned 64 (GetSrc 8 2)) >>> (64 : Nat))))
    generalize GetSrc 8 (GD dst (toUnsigned 64 (wrapSigned 128
      (toSigned 64 (GetSrc 8 (2 ^ 63 - 1)) * toSigned 64 (GetSrc 8 2)) >>> (64 : Nat)))) = r at *
    unfold toSigned at h
    rw [Nat.mod_eq_of_lt hlt] at h
    norm_num at hlt
    split at h <;> omega

/-- C3 (evaluation at the failing input): at size 4, with source 1 holding `2^32`
(its low four bytes zero, byte 4 equal to one) and source 2 holding `1`, UMulH
writes `1`, while the high 32 bits of the product of the low four bytes of the
sources are `0`; with the same low four bytes and byte 4 cleared it writes `0`. -/
theorem C3_umulh_size4_reads_eight_bytes :
    (Op_UMulH 4 0 (2 ^ 32) 1).map (GetSrc 8) = some 1 ∧
    GetSrc 4 (2 ^ 32) * GetSrc 4 1 / 2 ^ 32 = 0 ∧
    (Op_UMulH 4 0 0 1).map (GetSrc 8) = some 0 ∧
    GetSrc 4 (2 ^ 32) = GetSrc 4 0 := by
  decide

/-- C4: for Div and Rem at sizes 1, 2 and 4 with a non-zero divisor, writing `A`
and `B` for the sources sign-extended from `OpSize` bytes, both kernels return a
slot and the 64-bit results `q` and `r`, read as signed values, satisfy
`q * B + r = A`, `|r| < |B|`, and `r` is zero or has the sign of `A`. -/
theorem C4_div_rem_truncating (OpSize : Nat) (dst Src1 Src2 : Slot)
    (hsize : OpSize = 1 ∨ OpSize = 2 ∨ OpSize = 4)
    (hB : toSigned (8 * OpSize) (GetSrc OpSize Src2) ≠ 0) :
    ∃ dq dr, Op_Div OpSize dst Src1 Src2 = some dq ∧ Op_Rem OpSize dst Src1 Src2 = some dr ∧
      toSigned 64 (GetSrc 8 dq) * toSigned (8 * OpSize) (GetSrc OpSize Src2)
          + toSigned 64 (GetSrc 8 dr) = toSigned (8 * OpSize) (GetSrc OpSize Src1) ∧
      |toSigned 64 (GetSrc 8 dr)| < |toSigned (8 * OpSize) (GetSrc OpSize Src2)| ∧
      (toSigned 64 (GetSrc 8 dr) = 0 ∨
        (0 < toSigned 64 (GetSrc 8 dr) ∧ 0 < toSigned (8 * OpSize) (GetSrc OpSize Src1)) ∨
        (toSigned 64 (GetSrc 8 dr) < 0 ∧ toSigned (8 * OpSize) (GetSrc OpSize Src1) < 0)) := by
  have key : ∀ w : Nat, 0 < w → w ≤ 32 → ∀ x y : Nat, toSigned w y ≠ 0 →
      toSigned 64 (GetSrc 8 (GD dst (toUnsigned 64 (wrapSigned 64
          (Int.tdiv (toSigned w x) (toSigned w y)))))) = Int.tdiv (toSigned w x) (toSigned w y) ∧
      toSigned 64 (GetSrc 8 (GD dst (toUnsigned 64 (wrapSigned 64
          (Int.tmod (toSigned w x) (toSigned w y)))))) = Int.tmod (toSigned w x) (toSigned w y) := by
    intro w hw hw32 x y hy
    have hA := toSigned_bounds w hw x
    have hBb := toSigned_bounds w hw y
    have hpw : (2 : Int) ^ (w - 1) ≤ 2 ^ 31 :=
      pow_le_pow_right₀ (by norm_num) (by omega)
    generalize toSigned w x = A at *
    generalize toSigned w y = B at *
    have hq := tdiv_abs_le A B
    have hr := tmod_abs_lt A B hy
    have hq2 := abs_le.mp (le_trans hq (abs_le.mpr ⟨by linarith, by linarith⟩ :
      |A| ≤ 2 ^ 31))
    have hr2 := abs_lt.mp (lt_of_lt_of_le hr (abs_le.mpr ⟨by linarith, by linarith⟩ :
      |B| ≤ 2 ^ 31))
    norm_num at hq2 hr2
    constructor
    · rw [wrapSigned_of_range 64 (by norm_num) _ (by norm_num; omega) (by norm_num; omega),
        GetSrc_GD, Nat.mod_eq_of_lt (toUnsigned_lt _ _)]
      exact wrapSigned_of_range 64 (by norm_num) _ (by norm_num; omega) (by norm_num; omega)
    · rw [wrapSigned_of_range 64 (by norm_num) _ (by norm_num; omega) (by norm_num; omega),
        GetSrc_GD, Nat.mod_eq_of_lt (toUnsigned_lt _ _)]
      exact wrapSigned_of_range 64 (by norm_num) _ (by norm_num; omega) (by norm_num; omega)
  have fin : ∀ w : Nat, 0 < w → w ≤ 32 → ∀ x y : Nat, toSigned w y ≠ 0 →
      ∀ q r : Int, q = Int.tdiv (toSigned w x) (toSigned w y) →
        r = Int.tmod (toSigned w x) (toSigned w y) →
      q * toSigned w y + r = toSigned w x ∧ |r| < |toSigned w y| ∧
      (r = 0 ∨ (0 < r ∧ 0 < toSigned w x) ∨ (r < 0 ∧ toSigned w x < 0)) := by
    intro w _ _ x y hy q r hq hr
    subst hq hr
    exact ⟨Int.tdiv_add_tmod' _ _, tmod_abs_lt _ _ hy, tmod_sign _ _⟩
  rcases hsize with rfl | rfl | rfl
  · rw [toSigned_GetSrc (by norm_num)] at hB
    have k := key 8 (by norm_num) (by norm_num) (GetSrc 8 Src1) (GetSrc 8 Src2)
      (by rw [toSigned_GetSrc (by norm_num)]; exact hB)
    refine ⟨_, _, rfl, rfl, ?_⟩
    have f := fin 8 (by norm_num) (by norm_num) (GetSrc 8 Src1) (GetSrc 8 Src2)
      (by rw [toSigned_GetSrc (by norm_num)]; exact hB) _ _ k.1 k.2
    simpa only [toSigned_GetSrc (show 8 * 1 ≤ 8 * 8 by norm_num),
      toSigned_GetSrc (show 8 * 1 ≤ 8 * 1 by norm_num),
      toSigned_GetSrc (show 8 ≤ 8 * 8 by norm_num)] using f
  · rw [toSigned_GetSrc (by norm_num)] at hB
    have k := key 16 (by norm_num) (by norm_num) (GetSrc 8 Src1) (GetSrc 8 Src2)
      (by rw [toSigned_GetSrc (by norm_num)]; exact hB)
    refine ⟨_, _, rfl, rfl, ?_⟩
    have f := fin 16 (by norm_num) (by norm_num) (GetSrc 8 Src1) (GetSrc 8 Src2)
      (by rw [toSigned_GetSrc (by norm_num)]; exact hB) _ _ k.1 k.2
    simpa only [toSigned_GetSrc (show 8 * 2 ≤ 8 * 8 by norm_num),
      toSigned_GetSrc (show 8 * 2 ≤ 8 * 2 by norm_num),
      toSigned_GetSrc (show 16 ≤ 8 * 8 by norm_num)] using f
  · rw [toSigned_GetSrc (by norm_num)] at hB
    have k := key 32 (by norm_num) (by norm_num) (GetSrc 8 Src1) (GetSrc 8 Src2)
      (by rw [toSigned_GetSrc (by norm_num)]; exact hB)
    refine ⟨_, _, rfl, rfl, ?_⟩
    have f := fin 32 (by norm_num) (by norm_num) (GetSrc 8 Src1) (GetSrc 8 Src2)
      (by rw [toSigned_GetSrc (by norm_num)]; exact hB) _ _ k.1 k.2
    simpa only [toSigned_GetSrc (show 8 * 4 ≤ 8 * 8 by norm_num),
      toSigned_GetSrc (show 8 * 4 ≤ 8 * 4 by norm_num),
      toSigned_GetSrc (show 32 ≤ 8 * 8 by norm_num)] using f

/-- Witness for C4: `-7` by `2` at size 1 (source bytes `0xF9` and `0x02`). -/
theorem C4_div_rem_truncating_witness :
    ((1 : Nat) = 1 ∨ (1 : Nat) = 2 ∨ (1 : Nat) = 4) ∧
    toSigned (8 * 1) (GetSrc 1 2) ≠ 0 ∧
    ∃ dq dr, Op_Div 1 0 0xF9 2 = some dq ∧ Op_Rem 1 0 0xF9 2 = some dr ∧
      toSigned 64 (GetSrc 8 dq) * toSigned (8 * 1) (GetSrc 1 2)
          + toSigned 64 (GetSrc 8 dr) = toSigned (8 * 1) (GetSrc 1 0xF9) ∧
      |toSigned 64 (GetSrc 8 dr)| < |toSigned (8 * 1) (GetSrc 1 2)| ∧
      (toSigned 64 (GetSrc 8 dr) = 0 ∨
        (0 < toSigned 64 (GetSrc 8 dr) ∧ 0 < toSigned (8 * 1) (GetSrc 1 0xF9)) ∨
        (toSigned 64 (GetSrc 8 dr) < 0 ∧ toSigned (8 * 1) (GetSrc 1 0xF9) < 0)) :=
  ⟨Or.inl rfl, by decide, C4_div_rem_truncating 1 0 0xF9 2 (Or.inl rfl) (by decide)⟩

theorem shl_or_eq (k hi lo : Nat) (hhi : hi < 2 ^ k) (hlo : lo < 2 ^ k) :
    ((hi <<< k) % 2 ^ (k + k)) ||| lo = hi * 2 ^ k + lo := by
  have hlt : hi * 2 ^ k < 2 ^ (k + k) := by
    rw [pow_add]
    exact Nat.mul_lt_mul_of_pos_right hhi (by positivity)
  rw [Nat.shiftLeft_eq, Nat.mod_eq_of_lt hlt, Nat.mul_comm hi, Nat.mul_add_lt_is_or hlo]

/-- C5: for LUDiv and LURem at `n` in 2, 4, 8 bytes with a non-zero divisor `d`
(source 3), with `D = hi * 2^(8n) + lo`, `lo` the low `n` bytes of source 1 and
`hi` those of source 2: both kernels return a slot, LUDiv writes
`(D / d) mod 2^(8n)` and LURem writes `D mod d`, as the low eight bytes of the
destination; and when `hi < d`, `LUDiv * d + LURem = D` and `LURem < d`. -/
theorem C5_ludiv_lurem (n : Nat) (dst Src1 Src2 Src3 : Slot)
    (hsize : n = 2 ∨ n = 4 ∨ n = 8) (hd : GetSrc n Src3 ≠ 0) :
    ∃ dq dr, Op_LUDiv n dst Src1 Src2 Src3 = some dq ∧
      Op_LURem n dst Src1 Src2 Src3 = some dr ∧
      GetSrc 8 dq = (GetSrc n Src2 * 2 ^ (8 * n) + GetSrc n Src1) / GetSrc n Src3 % 2 ^ (8 * n) ∧
      GetSrc 8 dr = (GetSrc n Src2 * 2 ^ (8 * n) + GetSrc n Src1) % GetSrc n Src3 ∧
      GetSrc n dq = GetSrc 8 dq ∧ GetSrc n dr = GetSrc 8 dr ∧
      (GetSrc n Src2 < GetSrc n Src3 →
        GetSrc 8 dq * GetSrc n Src3 + GetSrc 8 dr
            = GetSrc n Src2 * 2 ^ (8 * n) + GetSrc n Src1 ∧
        GetSrc 8 dr < GetSrc n Src3) := by
  have fin : ∀ (k : Nat), 8 * n = k → ∀ q r : Nat,
      q = (GetSrc n Src2 * 2 ^ k + GetSrc n Src1) / GetSrc n Src3 % 2 ^ k →
      r = (GetSrc n Src2 * 2 ^ k + GetSrc n Src1) % GetSrc n Src3 →
      (GetSrc n Src2 < GetSrc n Src3 →
        q * GetSrc n Src3 + r = GetSrc n Src2 * 2 ^ k + GetSrc n Src1 ∧ r < GetSrc n Src3) := by
    intro k hk q r hq hr hlt
    have hlo : GetSrc n Src1 < 2 ^ k := hk ▸ GetSrc_lt n Src1
    have hdpos : 0 < GetSrc n Src3 := Nat.pos_of_ne_zero hd
    have hquo : (GetSrc n Src2 * 2 ^ k + GetSrc n Src1) / GetSrc n Src3 < 2 ^ k := by
      rw [Nat.div_lt_iff_lt_mul hdpos]
      calc GetSrc n Src2 * 2 ^ k + GetSrc n Src1
          < GetSrc n Src2 * 2 ^ k + 2 ^ k := by omega
        _ = (GetSrc n Src2 + 1) * 2 ^ k := by ring
        _ ≤ GetSrc n Src3 * 2 ^ k := Nat.mul_le_mul_right _ hlt
        _ = 2 ^ k * GetSrc n Src3 := Nat.mul_comm _ _
    rw [Nat.mod_eq_of_lt hquo] at hq
    subst hq hr
    exact ⟨Nat.div_add_mod' _ _, Nat.mod_lt _ hdpos⟩
  have hrem : ∀ (k : Nat), 8 * n = k → ∀ D : Nat, D % GetSrc n Src3 < 2 ^ k := by
    intro k hk D
    exact lt_trans (Nat.mod_lt _ (Nat.pos_of_ne_zero hd)) (hk ▸ GetSrc_lt n Src3)
  rcases hsize with rfl | rfl | rfl
  · have e := shl_or_eq 16 (GetSrc 2 Src2) (GetSrc 2 Src1) (GetSrc_lt 2 Src2) (GetSrc_lt 2 Src1)
    have hr := hrem 16 rfl (GetSrc 2 Src2 * 2 ^ 16 + GetSrc 2 Src1)
    have hq : GetSrc 8 (GD dst (((GetSrc 2 Src2 <<< 16) % 2 ^ 32 ||| GetSrc 2 Src1)
        / GetSrc 2 Src3 % 2 ^ 16))
        = (GetSrc 2 Src2 * 2 ^ 16 + GetSrc 2 Src1) / GetSrc 2 Src3 % 2 ^ 16 := by
      rw [GetSrc_GD, e]; omega
    have hr' : GetSrc 8 (GD dst (((GetSrc 2 Src2 <<< 16) % 2 ^ 32 ||| GetSrc 2 Src1)
        % GetSrc 2 Src3 % 2 ^ 16))
        = (GetSrc 2 Src2 * 2 ^ 16 + GetSrc 2 Src1) % GetSrc 2 Src3 := by
      rw [GetSrc_GD, e]; omega
    refine ⟨_, _, rfl, rfl, hq, hr', ?_, ?_, fin 16 rfl _ _ hq hr'⟩
    · rw [← GetSrc_GetSrc_of_le (show 2 ≤ 8 by norm_num), hq]
      exact Nat.mod_eq_of_lt (Nat.mod_lt _ (by positivity))
    · rw [← GetSrc_GetSrc_of_le (show 2 ≤ 8 by norm_num), hr']
      exact Nat.mod_eq_of_lt hr
  · have e := shl_or_eq 32 (GetSrc 4 Src2) (GetSrc 4 Src1) (GetSrc_lt 4 Src2) (GetSrc_lt 4 Src1)
    have hr := hrem 32 rfl (GetSrc 4 Src2 * 2 ^ 32 + GetSrc 4 Src1)
    have hq : GetSrc 8 (GD dst (((GetSrc 4 Src2 <<< 32) % 2 ^ 64 ||| GetSrc 4 Src1)
        / GetSrc 4 Src3 % 2 ^ 32))
        = (GetSrc 4 Src2 * 2 ^ 32 + GetSrc 4 Src1) / GetSrc 4 Src3 % 2 ^ 32 := by
      rw [GetSrc_GD, e]; omega
    have hr' : GetSrc 8 (GD dst (((GetSrc 4 Src2 <<< 32) % 2 ^ 64 ||| GetSrc 4 Src1)
        % GetSrc 4 Src3 % 2 ^ 32))
        = (GetSrc 4 Src2 * 2 ^ 32 + GetSrc 4 Src1) % GetSrc 4 Src3 := by
      rw [GetSrc_GD, e]; omega
    refine ⟨_, _, rfl, rfl, hq, hr', ?_, ?_, fin 32 rfl _ _ hq hr'⟩
    · rw [← GetSrc_GetSrc_of_le (show 4 ≤ 8 by norm_num), hq]
      exact Nat.mod_eq_of_lt (Nat.mod_lt _ (by positivity))
    · rw [← GetSrc_GetSrc_of_le (show 4 ≤ 8 by norm_num), hr']
      exact Nat.mod_eq_of_lt hr
  · have e := shl_or_eq 64 (GetSrc 8 Src2) (GetSrc 8 Src1) (GetSrc_lt 8 Src2) (GetSrc_lt 8 Src1)
    have hr := hrem 64 rfl (GetSrc 8 Src2 * 2 ^ 64 + GetSrc 8 Src1)
    have hq : GetSrc 8 (storeLow 8 dst (((GetSrc 8 Src2 <<< 64) % 2 ^ 128 ||| GetSrc 8 Src1)
        / GetSrc 8 Src3))
        = (GetSrc 8 Src2 * 2 ^ 64 + GetSrc 8 Src1) / GetSrc 8 Src3 % 2 ^ 64 := by
      rw [GetSrc_storeLow, e]
    have hr' : GetSrc 8 (storeLow 8 dst (((GetSrc 8 Src2 <<< 64) % 2 ^ 128 ||| GetSrc 8 Src1)
        % GetSrc 8 Src3))
        = (GetSrc 8 Src2 * 2 ^ 64 + GetSrc 8 Src1) % GetSrc 8 Src3 := by
      rw [GetSrc_storeLow, e]
      exact Nat.mod_eq_of_lt hr
    exact ⟨_, _, rfl, rfl, hq, hr', rfl, rfl, fin 64 rfl _ _ hq hr'⟩

/-- Witness for C5: `0x1_0005 / 3` at size 2. -/
theorem C5_ludiv_lurem_witness :
    ((2 : Nat) = 2 ∨ (2 : Nat) = 4 ∨ (2 : Nat) = 8) ∧ GetSrc 2 3 ≠ 0 ∧
    ∃ dq dr, Op_LUDiv 2 0 5 1 3 = some dq ∧
      Op_LURem 2 0 5 1 3 = some dr ∧
      GetSrc 8 dq = (GetSrc 2 1 * 2 ^ (8 * 2) + GetSrc 2 5) / GetSrc 2 3 % 2 ^ (8 * 2) ∧
      GetSrc 8 dr = (GetSrc 2 1 * 2 ^ (8 * 2) + GetSrc 2 5) % GetSrc 2 3 ∧
      GetSrc 2 dq = GetSrc 8 dq ∧ GetSrc 2 dr = GetSrc 8 dr ∧
      (GetSrc 2 1 < GetSrc 2 3 →
        GetSrc 8 dq * GetSrc 2 3 + GetSrc 8 dr
            = GetSrc 2 1 * 2 ^ (8 * 2) + GetSrc 2 5 ∧
        GetSrc 8 dr < GetSrc 2 3) :=
  ⟨Or.inl rfl, by decide, C5_ludiv_lurem 2 0 5 1 3 (Or.inl rfl) (by decide)⟩

theorem toUnsigned_mod_of_le {w v : Nat} (h : w ≤ v) (z : Int) :
    toUnsigned v z % 2 ^ w = toUnsigned w z := by
  zify
  rw [toUnsigned_cast, toUnsigned_cast]
  exact Int.emod_emod_of_dvd z (pow_dvd_pow 2 h)

theorem toUnsigned_wrapSigned (w : Nat) (z : Int) :
    toUnsigned w (wrapSigned w z) = toUnsigned w z := by
  unfold wrapSigned
  rw [toUnsigned_toSigned, Nat.mod_eq_of_lt (toUnsigned_lt w z)]

theorem lrem_in_range (w : Nat) (hw : 0 < w) (S D : Int)
    (hD : -(2 : Int) ^ (w - 1) ≤ D ∧ D < 2 ^ (w - 1)) (hD0 : D ≠ 0) :
    wrapSigned (w + w) (Int.tmod S D) = S - Int.tdiv S D * D := by
  have hr := tmod_abs_lt S D hD0
  have hpw : (2 : Int) ^ (w - 1) ≤ 2 ^ (w + w - 1) :=
    pow_le_pow_right₀ (by norm_num) (by omega)
  have hr2 := abs_lt.mp (lt_of_lt_of_le hr (abs_le.mpr ⟨hD.1, hD.2.le⟩))
  rw [wrapSigned_of_range (w + w) (by omega) _ (by linarith [hr2.1]) (by linarith [hr2.2])]
  rw [Int.tmod_def, Int.mul_comm]

/-- C6: for LDiv and LRem at `n` in 2, 4, 8 bytes with a non-zero divisor, the
dividend being the two's-complement value on `2n` bytes of `hi:lo` (source 2
high, source 1 low) and the divisor source 3 sign-extended from `n` bytes:
whenever the truncated quotient fits in `2n` signed bytes, both kernels return a
slot, the low `n` bytes written by LDiv are the quotient mod `2^(8n)` and the
low `n` bytes written by LRem are `dividend - quotient * divisor` mod `2^(8n)`. -/
theorem C6_ldiv_lrem (n : Nat) (dst Src1 Src2 Src3 : Slot)
    (hsize : n = 2 ∨ n = 4 ∨ n = 8)
    (hd : toSigned (8 * n) (GetSrc n Src3) ≠ 0)
    (hfit : -(2 : Int) ^ (16 * n - 1)
        ≤ Int.tdiv (toSigned (16 * n) (GetSrc n Src2 * 2 ^ (8 * n) + GetSrc n Src1))
            (toSigned (8 * n) (GetSrc n Src3)) ∧
      Int.tdiv (toSigned (16 * n) (GetSrc n Src2 * 2 ^ (8 * n) + GetSrc n Src1))
            (toSigned (8 * n) (GetSrc n Src3)) < 2 ^ (16 * n - 1)) :
    ∃ dq dr, Op_LDiv n dst Src1 Src2 Src3 = some dq ∧
      Op_LRem n dst Src1 Src2 Src3 = some dr ∧
      GetSrc n dq = toUnsigned (8 * n)
        (Int.tdiv (toSigned (16 * n) (GetSrc n Src2 * 2 ^ (8 * n) + GetSrc n Src1))
            (toSigned (8 * n) (GetSrc n Src3))) ∧
      GetSrc n dr = toUnsigned (8 * n)
        (toSigned (16 * n) (GetSrc n Src2 * 2 ^ (8 * n) + GetSrc n Src1)
          - Int.tdiv (toSigned (16 * n) (GetSrc n Src2 * 2 ^ (8 * n) + GetSrc n Src1))
              (toSigned (8 * n) (GetSrc n Src3)) * toSigned (8 * n) (GetSrc n Src3)) := by
  rcases hsize with rfl | rfl | rfl
  · have e := shl_or_eq 16 (GetSrc 2 Src2) (GetSrc 2 Src1) (GetSrc_lt 2 Src2) (GetSrc_lt 2 Src1)
    have hD := toSigned_bounds 16 (by norm_num) (GetSrc 2 Src3)
    refine ⟨_, _, rfl, rfl, ?_, ?_⟩
    · show GetSrc 2 (GD dst (toUnsigned 64 (wrapSigned 16 (wrapSigned 32 (Int.tdiv
        (toSigned 32 ((GetSrc 2 Src2 <<< 16) % 2 ^ 32 ||| GetSrc 2 Src1))
        (toSigned 16 (GetSrc 2 Src3))))))) = _
      rw [e, wrapSigned_of_range 32 (by norm_num) _ hfit.1 hfit.2,
        GetSrc_GD_of_le (by norm_num), toUnsigned_mod_of_le (by norm_num),
        toUnsigned_wrapSigned]
    · show GetSrc 2 (GD dst (toUnsigned 64 (wrapSigned 16 (wrapSigned 32 (Int.tmod
        (toSigned 32 ((GetSrc 2 Src2 <<< 16) % 2 ^ 32 ||| GetSrc 2 Src1))
        (toSigned 16 (GetSrc 2 Src3))))))) = _
      rw [e, lrem_in_range 16 (by norm_num) _ _ hD hd,
        GetSrc_GD_of_le (by norm_num), toUnsigned_mod_of_le (by norm_num),
        toUnsigned_wrapSigned]
  · have e := shl_or_eq 32 (GetSrc 4 Src2) (GetSrc 4 Src1) (GetSrc_lt 4 Src2) (GetSrc_lt 4 Src1)
    have hD := toSigned_bounds 32 (by norm_num) (GetSrc 4 Src3)
    refine ⟨_, _, rfl, rfl, ?_, ?_⟩
    · show GetSrc 4 (GD dst (toUnsigned 64 (wrapSigned 32 (wrapSigned 64 (Int.tdiv
        (toSigned 64 ((GetSrc 4 Src2 <<< 32) % 2 ^ 64 ||| GetSrc 4 Src1))
        (toSigned 32 (GetSrc 4 Src3))))))) = _
      rw [e, wrapSigned_of_range 64 (by norm_num) _ hfit.1 hfit.2,
        GetSrc_GD_of_le (by norm_num), toUnsigned_mod_of_le (by norm_num),
        toUnsigned_wrapSigned]
    · show GetSrc 4 (GD dst (toUnsigned 64 (wrapSigned 32 (wrapSigned 64 (Int.tmod
        (toSigned 64 ((GetSrc 4 Src2 <<< 32) % 2 ^ 64 ||| GetSrc 4 Src1))
        (toSigned 32 (GetSrc 4 Src3))))))) = _
      rw [e, lrem_in_range 32 (by norm_num) _ _ hD hd,
        GetSrc_GD_of_le (by norm_num), toUnsigned_mod_of_le (by norm_num),
        toUnsigned_wrapSigned]
  · have e := shl_or_eq 64 (GetSrc 8 Src2) (GetSrc 8 Src1) (GetSrc_lt 8 Src2) (GetSrc_lt 8 Src1)
    have hD := toSigned_bounds 64 (by norm_num) (GetSrc 8 Src3)
    refine ⟨_, _, rfl, rfl, ?_, ?_⟩
    · show GetSrc 8 (storeLow 8 dst (toUnsigned 128 (wrapSigned 128 (Int.tdiv
        (toSigned 128 ((GetSrc 8 Src2 <<< 64) % 2 ^ 128 ||| GetSrc 8 Src1))
        (toSigned 64 (GetSrc 8 Src3)))))) = _
      rw [e, wrapSigned_of_range 128 (by norm_num) _ hfit.1 hfit.2,
        GetSrc_storeLow, toUnsigned_mod_of_le (by norm_num)]
    · show GetSrc 8 (storeLow 8 dst (toUnsigned 128 (wrapSigned 128 (Int.tmod
        (toSigned 128 ((GetSrc 8 Src2 <<< 64) % 2 ^ 128 ||| GetSrc 8 Src1))
        (toSigned 64 (GetSrc 8 Src3)))))) = _
      rw [e, lrem_in_range 64 (by norm_num) _ _ hD hd,
        GetSrc_storeLow, toUnsigned_mod_of_le (by norm_num)]

/-- Witness for C6: `-7` by `2` at size 2 (`hi:lo = 0xFFFF:0xFFF9`). -/
theorem C6_ldiv_lrem_witness :
    ((2 : Nat) = 2 ∨ (2 : Nat) = 4 ∨ (2 : Nat) = 8) ∧
    toSigned (8 * 2) (GetSrc 2 2) ≠ 0 ∧
    (-(2 : Int) ^ (16 * 2 - 1)
        ≤ Int.tdiv (toSigned (16 * 2) (GetSrc 2 0xFFFF * 2 ^ (8 * 2) + GetSrc 2 0xFFF9))
            (toSigned (8 * 2) (GetSrc 2 2)) ∧
      Int.tdiv (toSigned (16 * 2) (GetSrc 2 0xFFFF * 2 ^ (8 * 2) + GetSrc 2 0xFFF9))
            (toSigned (8 * 2) (GetSrc 2 2)) < 2 ^ (16 * 2 - 1)) ∧
    ∃ dq dr, Op_LDiv 2 0 0xFFF9 0xFFFF 2 = some dq ∧
      Op_LRem 2 0 0xFFF9 0xFFFF 2 = some dr ∧
      GetSrc 2 dq = toUnsigned (8 * 2)
        (Int.tdiv (toSigned (16 * 2) (GetSrc 2 0xFFFF * 2 ^ (8 * 2) + GetSrc 2 0xFFF9))
            (toSigned (8 * 2) (GetSrc 2 2))) ∧
      GetSrc 2 dr = toUnsigned (8 * 2)
        (toSigned (16 * 2) (GetSrc 2 0xFFFF * 2 ^ (8 * 2) + GetSrc 2 0xFFF9)
          - Int.tdiv (toSigned (16 * 2) (GetSrc 2 0xFFFF * 2 ^ (8 * 2) + GetSrc 2 0xFFF9))
              (toSigned (8 * 2) (GetSrc 2 2)) * toSigned (8 * 2) (GetSrc 2 2)) :=
  ⟨Or.inl rfl, by decide, by decide,
    C6_ldiv_lrem 2 0 0xFFF9 0xFFFF 2 (Or.inl rfl) (by decide) (by decide)⟩

theorem and_mask_eq_mod (x k : Nat) : x &&& (2 ^ k - 1) = x % 2 ^ k :=
  Nat.and_pow_two_sub_one_eq_mod x k

/-- C7: for Lshl, Lshr and Ashr at sizes 4 and 8, every value and every count, the
kernel returns a slot and the result with count `c` is the result with count
`c mod (OpSize * 8)`, `c` being the count read on 64 bits. -/
theorem C7_shift_count_mod (OpSize : Nat) (dst v c : Slot)
    (hsize : OpSize = 4 ∨ OpSize = 8) :
    ((Op_Lshl OpSize dst v c).isSome ∧
      Op_Lshl OpSize dst v c = Op_Lshl OpSize dst v (GetSrc 8 c % (OpSize * 8))) ∧
    ((Op_Lshr OpSize dst v c).isSome ∧
      Op_Lshr OpSize dst v c = Op_Lshr OpSize dst v (GetSrc 8 c % (OpSize * 8))) ∧
    ((Op_Ashr OpSize dst v c).isSome ∧
      Op_Ashr OpSize dst v c = Op_Ashr OpSize dst v (GetSrc 8 c % (OpSize * 8))) := by
  have m4 : toUnsigned 8 (((4 : Nat) : Int) * 8 - 1) = 2 ^ 5 - 1 := by decide
  have m8 : toUnsigned 8 (((8 : Nat) : Int) * 8 - 1) = 2 ^ 6 - 1 := by decide
  have k4 : GetSrc 8 (GetSrc 8 c % (4 * 8)) % 2 ^ 5 = GetSrc 8 c % 2 ^ 5 := by
    unfold GetSrc; omega
  have k8 : GetSrc 8 (GetSrc 8 c % (8 * 8)) % 2 ^ 6 = GetSrc 8 c % 2 ^ 6 := by
    unfold GetSrc; omega
  rcases hsize with rfl | rfl
  · simp only [Op_Lshl, Op_Lshr, Op_Ashr, m4, and_mask_eq_mod, k4, Option.isSome_some,
      and_self]
  · simp only [Op_Lshl, Op_Lshr, Op_Ashr, m8, and_mask_eq_mod, k8, Option.isSome_some,
      and_self]

/-- Witness for C7: value `0x80000001`, count `33` at size 4. -/
theorem C7_shift_count_mod_witness :
    ((4 : Nat) = 4 ∨ (4 : Nat) = 8) ∧
    ((Op_Lshl 4 0 0x80000001 33).isSome ∧
      Op_Lshl 4 0 0x80000001 33 = Op_Lshl 4 0 0x80000001 (GetSrc 8 33 % (4 * 8))) ∧
    ((Op_Lshr 4 0 0x80000001 33).isSome ∧
      Op_Lshr 4 0 0x80000001 33 = Op_Lshr 4 0 0x80000001 (GetSrc 8 33 % (4 * 8))) ∧
    ((Op_Ashr 4 0 0x80000001 33).isSome ∧
      Op_Ashr 4 0 0x80000001 33 = Op_Ashr 4 0 0x80000001 (GetSrc 8 33 % (4 * 8))) :=
  ⟨Or.inl rfl, C7_shift_count_mod 4 0 0x80000001 33 (Or.inl rfl)⟩

theorem testBit_eq_false_of_lt {x w i : Nat} (hx : x < 2 ^ w) (hi : w ≤ i) :
    x.testBit i = false :=
  Nat.testBit_lt_two_pow (lt_of_lt_of_le hx (Nat.pow_le_pow_right (by norm_num) hi))

theorem Ror_testBit (wrapCount : Bool) (w x R i : Nat) (hw : 0 < w) (hx : x < 2 ^ w)
    (hmask : R &&& (w - 1) = R % w) :
    (Ror wrapCount w x R).testBit i = (decide (i < w) && x.testBit ((i + R % w) % w)) := by
  unfold Ror
  simp only [hmask]
  have hk : R % w < w := Nat.mod_lt _ hw
  generalize R % w = k at hk
  rw [Nat.testBit_or, Nat.testBit_shiftRight]
  by_cases hk0 : k = 0
  · subst hk0
    simp only [Nat.sub_zero, Nat.zero_add, Nat.add_zero]
    have hsh : shlU wrapCount w x w = x ∨ shlU wrapCount w x w = 0 := by
      unfold shlU
      simp only [lt_irrefl, if_false, Nat.mod_self, Nat.shiftLeft_zero]
      cases wrapCount
      · right; simp
      · left; simpa using Nat.mod_eq_of_lt hx
    have hor : (x.testBit i || (shlU wrapCount w x w).testBit i) = x.testBit i := by
      rcases hsh with h | h <;> rw [h] <;> simp
    rw [hor]
    by_cases hi : i < w
    · simp [hi, Nat.mod_eq_of_lt hi]
    · simp [hi, testBit_eq_false_of_lt hx (not_lt.mp hi)]
  · have hsh : shlU wrapCount w x (w - k) = (x <<< (w - k)) % 2 ^ w := by
      unfold shlU
      rw [if_pos (by omega)]
    rw [hsh, Nat.testBit_mod_two_pow, Nat.testBit_shiftLeft]
    by_cases hi : i < w
    · by_cases h2 : i < w - k
      · have e : (i + k) % w = i + k := Nat.mod_eq_of_lt (by omega)
        simp [hi, e, Nat.add_comm k i, show ¬ (w - k ≤ i) by omega]
      · have e : (i + k) % w = i - (w - k) := by
          rw [Nat.mod_eq_sub_mod (by omega), Nat.mod_eq_of_lt (by omega)]
          omega
        have hf : x.testBit (k + i) = false := testBit_eq_false_of_lt hx (by omega)
        simp [hi, e, hf, show w - k ≤ i by omega]
    · have hf : x.testBit (k + i) = false := testBit_eq_false_of_lt hx (by omega)
      simp [hi, hf]

/-- C8: at sizes 4 and 8, whatever an out-of-range left shift yields (`shlU`), Ror
returns a slot whose eight low bytes hold the `OpSize`-wide source rotated right
by `count mod (OpSize * 8)`: bit `i < OpSize * 8` of the result is bit
`(i + count) mod (OpSize * 8)` of the source and the bits from `OpSize * 8` up
are zero; when the count is congruent to `0` the result is the source. -/
theorem C8_ror_rotates (wrapCount : Bool) (OpSize : Nat) (dst Src1 Src2 : Slot)
    (hsize : OpSize = 4 ∨ OpSize = 8) :
    ∃ d, Op_Ror wrapCount OpSize dst Src1 Src2 = some d ∧
      (∀ i, (GetSrc 8 d).testBit i
          = (decide (i < OpSize * 8) &&
              (GetSrc OpSize Src1).testBit
                ((i + GetSrc 8 Src2 % (OpSize * 8)) % (OpSize * 8)))) ∧
      (GetSrc 8 Src2 % (OpSize * 8) = 0 → GetSrc 8 d = GetSrc OpSize Src1) := by
  have main : ∀ (w : Nat) (x x' R : Nat), 0 < w → w ≤ 64 → x < 2 ^ w → x = x' →
      R &&& (w - 1) = R % w → R % w = GetSrc 8 Src2 % w →
      (∀ i, (GetSrc 8 (GD dst (Ror wrapCount w x R))).testBit i
          = (decide (i < w) && x'.testBit ((i + GetSrc 8 Src2 % w) % w))) ∧
      (GetSrc 8 Src2 % w = 0 → GetSrc 8 (GD dst (Ror wrapCount w x R)) = x') := by
    intro w x x' R hw hw64 hx hxx hmask hR
    subst hxx
    have hbits : ∀ i, (GetSrc 8 (GD dst (Ror wrapCount w x R))).testBit i
        = (decide (i < w) && x.testBit ((i + GetSrc 8 Src2 % w) % w)) := by
      intro i
      rw [GetSrc_GD, Nat.testBit_mod_two_pow, Ror_testBit wrapCount w x R i hw hx hmask, hR]
      by_cases hi : i < w
      · simp [hi, show i < 64 by omega]
      · simp [hi]
    refine ⟨hbits, fun h0 => Nat.eq_of_testBit_eq fun i => ?_⟩
    rw [hbits i, h0]
    by_cases hi : i < w
    · simp [hi, Nat.mod_eq_of_lt hi]
    · simp [hi, testBit_eq_false_of_lt hx (not_lt.mp hi)]
  rcases hsize with rfl | rfl
  · have e : GetSrc 8 Src1 % 2 ^ 32 = GetSrc 4 Src1 := by unfold GetSrc; omega
    exact ⟨_, rfl, main 32 (GetSrc 8 Src1 % 2 ^ 32) (GetSrc 4 Src1) (GetSrc 8 Src2 % 2 ^ 32)
      (by norm_num) (by norm_num) (Nat.mod_lt _ (by norm_num)) e (and_mask_eq_mod _ 5)
      (by omega)⟩
  · have e : GetSrc 8 Src1 % 2 ^ 64 = GetSrc 8 Src1 := by unfold GetSrc; omega
    exact ⟨_, rfl, main 64 (GetSrc 8 Src1 % 2 ^ 64) (GetSrc 8 Src1) (GetSrc 8 Src2 % 2 ^ 64)
      (by norm_num) (by norm_num) (Nat.mod_lt _ (by norm_num)) e (and_mask_eq_mod _ 6)
      (by omega)⟩

/-- Witness for C8: `0x12345678` rotated by a count of `32` at size 4. -/
theorem C8_ror_rotates_witness :
    ((4 : Nat) = 4 ∨ (4 : Nat) = 8) ∧
    ∃ d, Op_Ror true 4 0 0x12345678 32 = some d ∧
      (∀ i, (GetSrc 8 d).testBit i
          = (decide (i < 4 * 8) &&
              (GetSrc 4 0x12345678).testBit
                ((i + GetSrc 8 32 % (4 * 8)) % (4 * 8)))) ∧
      (GetSrc 8 32 % (4 * 8) = 0 → GetSrc 8 d = GetSrc 4 0x12345678) :=
  ⟨Or.inl rfl, C8_ror_rotates true 4 0 0x12345678 32 (Or.inl rfl)⟩

theorem Extr_eq (w s1 s2 lsb : Nat) (hw : w ≤ 64) (h1 : s1 < 2 ^ w) (h2 : s2 < 2 ^ w) :
    Extr w s1 s2 lsb = (s1 * 2 ^ w + s2) / 2 ^ lsb % 2 ^ w := by
  unfold Extr
  have hww : (2 : Nat) ^ w * 2 ^ w ≤ 2 ^ 128 := by
    rw [← pow_add]
    exact Nat.pow_le_pow_right (by norm_num) (by omega)
  have hlt : s1 * 2 ^ w < 2 ^ 128 :=
    lt_of_lt_of_le (Nat.mul_lt_mul_of_pos_right h1 (by positivity)) hww
  have hs1 : s1 < 2 ^ 128 :=
    lt_of_lt_of_le h1 (Nat.pow_le_pow_right (by norm_num) (by omega))
  simp only
  rw [Nat.mod_eq_of_lt hs1, Nat.shiftLeft_eq, Nat.mod_eq_of_lt hlt, Nat.mul_comm s1,
    ← Nat.mul_add_lt_is_or h2, Nat.shiftRight_eq_div_pow]

/-- C9: at `n` in 4, 8 bytes and every immediate `LSB < 16n`, Extr returns a slot
whose low eight bytes hold the low `n` bytes of
`(src1 * 2^(8n) + src2) >> LSB`, `src1` and `src2` being the sources truncated
to `n` bytes. -/
theorem C9_extr (n LSB : Nat) (dst Src1 Src2 : Slot)
    (hsize : n = 4 ∨ n = 8) (hlsb : LSB < 16 * n) :
    ∃ d, Op_Extr n LSB dst Src1 Src2 = some d ∧
      GetSrc 8 d = (GetSrc n Src1 * 2 ^ (8 * n) + GetSrc n Src2) / 2 ^ LSB % 2 ^ (8 * n) ∧
      GetSrc n d = GetSrc 8 d := by
  have hL : LSB % 256 = LSB := Nat.mod_eq_of_lt (by omega)
  rcases hsize with rfl | rfl
  · have e1 : GetSrc 8 Src1 % 2 ^ 32 = GetSrc 4 Src1 := by unfold GetSrc; omega
    have e2 : GetSrc 8 Src2 % 2 ^ 32 = GetSrc 4 Src2 := by unfold GetSrc; omega
    have h : GetSrc 8 (GD dst (Extr 32 (GetSrc 8 Src1 % 2 ^ 32) (GetSrc 8 Src2 % 2 ^ 32)
        (LSB % 256)))
        = (GetSrc 4 Src1 * 2 ^ (8 * 4) + GetSrc 4 Src2) / 2 ^ LSB % 2 ^ (8 * 4) := by
      rw [GetSrc_GD, hL, e1, e2,
        Extr_eq 32 _ _ LSB (by norm_num) (GetSrc_lt 4 Src1) (GetSrc_lt 4 Src2)]
      exact Nat.mod_eq_of_lt (lt_of_lt_of_le (Nat.mod_lt _ (by positivity)) (by norm_num))
    refine ⟨_, rfl, h, ?_⟩
    rw [← GetSrc_GetSrc_of_le (show 4 ≤ 8 by norm_num), h]
    exact Nat.mod_eq_of_lt (Nat.mod_lt _ (by positivity))
  · have e1 : GetSrc 8 Src1 % 2 ^ 64 = GetSrc 8 Src1 := by unfold GetSrc; omega
    have e2 : GetSrc 8 Src2 % 2 ^ 64 = GetSrc 8 Src2 := by unfold GetSrc; omega
    have h : GetSrc 8 (GD dst (Extr 64 (GetSrc 8 Src1 % 2 ^ 64) (GetSrc 8 Src2 % 2 ^ 64)
        (LSB % 256)))
        = (GetSrc 8 Src1 * 2 ^ (8 * 8) + GetSrc 8 Src2) / 2 ^ LSB % 2 ^ (8 * 8) := by
      rw [GetSrc_GD, hL, e1, e2,
        Extr_eq 64 _ _ LSB (by norm_num) (GetSrc_lt 8 Src1) (GetSrc_lt 8 Src2)]
      exact Nat.mod_eq_of_lt (lt_of_lt_of_le (Nat.mod_lt _ (by positivity)) (by norm_num))
    exact ⟨_, rfl, h, rfl⟩

/-- Witness for C9: `0x12345678:0x9ABCDEF0` shifted by `8` at size 4. -/
theorem C9_extr_witness :
    ((4 : Nat) = 4 ∨ (4 : Nat) = 8) ∧ 8 < 16 * 4 ∧
    ∃ d, Op_Extr 4 8 0 0x12345678 0x9ABCDEF0 = some d ∧
      GetSrc 8 d = (GetSrc 4 0x12345678 * 2 ^ (8 * 4) + GetSrc 4 0x9ABCDEF0) / 2 ^ 8
        % 2 ^ (8 * 4) ∧
      GetSrc 4 d = GetSrc 8 d :=
  ⟨Or.inl rfl, by decide, C9_extr 4 8 0 0x12345678 0x9ABCDEF0 (Or.inl rfl) (by decide)⟩

theorem testBit_bitNot (w x i : Nat) :
    (bitNot w x).testBit i = (decide (i < w) && !(x % 2 ^ w).testBit i) := by
  unfold bitNot
  have hx : x % 2 ^ w < 2 ^ w := Nat.mod_lt _ (by positivity)
  rw [Nat.sub_sub, Nat.add_comm 1, Nat.testBit_two_pow_sub_succ hx]

theorem Bfi_SourceMask (Width : Nat) (hW : Width ≤ 64) :
    (if Width = 64 then bitNot 64 0
      else toUnsigned 64 ((((1 <<< Width) % 2 ^ 64 : Nat) : Int) - 1)) = 2 ^ Width - 1 := by
  split
  · next h => subst h; rfl
  · next h =>
    have hlt : (2 : Nat) ^ Width < 2 ^ 64 := Nat.pow_lt_pow_right (by norm_num) (by omega)
    have hpos : 0 < (2 : Nat) ^ Width := by positivity
    rw [Nat.shiftLeft_eq, Nat.one_mul, Nat.mod_eq_of_lt hlt]
    unfold toUnsigned
    have e : (((2 ^ Width : Nat) : Int) - 1) = ((2 ^ Width - 1 : Nat) : Int) := by
      rw [Nat.cast_sub hpos]; rfl
    rw [e]
    have e2 : (((2 ^ Width - 1 : Nat) : Int)) % 2 ^ 64 = ((2 ^ Width - 1 : Nat) : Int) :=
      Int.emod_eq_of_lt (by positivity) (by omega)
    rw [e2, Int.toNat_natCast]

/-- C10: for every `Width` in 1..64 and `lsb` in 0..63, Bfi returns a slot whose
low eight bytes are `(src1 & ~(mask << lsb)) | ((src2 & mask) << lsb)` computed
on 64 bits with `mask = 2^Width - 1`; every result bit outside positions
`[lsb, lsb + Width)` is the same bit of `src1`, every bit `i < 64` inside that
range is bit `i - lsb` of `src2`, and no bit from 64 up is set. -/
theorem C10_bfi (Width lsb : Nat) (dst Src1 Src2 : Slot)
    (_hW1 : 1 ≤ Width) (hW : Width ≤ 64) (_hlsb : lsb ≤ 63) :
    ∃ d, Op_Bfi Width lsb dst Src1 Src2 = some d ∧
      GetSrc 8 d = (GetSrc 8 Src1 &&& bitNot 64 (((2 ^ Width - 1) <<< lsb) % 2 ^ 64))
        ||| (((GetSrc 8 Src2 &&& (2 ^ Width - 1)) <<< lsb) % 2 ^ 64) ∧
      ∀ i, (GetSrc 8 d).testBit i
        = if i < 64 then
            (if lsb ≤ i ∧ i < lsb + Width then (GetSrc 8 Src2).testBit (i - lsb)
              else (GetSrc 8 Src1).testBit i)
          else false := by
  have hform : GetSrc 8 (GD dst ((GetSrc 8 Src1 &&& bitNot 64 (((2 ^ Width - 1) <<< lsb) % 2 ^ 64))
        ||| (((GetSrc 8 Src2 &&& (2 ^ Width - 1)) <<< lsb) % 2 ^ 64)))
      = (GetSrc 8 Src1 &&& bitNot 64 (((2 ^ Width - 1) <<< lsb) % 2 ^ 64))
        ||| (((GetSrc 8 Src2 &&& (2 ^ Width - 1)) <<< lsb) % 2 ^ 64) := by
    rw [GetSrc_GD]
    exact Nat.mod_eq_of_lt (Nat.or_lt_two_pow
      (Nat.and_lt_two_pow _ (by unfold bitNot; omega)) (Nat.mod_lt _ (by norm_num)))
  refine ⟨_, ?_, hform, ?_⟩
  · unfold Op_Bfi
    simp only [Bfi_SourceMask Width hW]
  · intro i
    rw [hform]
    simp only [Nat.testBit_or, Nat.testBit_and, testBit_bitNot, Nat.testBit_mod_two_pow,
      Nat.testBit_shiftLeft, Nat.testBit_two_pow_sub_one, Nat.mod_mod]
    by_cases hi : i < 64
    · by_cases h1 : lsb ≤ i
      · by_cases h2 : i < lsb + Width
        · simp [hi, h1, h2, show i - lsb < Width by omega]
        · simp [hi, h1, h2, show ¬ (i - lsb < Width) by omega]
      · simp [hi, h1]
    · have hf : (GetSrc 8 Src1).testBit i = false :=
        testBit_eq_false_of_lt (GetSrc_lt 8 Src1) (by omega)
      simp [hi, hf]

/-- Witness for C10: an 8-bit field of `0xAB` inserted at bit 4 of `0xFFFF`. -/
theorem C10_bfi_witness :
    1 ≤ 8 ∧ 8 ≤ 64 ∧ 4 ≤ 63 ∧
    ∃ d, Op_Bfi 8 4 0 0xFFFF 0xAB = some d ∧
      GetSrc 8 d = (GetSrc 8 0xFFFF &&& bitNot 64 (((2 ^ 8 - 1) <<< 4) % 2 ^ 64))
        ||| (((GetSrc 8 0xAB &&& (2 ^ 8 - 1)) <<< 4) % 2 ^ 64) ∧
      ∀ i, (GetSrc 8 d).testBit i
        = if i < 64 then
            (if 4 ≤ i ∧ i < 4 + 8 then (GetSrc 8 0xAB).testBit (i - 4)
              else (GetSrc 8 0xFFFF).testBit i)
          else false :=
  ⟨by decide, by decide, by decide,
    C10_bfi 8 4 0 0xFFFF 0xAB (by decide) (by decide) (by decide)⟩

theorem Bfe_spec_eq (src Width lsb : Nat) :
    Bfe_spec src Width lsb = (src >>> lsb) &&& (2 ^ Width - 1) := by
  unfold Bfe_spec
  split
  · next h => subst h; rfl
  · rw [Nat.shiftLeft_eq, Nat.one_mul]

theorem Bfe_value (S Width lsb : Nat) (hS : S < 2 ^ 64) :
    (S &&& (((2 ^ Width - 1) <<< lsb) % 2 ^ 64)) >>> lsb = Bfe_spec S Width lsb := by
  rw [Bfe_spec_eq]
  refine Nat.eq_of_testBit_eq fun i => ?_
  simp only [Nat.testBit_shiftRight, Nat.testBit_and, Nat.testBit_mod_two_pow,
    Nat.testBit_shiftLeft, Nat.testBit_two_pow_sub_one]
  by_cases hi : lsb + i < 64
  · simp [hi]
  · have hf : S.testBit (lsb + i) = false := testBit_eq_false_of_lt hS (by omega)
    simp [hi, hf]

theorem Bfe_spec_lt (S Width lsb : Nat) (hS : S < 2 ^ 64) : Bfe_spec S Width lsb < 2 ^ 64 := by
  rw [Bfe_spec_eq, Nat.shiftRight_eq_div_pow]
  have h1 : S / 2 ^ lsb &&& (2 ^ Width - 1) ≤ S / 2 ^ lsb := Nat.and_le_left
  have h2 := Nat.div_le_self S (2 ^ lsb)
  omega

/-- C11: for every operand size up to 8, `Width` in 0..64 and `lsb` in 0..63, Bfe
returns a slot whose low eight bytes, computed as
`(src & (mask << lsb)) >> lsb`, equal the specified `(src >> lsb) & mask` with
`mask = 2^Width - 1`, also when `lsb + Width` exceeds 64. -/
theorem C11_bfe_refines (OpSize Width lsb : Nat) (dst Src : Slot)
    (hsz : OpSize ≤ 8) (hW : Width ≤ 64) (_hlsb : lsb ≤ 63) :
    ∃ d, Op_Bfe OpSize Width lsb dst Src = some d ∧
      GetSrc 8 d = Bfe_spec (GetSrc 8 Src) Width lsb := by
  have hS : GetSrc 8 Src < 2 ^ 64 := GetSrc_lt 8 Src
  refine ⟨GD dst (Bfe_spec (GetSrc 8 Src) Width lsb), ?_, ?_⟩
  · unfold Op_Bfe
    rw [if_pos hsz]
    simp only [Bfi_SourceMask Width hW, Bfe_value _ Width lsb hS]
  · rw [GetSrc_GD, Nat.mod_eq_of_lt (Bfe_spec_lt _ Width lsb hS)]

/-- Witness for C11: a 64-bit field taken from bit 4, so that `lsb + Width`
exceeds 64. -/
theorem C11_bfe_refines_witness :
    8 ≤ 8 ∧ 64 ≤ 64 ∧ 4 ≤ 63 ∧
    ∃ d, Op_Bfe 8 64 4 0 0xABCD = some d ∧ GetSrc 8 d = Bfe_spec (GetSrc 8 0xABCD) 64 4 :=
  ⟨by decide, by decide, by decide,
    C11_bfe_refines 8 64 4 0 0xABCD (by decide) (by decide) (by decide)⟩

theorem Not_masked_value (dst Src : Slot) (k : Nat) (hk : k ≤ 64) :
    GetSrc 8 (GD dst (bitNot 64 (GetSrc 8 Src) &&& (2 ^ k - 1)))
      = (2 ^ k - 1) - GetSrc 8 Src % 2 ^ k := by
  rw [GetSrc_GD, and_mask_eq_mod]
  have hle : (2 : Nat) ^ k ≤ 2 ^ 64 := Nat.pow_le_pow_right (by norm_num) hk
  rw [Nat.mod_eq_of_lt (lt_of_lt_of_le (Nat.mod_lt _ (by positivity)) hle)]
  refine Nat.eq_of_testBit_eq fun i => ?_
  have hx : GetSrc 8 Src % 2 ^ k < 2 ^ k := Nat.mod_lt _ (by positivity)
  rw [Nat.testBit_mod_two_pow, testBit_bitNot, Nat.sub_sub, Nat.add_comm 1,
    Nat.testBit_two_pow_sub_succ hx]
  simp only [Nat.testBit_mod_two_pow]
  by_cases hi : i < k
  · simp [hi, show i < 64 by omega]
  · simp [hi]

/-- C13: for `OpSize` in 1, 2, 4, 8 and every source, Not returns a slot whose low
eight bytes are `(2^(8*OpSize) - 1) - (x mod 2^(8*OpSize))`, `x` being the
source read on 64 bits; every result bit at a position from `OpSize * 8` up is
zero. -/
theorem C13_not_masked (OpSize : Nat) (dst Src : Slot)
    (hsize : OpSize = 1 ∨ OpSize = 2 ∨ OpSize = 4 ∨ OpSize = 8) :
    ∃ d, Op_Not OpSize dst Src = some d ∧
      GetSrc 8 d = (2 ^ (8 * OpSize) - 1) - GetSrc 8 Src % 2 ^ (8 * OpSize) ∧
      ∀ i, 8 * OpSize ≤ i → (GetSrc 8 d).testBit i = false := by
  have key := Not_masked_value dst Src
  have fin : ∀ k : Nat, ∀ v : Nat, v = (2 ^ k - 1) - GetSrc 8 Src % 2 ^ k →
      ∀ i, k ≤ i → v.testBit i = false := by
    intro k v hv i hi
    exact testBit_eq_false_of_lt (w := k) (by
      have : 0 < 2 ^ k := by positivity
      omega) hi
  rcases hsize with rfl | rfl | rfl | rfl
  · exact ⟨_, rfl, key 8 (by norm_num), fin 8 _ (key 8 (by norm_num))⟩
  · exact ⟨_, rfl, key 16 (by norm_num), fin 16 _ (key 16 (by norm_num))⟩
  · exact ⟨_, rfl, key 32 (by norm_num), fin 32 _ (key 32 (by norm_num))⟩
  · exact ⟨_, rfl, key 64 (by norm_num), fin 64 _ (key 64 (by norm_num))⟩

/-- Witness for C13: the source `2^32 + 5` at size 4. -/
theorem C13_not_masked_witness :
    ((4 : Nat) = 1 ∨ (4 : Nat) = 2 ∨ (4 : Nat) = 4 ∨ (4 : Nat) = 8) ∧
    ∃ d, Op_Not 4 0 (2 ^ 32 + 5) = some d ∧
      GetSrc 8 d = (2 ^ (8 * 4) - 1) - GetSrc 8 (2 ^ 32 + 5) % 2 ^ (8 * 4) ∧
      ∀ i, 8 * 4 ≤ i → (GetSrc 8 d).testBit i = false :=
  ⟨by decide, C13_not_masked 4 0 (2 ^ 32 + 5) (by decide)⟩

/-- C15 (counterexample): at size 4 with a zero source FindMSB writes
`2^64 - 1`, not `4 * 8 - 1`. -/
theorem C15_findmsb_zero_counterexample :
    (Op_FindMSB 4 0 0).map (GetSrc 8) = some (2 ^ 64 - 1) ∧
    (Op_FindMSB 4 0 0).map (GetSrc 8) ≠ some (4 * 8 - 1) := by
  decide

/-- C15 (amended): for each `OpSize` in 1, 2, 4, 8, FindMSB applied to a source
whose `OpSize`-wide value is zero returns a slot whose low eight bytes are
`2^64 - 1`, the value `-1` of `(OpSize * 8 - OpSize * 8) - 1` on 64 bits. -/
theorem C15_findmsb_zero (OpSize : Nat) (dst Src : Slot)
    (hsize : OpSize = 1 ∨ OpSize = 2 ∨ OpSize = 4 ∨ OpSize = 8)
    (hzero : GetSrc OpSize Src = 0) :
    ∃ d, Op_FindMSB OpSize dst Src = some d ∧ GetSrc 8 d = 2 ^ 64 - 1 := by
  rcases hsize with rfl | rfl | rfl | rfl
  · refine ⟨_, rfl, ?_⟩
    rw [GetSrc_GD, hzero]; decide
  · refine ⟨_, rfl, ?_⟩
    rw [GetSrc_GD, hzero]; decide
  · refine ⟨_, rfl, ?_⟩
    rw [GetSrc_GD, hzero]; decide
  · refine ⟨_, rfl, ?_⟩
    rw [GetSrc_GD, hzero]; decide

/-- Witness for C15 (amended): size 2, a source whose low two bytes are zero. -/
theorem C15_findmsb_zero_witness :
    ((2 : Nat) = 1 ∨ (2 : Nat) = 2 ∨ (2 : Nat) = 4 ∨ (2 : Nat) = 8) ∧
    GetSrc 2 0x10000 = 0 ∧
    ∃ d, Op_FindMSB 2 0 0x10000 = some d ∧ GetSrc 8 d = 2 ^ 64 - 1 :=
  ⟨by decide, by decide, C15_findmsb_zero 2 0 0x10000 (by decide) (by decide)⟩

/-! ## Counting bits -/

theorem countP_range_of_false (p : Nat → Bool) (k m : Nat) (hkm : k ≤ m)
    (h : ∀ i, k ≤ i → i < m → p i = false) :
    (List.range m).countP p = (List.range k).countP p := by
  induction m, hkm using Nat.le_induction with
  | base => rfl
  | succ n hn ih =>
    rw [List.range_succ, List.countP_append, ih (fun i h1 h2 => h i h1 (by omega))]
    simp [h n hn (by omega)]

theorem countP_range_add_not (p : Nat → Bool) (k : Nat) :
    (List.range k).countP p + (List.range k).countP (fun i => !p i) = k := by
  have h := List.length_eq_countP_add_countP p (List.range k)
  rw [List.length_range] at h
  have e : List.countP (fun a => decide ¬p a = true) (List.range k)
      = List.countP (fun i => !p i) (List.range k) :=
    List.countP_congr (fun x _ => by simp)
  rw [e] at h
  exact h.symm

theorem popcount_of_lt {k w : Nat} (hk : k ≤ w) {x : Nat} (hx : x < 2 ^ k) :
    popcount w x = popcount k x :=
  countP_range_of_false _ k w hk (fun _ hi _ => testBit_eq_false_of_lt hx hi)

theorem popcount_complement {k w : Nat} (hk : k ≤ w) (x : Nat) :
    popcount k x + popcount w (2 ^ k - 1 - x % 2 ^ k) = k := by
  have hx : x % 2 ^ k < 2 ^ k := Nat.mod_lt _ (by positivity)
  have hbit : ∀ i, (2 ^ k - 1 - x % 2 ^ k).testBit i = (decide (i < k) && !x.testBit i) := by
    intro i
    rw [Nat.sub_sub, Nat.add_comm 1, Nat.testBit_two_pow_sub_succ hx, Nat.testBit_mod_two_pow]
    by_cases hi : i < k <;> simp [hi]
  have e1 : popcount w (2 ^ k - 1 - x % 2 ^ k) = popcount k (2 ^ k - 1 - x % 2 ^ k) :=
    countP_range_of_false _ k w hk (fun i hi _ => by rw [hbit]; simp [show ¬ i < k by omega])
  have e2 : popcount k (2 ^ k - 1 - x % 2 ^ k)
      = (List.range k).countP (fun i => !x.testBit i) :=
    List.countP_congr (fun i hi => by
      rw [hbit]; simp [List.mem_range.mp hi])
  rw [e1, e2]
  exact countP_range_add_not _ k

/-- C14 (counterexample): at size 4 with the source `2^32`, Popcount of the source
is `1` and Popcount of the Not result is `32`; the sum is `33`, not `4 * 8`. -/
theorem C14_popcount_not_counterexample :
    (Op_Popcount 0 (2 ^ 32)).map (GetSrc 8) = some 1 ∧
    ((Op_Not 4 0 (2 ^ 32)).bind (Op_Popcount 0)).map (GetSrc 8) = some 32 ∧
    1 + 32 ≠ 4 * 8 := by
  decide

/-- C14 (amended): for `OpSize` in 1, 2, 4, 8 and every source `x` that has no bit
set at a position from `OpSize * 8` up (on its 64 bits), the three kernels
return slots and `Popcount(x) + Popcount(Not(x)) = OpSize * 8`. -/
theorem C14_popcount_not (OpSize : Nat) (dst dst1 dst2 Src : Slot)
    (hsize : OpSize = 1 ∨ OpSize = 2 ∨ OpSize = 4 ∨ OpSize = 8)
    (hx : GetSrc 8 Src < 2 ^ (8 * OpSize)) :
    ∃ dn p1 p2, Op_Not OpSize dst Src = some dn ∧ Op_Popcount dst1 Src = some p1 ∧
      Op_Popcount dst2 dn = some p2 ∧ GetSrc 8 p1 + GetSrc 8 p2 = OpSize * 8 := by
  have hp : ∀ v, popcount 64 v < 2 ^ 64 := by
    intro v
    have h : popcount 64 v ≤ 64 := by
      unfold popcount
      exact le_trans (List.countP_le_length _) (by simp)
    omega
  have main : ∀ k : Nat, k ≤ 64 → GetSrc 8 Src < 2 ^ k →
      GetSrc 8 (GD dst1 (popcount 64 (GetSrc 8 Src)))
        + GetSrc 8 (GD dst2 (popcount 64
            (GetSrc 8 (GD dst (bitNot 64 (GetSrc 8 Src) &&& (2 ^ k - 1)))))) = k := by
    intro k hk hxk
    rw [GetSrc_GD, GetSrc_GD dst2, Nat.mod_eq_of_lt (hp _), Nat.mod_eq_of_lt (hp _),
      Not_masked_value dst Src k hk, popcount_of_lt hk hxk, popcount_complement hk]
  rcases hsize with rfl | rfl | rfl | rfl
  · exact ⟨_, _, _, rfl, rfl, rfl, main 8 (by norm_num) hx⟩
  · exact ⟨_, _, _, rfl, rfl, rfl, main 16 (by norm_num) hx⟩
  · exact ⟨_, _, _, rfl, rfl, rfl, main 32 (by norm_num) hx⟩
  · exact ⟨_, _, _, rfl, rfl, rfl, main 64 (by norm_num) hx⟩

/-- Witness for C14 (amended): the source `0xF0` at size 1. -/
theorem C14_popcount_not_witness :
    ((1 : Nat) = 1 ∨ (1 : Nat) = 2 ∨ (1 : Nat) = 4 ∨ (1 : Nat) = 8) ∧
    GetSrc 8 0xF0 < 2 ^ (8 * 1) ∧
    ∃ dn p1 p2, Op_Not 1 0 0xF0 = some dn ∧ Op_Popcount 0 0xF0 = some p1 ∧
      Op_Popcount 0 dn = some p2 ∧ GetSrc 8 p1 + GetSrc 8 p2 = 1 * 8 :=
  ⟨by decide, by decide, C14_popcount_not 1 0 0 0 0xF0 (by decide) (by decide)⟩

/-! ## Sign-extending extract -/

theorem wrapSigned_toSigned_mul (w a b : Nat) :
    wrapSigned w (toSigned w a * (b : Int)) = toSigned w (a * b) := by
  unfold wrapSigned
  have e : toUnsigned w (toSigned w a * (b : Int)) = (a * b) % 2 ^ w := by
    zify
    rw [toUnsigned_cast, Int.mul_emod, toSigned_emod]
    push_cast
    rw [← Int.mul_emod]
  rw [e]
  exact toSigned_mod_of_le (le_refl w) (a * b)

theorem testBit_63_of_ge {U : Nat} (h1 : 2 ^ 63 ≤ U) (h2 : U < 2 ^ 64) :
    U.testBit 63 = true := by
  rw [Nat.testBit_to_div_mod]
  have : U / 2 ^ 63 = 1 := by omega
  rw [this]
  rfl

theorem sbfe_bits (S W l : Nat) (hW : 1 ≤ W) (h : W + l ≤ 64) (j : Nat) :
    (toUnsigned 64 (wrapSigned 64 (toSigned 64 S * 2 ^ (64 - (W + l)))
        >>> (64 - W : Nat))).testBit j
      = if j < W then S.testBit (l + j) else (decide (j < 64) && S.testBit (l + W - 1)) := by
  have hc : ((2 : Int) ^ (64 - (W + l))) = (((2 : Nat) ^ (64 - (W + l)) : Nat) : Int) := by
    push_cast; rfl
  rw [hc, wrapSigned_toSigned_mul, Int.shiftRight_eq_div_pow]
  have hU : S * 2 ^ (64 - (W + l)) % 2 ^ 64 < 2 ^ 64 := Nat.mod_lt _ (by norm_num)
  have hUbit : ∀ i, (S * 2 ^ (64 - (W + l)) % 2 ^ 64).testBit i
      = (decide (i < 64) && (decide (64 - (W + l) ≤ i) && S.testBit (i - (64 - (W + l))))) := by
    intro i
    rw [Nat.testBit_mod_two_pow, Nat.mul_comm, Nat.testBit_mul_pow_two]
  have hts : toSigned 64 (S * 2 ^ (64 - (W + l)))
      = if S * 2 ^ (64 - (W + l)) % 2 ^ 64 < 2 ^ 63
        then ((S * 2 ^ (64 - (W + l)) % 2 ^ 64 : Nat) : Int)
        else ((S * 2 ^ (64 - (W + l)) % 2 ^ 64 : Nat) : Int) - 2 ^ 64 := rfl
  rw [hts]
  generalize hUdef : S * 2 ^ (64 - (W + l)) % 2 ^ 64 = U at hU hUbit
  have hq : U / 2 ^ (64 - W) < 2 ^ W := by
    rw [Nat.div_lt_iff_lt_mul (by positivity), ← pow_add]
    rw [show W + (64 - W) = 64 by omega]
    exact hU
  have hqbit : ∀ i, (U / 2 ^ (64 - W)).testBit i
      = (decide (i < W) && S.testBit (l + i)) := by
    intro i
    rw [← Nat.shiftRight_eq_div_pow, Nat.testBit_shiftRight, hUbit]
    by_cases hi : i < W
    · simp [hi, show 64 - W + i < 64 by omega, show 64 - (W + l) ≤ 64 - W + i by omega,
        show 64 - W + i - (64 - (W + l)) = l + i by omega]
    · simp [hi, show ¬ (64 - W + i < 64) by omega]
  have hsign : U.testBit 63 = S.testBit (l + W - 1) := by
    rw [hUbit]
    simp [show 64 - (W + l) ≤ 63 by omega, show 63 - (64 - (W + l)) = l + W - 1 by omega]
  split
  · next hlt =>
    have hs : S.testBit (l + W - 1) = false := by
      rw [← hsign]; exact Nat.testBit_lt_two_pow hlt
    have e : toUnsigned 64 (((U : Nat) : Int) / ((2 ^ (64 - W) : Nat) : Int))
        = U / 2 ^ (64 - W) := by
      unfold toUnsigned
      rw [← Int.natCast_div]
      have : ((U / 2 ^ (64 - W) : Nat) : Int) % 2 ^ 64 = ((U / 2 ^ (64 - W) : Nat) : Int) :=
        Int.emod_eq_of_lt (by positivity) (by
          have := Nat.div_le_self U (2 ^ (64 - W))
          omega)
      rw [this, Int.toNat_natCast]
    rw [e, hqbit, hs]
    by_cases hj : j < W <;> simp [hj]
  · next hge =>
    have hs : S.testBit (l + W - 1) = true := by
      rw [← hsign]; exact testBit_63_of_ge (not_lt.mp hge) hU
    have hpw : (2 : Nat) ^ 64 = 2 ^ W * 2 ^ (64 - W) := by
      rw [← pow_add, show W + (64 - W) = 64 by omega]
    have hWle : (2 : Nat) ^ W ≤ 2 ^ 64 := Nat.pow_le_pow_right (by norm_num) (by omega)
    have e : toUnsigned 64 ((((U : Nat) : Int) - 2 ^ 64) / ((2 ^ (64 - W) : Nat) : Int))
        = 2 ^ W * (2 ^ (64 - W) - 1) + U / 2 ^ (64 - W) := by
      have h1 : (((U : Nat) : Int) - 2 ^ 64)
          = ((U : Nat) : Int) + (-((2 ^ W : Nat) : Int)) * ((2 ^ (64 - W) : Nat) : Int) := by
        have : ((2 : Int) ^ 64) = ((2 ^ W : Nat) : Int) * ((2 ^ (64 - W) : Nat) : Int) := by
          rw [← Nat.cast_mul, ← hpw]; norm_num
        rw [this]; ring
      rw [h1, Int.add_mul_ediv_right _ _ (by positivity), ← Int.natCast_div]
      unfold toUnsigned
      have hpos : (0 : Nat) < 2 ^ (64 - W) := by positivity
      have h2 : 2 ^ W * (2 ^ (64 - W) - 1) = 2 ^ 64 - 2 ^ W := by
        rw [Nat.mul_sub, ← hpw, Nat.mul_one]
      rw [h2]
      have hqI : ((U / 2 ^ (64 - W) : Nat) : Int) < ((2 ^ W : Nat) : Int) := by
        exact_mod_cast hq
      have hq0 : (0 : Int) ≤ ((U / 2 ^ (64 - W) : Nat) : Int) := by positivity
      have hWI : ((2 ^ W : Nat) : Int) ≤ 2 ^ 64 := by exact_mod_cast hWle
      have e3 : ((2 ^ 64 - 2 ^ W + U / 2 ^ (64 - W) : Nat) : Int)
          = ((U / 2 ^ (64 - W) : Nat) : Int) + -((2 ^ W : Nat) : Int) + 2 ^ 64 := by
        rw [Nat.cast_add, Nat.cast_sub hWle]
        push_cast
        ring
      have h3 : (((U / 2 ^ (64 - W) : Nat) : Int) + -((2 ^ W : Nat) : Int)) % 2 ^ 64
          = ((2 ^ 64 - 2 ^ W + U / 2 ^ (64 - W) : Nat) : Int) := by
        rw [e3, ← Int.add_emod_self (a := ((U / 2 ^ (64 - W) : Nat) : Int)
          + -((2 ^ W : Nat) : Int))]
        exact Int.emod_eq_of_lt (by linarith) (by linarith)
      rw [h3, Int.toNat_natCast]
    rw [e, Nat.testBit_mul_pow_two_add _ hq, hqbit, hs, Nat.testBit_two_pow_sub_one]
    by_cases hj : j < W
    · simp [hj]
    · simp [hj]
      omega

theorem toUnsigned_sub_of_le (a b : Nat) (hb : b ≤ a) (ha : a < 2 ^ 64) :
    toUnsigned 64 ((a : Int) - (b : Int)) = a - b := by
  unfold toUnsigned
  rw [← Nat.cast_sub hb]
  have : (((a - b : Nat) : Int)) % 2 ^ 64 = ((a - b : Nat) : Int) :=
    Int.emod_eq_of_lt (by positivity) (by omega)
  rw [this, Int.toNat_natCast]

/-- C12: for every operand size up to 8, `Width ≥ 1` and `lsb` with
`Width + lsb ≤ 64`, Sbfe returns a slot holding the `Width`-bit field of the
source at bit `lsb` sign-extended to 64 bits: the low `Width` bits of the
result are the result of Bfe on the same source and immediates, and every bit
at a position from `Width - 1` up to 63 is bit `lsb + Width - 1` of the
source. -/
theorem C12_sbfe_sign_extends (OpSize Width lsb : Nat) (dst dst1 Src : Slot)
    (hsz : OpSize ≤ 8) (hW : 1 ≤ Width) (h : Width + lsb ≤ 64) :
    ∃ d e, Op_Sbfe OpSize Width lsb dst Src = some d ∧
      Op_Bfe OpSize Width lsb dst1 Src = some e ∧
      GetSrc 8 d % 2 ^ Width = GetSrc 8 e ∧
      ∀ i, Width - 1 ≤ i → i < 64 →
        (GetSrc 8 d).testBit i = (GetSrc 8 Src).testBit (lsb + Width - 1) := by
  have hS : GetSrc 8 Src < 2 ^ 64 := GetSrc_lt 8 Src
  have hL : toUnsigned 64 (64 - ((Width : Int) + (lsb : Int))) = 64 - (Width + lsb) := by
    have := toUnsigned_sub_of_le 64 (Width + lsb) h (by norm_num)
    push_cast at this
    exact this
  have hR : (64 - (Width + lsb) + lsb) % 2 ^ 64 = 64 - Width := by omega
  have hbits := sbfe_bits (GetSrc 8 Src) Width lsb hW h
  have hd : Op_Sbfe OpSize Width lsb dst Src = some (GD dst (toUnsigned 64
      (wrapSigned 64 (toSigned 64 (GetSrc 8 Src) * 2 ^ (64 - (Width + lsb)))
        >>> (64 - Width : Nat)))) := by
    unfold Op_Sbfe
    rw [if_pos hsz]
    simp only [hL, hR]
  have he : Op_Bfe OpSize Width lsb dst1 Src
      = some (GD dst1 (Bfe_spec (GetSrc 8 Src) Width lsb)) := by
    unfold Op_Bfe
    rw [if_pos hsz]
    simp only [Bfi_SourceMask Width (by omega), Bfe_value _ Width lsb hS]
  refine ⟨_, _, hd, he, ?_, ?_⟩
  · rw [GetSrc_GD, GetSrc_GD, Nat.mod_eq_of_lt (toUnsigned_lt 64 _),
      Nat.mod_eq_of_lt (Bfe_spec_lt _ Width lsb hS), Bfe_spec_eq]
    refine Nat.eq_of_testBit_eq fun j => ?_
    rw [Nat.testBit_mod_two_pow, hbits, Nat.testBit_and, Nat.testBit_shiftRight,
      Nat.testBit_two_pow_sub_one]
    by_cases hj : j < Width <;> simp [hj]
  · intro i hi1 hi2
    rw [GetSrc_GD, Nat.mod_eq_of_lt (toUnsigned_lt 64 _), hbits]
    by_cases hj : i < Width
    · rw [if_pos hj, show lsb + i = lsb + Width - 1 by omega]
    · rw [if_neg hj]
      simp [hi2]

/-- Witness for C12: the eight-bit field at bit 4 of `0xABCD` (`0xBC`, negative
as a signed byte). -/
theorem C12_sbfe_sign_extends_witness :
    8 ≤ 8 ∧ 1 ≤ 8 ∧ 8 + 4 ≤ 64 ∧
    ∃ d e, Op_Sbfe 8 8 4 0 0xABCD = some d ∧
      Op_Bfe 8 8 4 0 0xABCD = some e ∧
      GetSrc 8 d % 2 ^ 8 = GetSrc 8 e ∧
      ∀ i, 8 - 1 ≤ i → i < 64 →
        (GetSrc 8 d).testBit i = (GetSrc 8 0xABCD).testBit (4 + 8 - 1) :=
  ⟨by decide, by decide, by decide,
    C12_sbfe_sign_extends 8 8 4 0 0 0xABCD (by decide) (by decide) (by decide)⟩

/-! ## Lanes -/

theorem testBit_div_two_pow (v k j : Nat) : (v / 2 ^ k).testBit j = v.testBit (k + j) := by
  rw [← Nat.shiftRight_eq_div_pow, Nat.testBit_shiftRight]

theorem testBit_lane (w v i j : Nat) :
    (lane w v i).testBit j = (decide (j < 8 * w) && v.testBit (8 * w * i + j)) := by
  unfold lane
  rw [Nat.testBit_mod_two_pow, testBit_div_two_pow]

theorem testBit_setLane (w v i x k : Nat) :
    (setLane w v i x).testBit k
      = if k < 8 * w * i then v.testBit k
        else if k < 8 * w * (i + 1) then x.testBit (k - 8 * w * i)
        else v.testBit k := by
  unfold setLane
  rw [Nat.testBit_mul_pow_two_add _ (Nat.mod_lt _ (by positivity))]
  by_cases h1 : k < 8 * w * i
  · rw [if_pos h1, if_pos h1, Nat.testBit_mod_two_pow]
    simp [h1]
  · rw [if_neg h1, if_neg h1,
      Nat.testBit_mul_pow_two_add _ (Nat.mod_lt _ (by positivity))]
    by_cases h2 : k < 8 * w * (i + 1)
    · have h3 : k - 8 * w * i < 8 * w := by
        rw [Nat.mul_add, Nat.mul_one] at h2; omega
      rw [if_pos h2, if_pos h3, Nat.testBit_mod_two_pow]
      simp [h3]
    · have h3 : ¬ (k - 8 * w * i < 8 * w) := by
        rw [Nat.mul_add, Nat.mul_one] at h2; omega
      rw [if_neg h2, if_neg h3, testBit_div_two_pow]
      congr 1
      rw [Nat.mul_add, Nat.mul_one] at h2 ⊢
      omega

theorem lane_setLane_same (w v i x : Nat) : lane w (setLane w v i x) i = x % 2 ^ (8 * w) := by
  refine Nat.eq_of_testBit_eq fun j => ?_
  rw [testBit_lane, testBit_setLane, Nat.testBit_mod_two_pow]
  by_cases hj : j < 8 * w
  · have h2 : 8 * w * i + j < 8 * w * (i + 1) := by
      rw [Nat.mul_add, Nat.mul_one]; omega
    simp [hj, h2]
  · simp [hj]

theorem lane_setLane_ne (w v i x j : Nat) (hne : j ≠ i) :
    lane w (setLane w v i x) j = lane w v j := by
  refine Nat.eq_of_testBit_eq fun k => ?_
  rw [testBit_lane, testBit_lane, testBit_setLane]
  by_cases hk : k < 8 * w
  · rcases Nat.lt_or_gt_of_ne hne with h | h
    · have h1 : 8 * w * j + k < 8 * w * i := by
        have : 8 * w * (j + 1) ≤ 8 * w * i := Nat.mul_le_mul_left _ h
        rw [Nat.mul_add, Nat.mul_one] at this; omega
      simp [hk, h1]
    · have h0 : 8 * w * (i + 1) ≤ 8 * w * j := Nat.mul_le_mul_left _ h
      have h1 : ¬ (8 * w * j + k < 8 * w * i) := by
        rw [Nat.mul_add, Nat.mul_one] at h0; omega
      have h2 : ¬ (8 * w * j + k < 8 * w * (i + 1)) := by omega
      simp [hk, h1, h2]
  · simp [hk]

theorem lane_lt (w v i : Nat) : lane w v i < 2 ^ (8 * w) := Nat.mod_lt _ (by positivity)

theorem lane_storeLow (w n dst v i : Nat) (h : (i + 1) * w ≤ n) :
    lane w (storeLow n dst v) i = lane w v i := by
  refine Nat.eq_of_testBit_eq fun k => ?_
  rw [testBit_lane, testBit_lane]
  by_cases hk : k < 8 * w
  · have hlt : 8 * w * i + k < 8 * n := by
      have : 8 * ((i + 1) * w) ≤ 8 * n := Nat.mul_le_mul_left _ h
      have e : 8 * ((i + 1) * w) = 8 * w * i + 8 * w := by ring
      omega
    have e : (storeLow n dst v).testBit (8 * w * i + k) = v.testBit (8 * w * i + k) := by
      unfold storeLow
      rw [Nat.mul_comm, Nat.testBit_mul_pow_two_add _ (Nat.mod_lt _ (by positivity)),
        if_pos hlt, Nat.testBit_mod_two_pow]
      simp [hlt]
    rw [e]
  · simp [hk]

theorem lane_DO_VECTOR_OP (size : Nat) (Func : Nat → Nat → Nat → Nat) (Elements : Nat)
    (Tmp Src1 Src2 : Slot) (i : Nat) (hi : i < Elements) :
    lane size (DO_VECTOR_OP size Func Elements Tmp Src1 Src2) i
      = Func (8 * size) (lane size Src1 i) (lane size Src2 i) % 2 ^ (8 * size) := by
  unfold DO_VECTOR_OP
  induction Elements with
  | zero => omega
  | succ n ih =>
    rw [List.range_succ, List.foldl_append]
    simp only [List.foldl_cons, List.foldl_nil]
    by_cases h : i = n
    · subst h
      rw [lane_setLane_same]
    · rw [lane_setLane_ne _ _ _ _ _ h]
      exact ih (by omega)

theorem lane_index_le {OpSize w i : Nat} (hi : i < OpSize / w) : (i + 1) * w ≤ OpSize :=
  le_trans (Nat.mul_le_mul_right w hi) (Nat.div_mul_le_self OpSize w)

/-! ## Saturating adds -/

theorem VUQAdd_Func_value (w a b : Nat) (ha : a < 2 ^ w) (hb : b < 2 ^ w) :
    VUQAdd_Func w a b = if a + b < 2 ^ w then a + b else 2 ^ 32 - 1 := by
  unfold VUQAdd_Func
  by_cases h : a + b < 2 ^ w
  · simp only [Nat.mod_eq_of_lt h, if_pos h]
    rw [if_neg (by omega)]
  · have e : (a + b) % 2 ^ w = a + b - 2 ^ w := by
      rw [Nat.mod_eq_sub_mod (by omega), Nat.mod_eq_of_lt (by omega)]
    simp only [e, if_neg h]
    rw [if_pos (by omega)]

theorem VUQAdd_lane (Tmp : Slot) (OpSize w : Nat) (dst Src1 Src2 : Slot) (i : Nat)
    (hw : w = 1 ∨ w = 2 ∨ w = 4 ∨ w = 8) (hi : i < OpSize / w) :
    ∃ d, Op_VUQAdd Tmp OpSize w dst Src1 Src2 = some d ∧
      lane w d i = if lane w Src1 i + lane w Src2 i < 2 ^ (8 * w)
        then lane w Src1 i + lane w Src2 i else (2 ^ 32 - 1) % 2 ^ (8 * w) := by
  have key : ∀ s : Nat, i < OpSize / s →
      lane s (storeLow OpSize dst (DO_VECTOR_OP s VUQAdd_Func (OpSize / s) Tmp Src1 Src2)) i
        = if lane s Src1 i + lane s Src2 i < 2 ^ (8 * s)
          then lane s Src1 i + lane s Src2 i else (2 ^ 32 - 1) % 2 ^ (8 * s) := by
    intro s hs
    rw [lane_storeLow _ _ _ _ _ (lane_index_le hs), lane_DO_VECTOR_OP _ _ _ _ _ _ _ hs,
      VUQAdd_Func_value _ _ _ (lane_lt s Src1 i) (lane_lt s Src2 i)]
    split
    · next h => exact Nat.mod_eq_of_lt h
    · rfl
  rcases hw with rfl | rfl | rfl | rfl
  · exact ⟨_, rfl, key 1 hi⟩
  · exact ⟨_, rfl, key 2 hi⟩
  · exact ⟨_, rfl, key 4 hi⟩
  · exact ⟨_, rfl, key 8 hi⟩

/-- C18 (evaluation at the failing input): at element width 8 with the lanes
`a = 2^64 - 1` and `b = 1`, VUQAdd writes the lane `0xFFFFFFFF`, while the sum
clamped to the maximum of the element type is `2^64 - 1`; the lane written
comes from `~0U`, an `unsigned int`. -/
theorem C18_vuqadd_width8_saturates_low :
    (Op_VUQAdd 0 8 8 0 (2 ^ 64 - 1) 1).map (fun d => lane 8 d 0) = some (2 ^ 32 - 1) ∧
    min (lane 8 (2 ^ 64 - 1) 0 + lane 8 1 0) (2 ^ (8 * 8) - 1) = 2 ^ 64 - 1 ∧
    VUQAdd_Func 64 (2 ^ 64 - 1) 1 = 2 ^ 32 - 1 := by
  decide

/-- C19 (evaluation at the failing input): at element width 8 with the lanes
`a = 2^64 - 1` and `b = 1`, the lane written by VUQAdd is below `a`. -/
theorem C19_vuqadd_width8_below_input :
    ∃ d, Op_VUQAdd 0 8 8 0 (2 ^ 64 - 1) 1 = some d ∧ lane 8 d 0 < lane 8 (2 ^ 64 - 1) 0 :=
  ⟨_, rfl, by decide⟩

theorem VSQAdd_Func_clamp (w : Nat) (hw : 0 < w) (a b : Nat) :
    toSigned w (VSQAdd_Func w a b % 2 ^ w)
      = max (-(2 : Int) ^ (w - 1)) (min (2 ^ (w - 1) - 1) (toSigned w a + toSigned w b)) := by
  have hA := toSigned_bounds w hw a
  have hB := toSigned_bounds w hw b
  have hwrap : ∀ z : Int, toSigned w (toUnsigned w z % 2 ^ w) = wrapSigned w z := by
    intro z
    rw [Nat.mod_eq_of_lt (toUnsigned_lt w z)]
    rfl
  have hpos : (0 : Int) < 2 ^ (w - 1) := by positivity
  unfold VSQAdd_Func
  simp only
  generalize toSigned w a = sa at *
  generalize toSigned w b = sb at *
  have hrange : ∀ z : Int, -(2 : Int) ^ (w - 1) ≤ z → z < 2 ^ (w - 1) → wrapSigned w z = z :=
    fun z h1 h2 => wrapSigned_of_range w hw z h1 h2
  generalize (2 : Int) ^ (w - 1) = P at *
  by_cases h1 : sa > 0
  · rw [if_pos h1]
    by_cases h2 : sb > P - 1 - sa
    · rw [if_pos h2, hwrap, hrange _ (by linarith) (by linarith)]
      rw [min_eq_left (by linarith), max_eq_right (by linarith)]
    · have hres : wrapSigned w (sa + sb) = sa + sb := hrange _ (by linarith) (by linarith)
      rw [if_neg h2, hres, hwrap, hres]
      rw [min_eq_right (by linarith), max_eq_right (by linarith)]
  · rw [if_neg h1]
    by_cases h2 : sb < -P - sa
    · rw [if_pos h2, hwrap, hrange _ (by linarith) (by linarith)]
      rw [min_eq_right (by linarith), max_eq_left (by linarith)]
    · have hres : wrapSigned w (sa + sb) = sa + sb := hrange _ (by linarith) (by linarith)
      rw [if_neg h2, hres, hwrap, hres]
      rw [min_eq_right (by linarith), max_eq_right (by linarith)]

/-- C20: for every element width `w` in 1, 2, 4, 8 bytes, every operand size up to
16 and every lane `i` below `OpSize / w`, VSQAdd returns a slot whose lane `i`, read as
a signed value, is `a + b` clamped to `[-2^(8w-1), 2^(8w-1) - 1]`, `a` and `b`
being lane `i` of the two sources read as signed values; at width 1 the lanes
`120, -120, 100, 0` plus `20, -20, -100, 0` give `127, -128, 0, 0`. -/
theorem C20_vsqadd_clamps (Tmp : Slot) (OpSize w : Nat) (dst Src1 Src2 : Slot) (i : Nat)
    (hw : w = 1 ∨ w = 2 ∨ w = 4 ∨ w = 8) (_hOp : OpSize ≤ 16) (hi : i < OpSize / w) :
    (∃ d, Op_VSQAdd Tmp OpSize w dst Src1 Src2 = some d ∧
      toSigned (8 * w) (lane w d i)
        = max (-(2 : Int) ^ (8 * w - 1)) (min (2 ^ (8 * w - 1) - 1)
            (toSigned (8 * w) (lane w Src1 i) + toSigned (8 * w) (lane w Src2 i)))) ∧
    (∃ d, Op_VSQAdd Tmp 8 1 dst 0x00648878 0x009CEC14 = some d ∧
      toSigned 8 (lane 1 d 0) = 127 ∧ toSigned 8 (lane 1 d 1) = -128 ∧
      toSigned 8 (lane 1 d 2) = 0 ∧ toSigned 8 (lane 1 d 3) = 0) := by
  have key : ∀ (n s j : Nat) (x y : Slot), 0 < s → j < n / s →
      toSigned (8 * s) (lane s (storeLow n dst
          (DO_VECTOR_OP s VSQAdd_Func (n / s) Tmp x y)) j)
        = max (-(2 : Int) ^ (8 * s - 1)) (min (2 ^ (8 * s - 1) - 1)
            (toSigned (8 * s) (lane s x j) + toSigned (8 * s) (lane s y j))) := by
    intro n s j x y hs hj
    rw [lane_storeLow _ _ _ _ _ (lane_index_le hj), lane_DO_VECTOR_OP _ _ _ _ _ _ _ hj,
      VSQAdd_Func_clamp (8 * s) (by omega)]
  refine ⟨?_, ⟨_, rfl, ?_, ?_, ?_, ?_⟩⟩
  · rcases hw with rfl | rfl | rfl | rfl
    · exact ⟨_, rfl, key OpSize 1 i _ _ (by norm_num) hi⟩
    · exact ⟨_, rfl, key OpSize 2 i _ _ (by norm_num) hi⟩
    · exact ⟨_, rfl, key OpSize 4 i _ _ (by norm_num) hi⟩
    · exact ⟨_, rfl, key OpSize 8 i _ _ (by norm_num) hi⟩
  · rw [key 8 1 0 _ _ (by norm_num) (by norm_num)]; decide
  · rw [key 8 1 1 _ _ (by norm_num) (by norm_num)]; decide
  · rw [key 8 1 2 _ _ (by norm_num) (by norm_num)]; decide
  · rw [key 8 1 3 _ _ (by norm_num) (by norm_num)]; decide

/-- Witness for C20: lane 1 of the scenario of the specification. -/
theorem C20_vsqadd_clamps_witness :
    ((1 : Nat) = 1 ∨ (1 : Nat) = 2 ∨ (1 : Nat) = 4 ∨ (1 : Nat) = 8) ∧ 8 ≤ 16 ∧ 1 < 8 / 1 ∧
    (∃ d, Op_VSQAdd 0 8 1 0 0x00648878 0x009CEC14 = some d ∧
      toSigned (8 * 1) (lane 1 d 1)
        = max (-(2 : Int) ^ (8 * 1 - 1)) (min (2 ^ (8 * 1 - 1) - 1)
            (toSigned (8 * 1) (lane 1 0x00648878 1)
              + toSigned (8 * 1) (lane 1 0x009CEC14 1)))) ∧
    (∃ d, Op_VSQAdd 0 8 1 0 0x00648878 0x009CEC14 = some d ∧
      toSigned 8 (lane 1 d 0) = 127 ∧ toSigned 8 (lane 1 d 1) = -128 ∧
      toSigned 8 (lane 1 d 2) = 0 ∧ toSigned 8 (lane 1 d 3) = 0) :=
  ⟨by decide, by decide, by decide,
    C20_vsqadd_clamps 0 8 1 0 0x00648878 0x009CEC14 1 (by decide) (by decide) (by decide)⟩

/-! ## Lowest set bit -/

theorem countr_zero_spec (w : Nat) : ∀ x : Nat, x < 2 ^ w → 0 < x →
    countr_zero w x < w ∧ x.testBit (countr_zero w x) = true ∧
      ∀ i, i < countr_zero w x → x.testBit i = false := by
  induction w with
  | zero => intro x hx h0; simp at hx; omega
  | succ n ih =>
    intro x hx h0
    unfold countr_zero
    by_cases h : x % 2 = 1
    · rw [if_pos h]
      refine ⟨by omega, ?_, fun i hi => by omega⟩
      rw [Nat.testBit_zero]
      simp [h]
    · rw [if_neg h]
      have hx2 : x / 2 < 2 ^ n := by
        rw [pow_succ] at hx; omega
      obtain ⟨h1, h2, h3⟩ := ih (x / 2) hx2 (by omega)
      refine ⟨by omega, ?_, ?_⟩
      · rw [Nat.add_comm, Nat.testBit_succ]
        exact h2
      · intro i hi
        cases i with
        | zero =>
          rw [Nat.testBit_zero]
          simp [h]
        | succ j =>
          rw [Nat.testBit_succ]
          exact h3 j (by omega)

theorem testBit_clear_lowest (M t : Nat) (ht : M.testBit t = true)
    (hlow : ∀ i, i < t → M.testBit i = false) (p : Nat) :
    (M &&& (M - 1)).testBit p = (M.testBit p && decide (p ≠ t)) := by
  have hmod : M % 2 ^ (t + 1) = 2 ^ t := by
    refine Nat.eq_of_testBit_eq fun i => ?_
    rw [Nat.testBit_mod_two_pow, Nat.testBit_two_pow]
    rcases Nat.lt_trichotomy i t with h | h | h
    · simp [hlow i h, show t ≠ i by omega]
    · subst h; simp [ht]
    · simp [show ¬ (i < t + 1) by omega, show t ≠ i by omega]
  have hM : M = 2 ^ (t + 1) * (M / 2 ^ (t + 1)) + 2 ^ t := by
    conv_lhs => rw [← Nat.div_add_mod M (2 ^ (t + 1)), hmod]
  have hlt : (2 : Nat) ^ t < 2 ^ (t + 1) := Nat.pow_lt_pow_right (by norm_num) (by omega)
  have hpos : 0 < (2 : Nat) ^ t := by positivity
  have hM1 : M - 1 = 2 ^ (t + 1) * (M / 2 ^ (t + 1)) + (2 ^ t - 1) := by
    have := hM
    omega
  rw [Nat.testBit_and]
  have b1 : M.testBit p = if p < t + 1 then (2 ^ t).testBit p
      else (M / 2 ^ (t + 1)).testBit (p - (t + 1)) := by
    conv_lhs => rw [hM]
    exact Nat.testBit_mul_pow_two_add _ hlt p
  have b2 : (M - 1).testBit p = if p < t + 1 then (2 ^ t - 1).testBit p
      else (M / 2 ^ (t + 1)).testBit (p - (t + 1)) := by
    rw [hM1]
    exact Nat.testBit_mul_pow_two_add _ (by omega) p
  rw [b2, b1]
  by_cases hp : p < t + 1
  · simp only [if_pos hp, Nat.testBit_two_pow, Nat.testBit_two_pow_sub_one]
    by_cases hpt : p = t
    · subst hpt; simp
    · simp [hpt, show t ≠ p by omega]
  · simp only [if_neg hp]
    simp [show p ≠ t by omega]

theorem popcount_succ (n x : Nat) :
    popcount (n + 1) x = popcount n x + (if x.testBit n then 1 else 0) := by
  unfold popcount
  rw [List.range_succ, List.countP_append]
  simp [List.countP_cons]

theorem popcount_le (n x : Nat) : popcount n x ≤ n := by
  unfold popcount
  exact le_trans (List.countP_le_length _) (by simp)

theorem popcount_clear (M M' t : Nat) (ht : M.testBit t = true)
    (hbit : ∀ p, M'.testBit p = (M.testBit p && decide (p ≠ t))) (n : Nat) :
    popcount n M = popcount n M' + (if t < n then 1 else 0) := by
  induction n with
  | zero => simp [popcount]
  | succ k ih =>
    rw [popcount_succ, popcount_succ, ih, hbit k]
    by_cases hk : k = t
    · subst hk; simp [ht]
    · have e : (t < k + 1) = (t < k) := by
        apply propext; constructor <;> intro h <;> omega
      simp only [e, hk, ne_eq, not_false_eq_true, decide_True, Bool.and_true]
      omega

theorem popcount_eq_zero_of_low (M t : Nat) (hlow : ∀ i, i < t → M.testBit i = false) :
    popcount t M = 0 := by
  unfold popcount
  rw [List.countP_eq_zero]
  intro i hi
  simp [hlow i (List.mem_range.mp hi)]

theorem testBit_single (x a b i : Nat) (hb : b < 64) :
    ((((x >>> a) &&& 1) <<< b) % 2 ^ 64).testBit i = (decide (i = b) && x.testBit a) := by
  have h1 : (1 : Nat) = 2 ^ 1 - 1 := rfl
  rw [Nat.testBit_mod_two_pow, Nat.testBit_shiftLeft, Nat.testBit_and, Nat.testBit_shiftRight]
  conv_lhs => rw [h1, Nat.testBit_two_pow_sub_one]
  by_cases hi : i = b
  · subst hi; simp [hb]
  · by_cases h2 : b ≤ i
    · simp [hi, show ¬ (i - b < 1) by omega]
    · simp [hi, h2]

/-! ## PDep and PExt loops -/

theorem PDep_loop_spec (Input : Nat) (fuel : Nat) : ∀ (M I R : Nat), M < 2 ^ 64 →
    popcount 64 M ≤ fuel →
    ∃ R', PDep_loop Input fuel M I R = some (I + popcount 64 M, R') ∧
      ∀ p, R'.testBit p
        = (R.testBit p || (M.testBit p && Input.testBit (I + popcount p M))) := by
  induction fuel with
  | zero =>
    intro M I R hM hf
    by_cases h0 : 0 < M
    · obtain ⟨h1, h2, h3⟩ := countr_zero_spec 64 M hM h0
      have hc := popcount_clear M (M &&& (M - 1)) _ h2 (testBit_clear_lowest M _ h2 h3) 64
      rw [if_pos h1] at hc
      omega
    · have hM0 : M = 0 := by omega
      subst hM0
      refine ⟨R, ?_, fun p => by simp⟩
      have : popcount 64 0 = 0 := by decide
      simp [PDep_loop, this]
  | succ n ih =>
    intro M I R hM hf
    by_cases h0 : 0 < M
    · obtain ⟨h1, h2, h3⟩ := countr_zero_spec 64 M hM h0
      have hbit := testBit_clear_lowest M _ h2 h3
      have hc := popcount_clear M (M &&& (M - 1)) _ h2 hbit
      have hc64 := hc 64
      rw [if_pos h1] at hc64
      have hM' : M &&& (M - 1) < 2 ^ 64 := lt_of_le_of_lt Nat.and_le_left hM
      obtain ⟨R', hR', hb⟩ := ih (M &&& (M - 1)) (I + 1)
        (R ||| ((((Input >>> I) &&& 1) <<< countr_zero 64 M) % 2 ^ 64)) hM' (by omega)
      refine ⟨R', ?_, ?_⟩
      · rw [PDep_loop, if_pos h0]
        simp only
        rw [hR', hc64]
        congr 2
        omega
      · intro p
        rw [hb p, Nat.testBit_or, testBit_single _ _ _ _ h1, hbit p, hc p]
        rcases Nat.lt_trichotomy p (countr_zero 64 M) with hp | hp | hp
        · simp [h3 p hp, show p ≠ countr_zero 64 M by omega]
        · rw [hp]
          have hz : popcount (countr_zero 64 M) (M &&& (M - 1)) = 0 :=
            popcount_eq_zero_of_low _ _ (fun i hi => by rw [hbit i, h3 i hi]; rfl)
          simp [h2, hz]
        · have e : I + 1 + popcount p (M &&& (M - 1))
              = I + (popcount p (M &&& (M - 1)) + 1) := by omega
          simp [show p ≠ countr_zero 64 M by omega, hp, e]
    · have hM0 : M = 0 := by omega
      subst hM0
      refine ⟨R, ?_, fun p => by simp⟩
      have : popcount 64 0 = 0 := by decide
      simp [PDep_loop, this]

theorem PExt_loop_spec (Input : Nat) (fuel : Nat) : ∀ (M O R : Nat), M < 2 ^ 64 →
    popcount 64 M ≤ fuel → O + popcount 64 M ≤ 64 → R < 2 ^ O →
    ∃ R', PExt_loop Input fuel M O R = some (O + popcount 64 M, R') ∧
      (∀ i, i < O → R'.testBit i = R.testBit i) ∧
      (∀ p, M.testBit p = true → R'.testBit (O + popcount p M) = Input.testBit p) ∧
      R' < 2 ^ (O + popcount 64 M) := by
  induction fuel with
  | zero =>
    intro M O R hM hf _ hR
    by_cases h0 : 0 < M
    · obtain ⟨h1, h2, h3⟩ := countr_zero_spec 64 M hM h0
      have hc := popcount_clear M (M &&& (M - 1)) _ h2 (testBit_clear_lowest M _ h2 h3) 64
      rw [if_pos h1] at hc
      omega
    · have hM0 : M = 0 := by omega
      subst hM0
      have : popcount 64 0 = 0 := by decide
      refine ⟨R, by simp [PExt_loop, this], fun _ _ => rfl, fun p hp => by simp at hp, ?_⟩
      rw [this]; exact hR
  | succ n ih =>
    intro M O R hM hf hO hR
    by_cases h0 : 0 < M
    · obtain ⟨h1, h2, h3⟩ := countr_zero_spec 64 M hM h0
      have hbit := testBit_clear_lowest M _ h2 h3
      have hc := popcount_clear M (M &&& (M - 1)) _ h2 hbit
      have hc64 := hc 64
      rw [if_pos h1] at hc64
      have hM' : M &&& (M - 1) < 2 ^ 64 := lt_of_le_of_lt Nat.and_le_left hM
      have hO64 : O < 64 := by omega
      have hR1bit : ∀ i, (R ||| ((((Input >>> countr_zero 64 M) &&& 1) <<< O) % 2 ^ 64)).testBit i
          = (R.testBit i || (decide (i = O) && Input.testBit (countr_zero 64 M))) := by
        intro i
        rw [Nat.testBit_or, testBit_single _ _ _ _ hO64]
      have hR1 : R ||| ((((Input >>> countr_zero 64 M) &&& 1) <<< O) % 2 ^ 64) < 2 ^ (O + 1) := by
        refine Nat.lt_pow_two_of_testBit _ fun i hi => ?_
        rw [hR1bit, testBit_eq_false_of_lt hR (by omega)]
        simp [show i ≠ O by omega]
      obtain ⟨R', hR', ha, hb, hlt⟩ := ih (M &&& (M - 1)) (O + 1) _ hM' (by omega)
        (by omega) hR1
      have hsum : O + 1 + popcount 64 (M &&& (M - 1)) = O + popcount 64 M := by omega
      refine ⟨R', ?_, ?_, ?_, ?_⟩
      · rw [PExt_loop, if_pos h0]
        simp only
        rw [hR', hsum]
      · intro i hi
        rw [ha i (by omega), hR1bit]
        simp [show i ≠ O by omega]
      · intro p hp
        by_cases hpt : p = countr_zero 64 M
        · rw [hpt, popcount_eq_zero_of_low M _ h3, Nat.add_zero, ha O (by omega), hR1bit,
            testBit_eq_false_of_lt hR (le_refl O)]
          simp
        · have hgt : countr_zero 64 M < p := by
            rcases Nat.lt_trichotomy p (countr_zero 64 M) with h | h | h
            · rw [h3 p h] at hp; simp at hp
            · exact absurd h hpt
            · exact h
          have hp' : (M &&& (M - 1)).testBit p = true := by
            rw [hbit p, hp]; simp [hpt]
          have := hb p hp'
          rw [hc p, if_pos hgt]
          rw [show O + (popcount p (M &&& (M - 1)) + 1)
            = O + 1 + popcount p (M &&& (M - 1)) by omega]
          exact this
      · rw [← hsum]; exact hlt
    · have hM0 : M = 0 := by omega
      subst hM0
      have : popcount 64 0 = 0 := by decide
      refine ⟨R, by simp [PExt_loop, this], fun _ _ => rfl, fun p hp => by simp at hp, ?_⟩
      rw [this]; exact hR

theorem PDep_kernel (OpSize : Nat) (dst Src1 Src2 : Slot) (hsize : OpSize = 4 ∨ OpSize = 8) :
    ∃ d, Op_PDep OpSize dst Src1 Src2 = some d ∧
      ∀ p, (GetSrc 8 d).testBit p
        = ((GetSrc OpSize Src2).testBit p &&
            (GetSrc OpSize Src1).testBit (popcount p (GetSrc OpSize Src2))) := by
  have main : ∀ X M : Nat, M < 2 ^ 64 →
      ∃ R, PDep_loop X 64 M 0 0 = some (0 + popcount 64 M, R) ∧
        ∀ p, (GetSrc 8 (GD dst R)).testBit p = (M.testBit p && X.testBit (popcount p M)) := by
    intro X M hM
    obtain ⟨R, hR, hb⟩ := PDep_loop_spec X 64 M 0 0 hM (popcount_le 64 M)
    have hb' : ∀ p, R.testBit p = (M.testBit p && X.testBit (popcount p M)) := by
      intro p
      rw [hb p]
      simp
    have hlt : R < 2 ^ 64 := by
      refine Nat.lt_pow_two_of_testBit _ fun i hi => ?_
      rw [hb', testBit_eq_false_of_lt hM hi]
      rfl
    refine ⟨R, hR, fun p => ?_⟩
    rw [GetSrc_GD, Nat.mod_eq_of_lt hlt, hb']
  rcases hsize with rfl | rfl
  · have hM : GetSrc 4 Src2 < 2 ^ 64 :=
      lt_of_lt_of_le (GetSrc_lt 4 Src2) (by norm_num)
    obtain ⟨R, hR, hb⟩ := main (GetSrc 4 Src1) (GetSrc 4 Src2) hM
    exact ⟨GD dst R, by simp [Op_PDep, hR], hb⟩
  · obtain ⟨R, hR, hb⟩ := main (GetSrc 8 Src1) (GetSrc 8 Src2) (GetSrc_lt 8 Src2)
    exact ⟨GD dst R, by simp [Op_PDep, hR], hb⟩

theorem PExt_kernel (OpSize : Nat) (dst Src1 Src2 : Slot) (hsize : OpSize = 4 ∨ OpSize = 8) :
    ∃ e, Op_PExt OpSize dst Src1 Src2 = some e ∧
      (∀ p, (GetSrc OpSize Src2).testBit p = true →
        (GetSrc 8 e).testBit (popcount p (GetSrc OpSize Src2))
          = (GetSrc OpSize Src1).testBit p) ∧
      GetSrc 8 e < 2 ^ popcount 64 (GetSrc OpSize Src2) := by
  have main : ∀ X M : Nat, M < 2 ^ 64 →
      ∃ R, PExt_loop X 64 M 0 0 = some (0 + popcount 64 M, R) ∧
        (∀ p, M.testBit p = true →
          (GetSrc 8 (GD dst R)).testBit (popcount p M) = X.testBit p) ∧
        GetSrc 8 (GD dst R) < 2 ^ popcount 64 M := by
    intro X M hM
    have h64 := popcount_le 64 M
    obtain ⟨R, hR, -, hb, hlt⟩ := PExt_loop_spec X 64 M 0 0 hM h64 (by omega) (by norm_num)
    rw [Nat.zero_add] at hlt
    have hlt64 : R < 2 ^ 64 :=
      lt_of_lt_of_le hlt (Nat.pow_le_pow_right (by norm_num) h64)
    refine ⟨R, hR, fun p hp => ?_, ?_⟩
    · rw [GetSrc_GD, Nat.mod_eq_of_lt hlt64]
      have := hb p hp
      rw [Nat.zero_add] at this
      exact this
    · rw [GetSrc_GD, Nat.mod_eq_of_lt hlt64]
      exact hlt
  rcases hsize with rfl | rfl
  · have hM : GetSrc 4 Src2 < 2 ^ 64 :=
      lt_of_lt_of_le (GetSrc_lt 4 Src2) (by norm_num)
    obtain ⟨R, hR, hb⟩ := main (GetSrc 4 Src1) (GetSrc 4 Src2) hM
    exact ⟨GD dst R, by simp [Op_PExt, hR], hb⟩
  · obtain ⟨R, hR, hb⟩ := main (GetSrc 8 Src1) (GetSrc 8 Src2) (GetSrc_lt 8 Src2)
    exact ⟨GD dst R, by simp [Op_PExt, hR], hb⟩

/-- C16: for `OpSize` in 4, 8, with `x` and `m` the two sources truncated to
`OpSize` bytes, PDep returns a slot whose low eight bytes `r` satisfy: at the
position `p` of the `i`-th lowest set bit of `m` (`m` has bit `p` set and
exactly `i` set bits below `p`), bit `p` of `r` is bit `i` of `x`; every bit
of `r` at a position where `m` has no set bit is zero. PDep at size 8 of
`0xFFFF` with mask `0xAAAAAAAA` is `0xAAAAAAAA`. -/
theorem C16_pdep_deposits (OpSize : Nat) (dst Src1 Src2 : Slot)
    (hsize : OpSize = 4 ∨ OpSize = 8) :
    (∃ d, Op_PDep OpSize dst Src1 Src2 = some d ∧
      (∀ p i, (GetSrc OpSize Src2).testBit p = true → popcount p (GetSrc OpSize Src2) = i →
        (i < popcount 64 (GetSrc OpSize Src2) ∧
          (GetSrc 8 d).testBit p = (GetSrc OpSize Src1).testBit i)) ∧
      (∀ p, (GetSrc OpSize Src2).testBit p = false → (GetSrc 8 d).testBit p = false)) ∧
    (Op_PDep 8 dst 0xFFFF 0xAAAAAAAA).map (GetSrc 8) = some 0xAAAAAAAA := by
  obtain ⟨d, hd, hb⟩ := PDep_kernel OpSize dst Src1 Src2 hsize
  have hM : GetSrc OpSize Src2 < 2 ^ 64 := by
    rcases hsize with rfl | rfl
    · exact lt_of_lt_of_le (GetSrc_lt 4 Src2) (by norm_num)
    · exact GetSrc_lt 8 Src2
  refine ⟨⟨d, hd, ?_, ?_⟩, ?_⟩
  · intro p i hp hi
    constructor
    · have hp64 : p < 64 := by
        by_contra hge
        rw [testBit_eq_false_of_lt hM (not_lt.mp hge)] at hp
        exact Bool.false_ne_true hp
      have hc := popcount_succ p (GetSrc OpSize Src2)
      rw [hp, if_pos rfl] at hc
      have hmono : popcount (p + 1) (GetSrc OpSize Src2) ≤ popcount 64 (GetSrc OpSize Src2) := by
        have := countP_range_of_false (fun i => (GetSrc OpSize Src2).testBit i && decide (i < p + 1))
          (p + 1) 64 (by omega) (fun i h1 _ => by simp [show ¬ i < p + 1 by omega])
        have e1 : List.countP (fun i => (GetSrc OpSize Src2).testBit i && decide (i < p + 1))
            (List.range (p + 1)) = popcount (p + 1) (GetSrc OpSize Src2) :=
          List.countP_congr (fun i hi => by simp [List.mem_range.mp hi])
        rw [e1] at this
        rw [← this]
        exact List.countP_mono_left (fun i _ h => by
          simp only [Bool.and_eq_true] at h; exact h.1)
      omega
    · rw [hb p, hp, hi]
      rfl
  · intro p hp
    rw [hb p, hp]
    rfl
  · have h : PDep_loop 0xFFFF 64 0xAAAAAAAA 0 0 = some (16, 0xAAAAAAAA) := by decide
    have e1 : GetSrc 8 0xFFFF = 0xFFFF := by decide
    have e2 : GetSrc 8 0xAAAAAAAA = 0xAAAAAAAA := by decide
    simp only [Op_PDep, e1, e2]
    simp [h, GetSrc_GD]

/-- Witness for C16: the scenario of the specification at size 8. -/
theorem C16_pdep_deposits_witness :
    ((8 : Nat) = 4 ∨ (8 : Nat) = 8) ∧
    (∃ d, Op_PDep 8 0 0xFFFF 0xAAAAAAAA = some d ∧
      (∀ p i, (GetSrc 8 0xAAAAAAAA).testBit p = true → popcount p (GetSrc 8 0xAAAAAAAA) = i →
        (i < popcount 64 (GetSrc 8 0xAAAAAAAA) ∧
          (GetSrc 8 d).testBit p = (GetSrc 8 0xFFFF).testBit i)) ∧
      (∀ p, (GetSrc 8 0xAAAAAAAA).testBit p = false → (GetSrc 8 d).testBit p = false)) ∧
    (Op_PDep 8 0 0xFFFF 0xAAAAAAAA).map (GetSrc 8) = some 0xAAAAAAAA :=
  ⟨by decide, C16_pdep_deposits 8 0 0xFFFF 0xAAAAAAAA (by decide)⟩

/-- C17: for `OpSize` in 4, 8 and all sources, PExt and then PDep with the same
mask return slots, and `PDep(PExt(x, m), m) & m = x & m`, `x` and `m` being
the sources truncated to `OpSize` bytes. -/
theorem C17_pdep_pext (OpSize : Nat) (dst1 dst2 Src1 Src2 : Slot)
    (hsize : OpSize = 4 ∨ OpSize = 8) :
    ∃ e d, Op_PExt OpSize dst1 Src1 Src2 = some e ∧ Op_PDep OpSize dst2 e Src2 = some d ∧
      GetSrc 8 d &&& GetSrc OpSize Src2 = GetSrc OpSize Src1 &&& GetSrc OpSize Src2 := by
  obtain ⟨e, he, hb, hlt⟩ := PExt_kernel OpSize dst1 Src1 Src2 hsize
  obtain ⟨d, hd, hdb⟩ := PDep_kernel OpSize dst2 e Src2 hsize
  have hle : popcount 64 (GetSrc OpSize Src2) ≤ 8 * OpSize := by
    rcases hsize with rfl | rfl
    · rw [popcount_of_lt (show 8 * 4 ≤ 64 by norm_num) (GetSrc_lt 4 Src2)]
      exact popcount_le _ _
    · exact popcount_le _ _
  have hE : GetSrc OpSize e = GetSrc 8 e := by
    have h8 : OpSize ≤ 8 := by rcases hsize with rfl | rfl <;> norm_num
    rw [← GetSrc_GetSrc_of_le h8 e]
    exact Nat.mod_eq_of_lt (lt_of_lt_of_le hlt (Nat.pow_le_pow_right (by norm_num) hle))
  refine ⟨e, d, he, hd, Nat.eq_of_testBit_eq fun p => ?_⟩
  rw [Nat.testBit_and, Nat.testBit_and, hdb p, hE]
  by_cases hp : (GetSrc OpSize Src2).testBit p = true
  · rw [hb p hp, hp]
    simp
  · simp [hp]

/-- Witness for C17: `x = 0b10110`, `m = 0b11010` at size 4. -/
theorem C17_pdep_pext_witness :
    ((4 : Nat) = 4 ∨ (4 : Nat) = 8) ∧
    ∃ e d, Op_PExt 4 0 0b10110 0b11010 = some e ∧ Op_PDep 4 0 e 0b11010 = some d ∧
      GetSrc 8 d &&& GetSrc 4 0b11010 = GetSrc 4 0b10110 &&& GetSrc 4 0b11010 :=
  ⟨by decide, C17_pdep_pext 4 0 0 0b10110 0b11010 (by decide)⟩

/-! ## Element loops and bytes -/

theorem lane_foldl_setLane (size : Nat) (f : Nat → Nat) (n : Nat) (Tmp : Slot) (i : Nat) :
    lane size ((List.range n).foldl (fun T j => setLane size T j (f j)) Tmp) i
      = if i < n then f i % 2 ^ (8 * size) else lane size Tmp i := by
  induction n with
  | zero => simp
  | succ k ih =>
    rw [List.range_succ, List.foldl_append]
    simp only [List.foldl_cons, List.foldl_nil]
    by_cases h : i = k
    · subst h
      rw [lane_setLane_same, if_pos (by omega)]
    · rw [lane_setLane_ne _ _ _ _ _ h, ih]
      by_cases h2 : i < k
      · rw [if_pos h2, if_pos (by omega)]
      · rw [if_neg h2, if_neg (by omega)]

theorem lane_DO_VECTOR_0SRC_OP (size : Nat) (Func : Nat → Nat) (Elements : Nat) (Tmp : Slot)
    (i : Nat) (hi : i < Elements) :
    lane size (DO_VECTOR_0SRC_OP size Func Elements Tmp) i = Func (8 * size) % 2 ^ (8 * size) := by
  unfold DO_VECTOR_0SRC_OP
  rw [lane_foldl_setLane size (fun _ => Func (8 * size)), if_pos hi]

theorem lane_DO_VECTOR_1SRC_OP (size : Nat) (Func : Nat → Nat → Nat) (Elements : Nat)
    (Tmp Src : Slot) (i : Nat) (hi : i < Elements) :
    lane size (DO_VECTOR_1SRC_OP size Func Elements Tmp Src) i
      = Func (8 * size) (lane size Src i) % 2 ^ (8 * size) := by
  unfold DO_VECTOR_1SRC_OP
  rw [lane_foldl_setLane size (fun j => Func (8 * size) (lane size Src j)), if_pos hi]

theorem testBit_byteAt (s i j : Nat) :
    (byteAt s i).testBit j = (decide (j < 8) && s.testBit (8 * i + j)) := by
  unfold byteAt
  rw [show (256 : Nat) = 2 ^ 8 by norm_num, Nat.testBit_mod_two_pow, testBit_div_two_pow]

theorem testBit_storeLow (n dst v k : Nat) :
    (storeLow n dst v).testBit k = if k < 8 * n then v.testBit k else dst.testBit k := by
  unfold storeLow
  rw [Nat.mul_comm, Nat.testBit_mul_pow_two_add _ (Nat.mod_lt _ (by positivity))]
  by_cases h : k < 8 * n
  · rw [if_pos h, if_pos h, Nat.testBit_mod_two_pow]
    simp [h]
  · rw [if_neg h, if_neg h, testBit_div_two_pow]
    congr 1
    omega

theorem byteAt_storeLow_above (n dst v i : Nat) (h : n ≤ i) :
    byteAt (storeLow n dst v) i = byteAt dst i := by
  refine Nat.eq_of_testBit_eq fun j => ?_
  rw [testBit_byteAt, testBit_byteAt, testBit_storeLow, if_neg (by omega)]

theorem testBit_eq_lane (w v k : Nat) (hw : 0 < w) :
    v.testBit k = (lane w v (k / (8 * w))).testBit (k % (8 * w)) := by
  rw [testBit_lane]
  have h1 : k % (8 * w) < 8 * w := Nat.mod_lt _ (by omega)
  have h2 : 8 * w * (k / (8 * w)) + k % (8 * w) = k := Nat.div_add_mod k (8 * w)
  simp [h1, h2]

theorem GetSrc_of_lanes_ones (w n v : Nat) (hw : 0 < w)
    (h : ∀ i, i < n → lane w v i = 2 ^ (8 * w) - 1) :
    GetSrc (w * n) v = 2 ^ (8 * (w * n)) - 1 := by
  unfold GetSrc
  refine Nat.eq_of_testBit_eq fun k => ?_
  rw [Nat.testBit_mod_two_pow, Nat.testBit_two_pow_sub_one]
  by_cases hk : k < 8 * (w * n)
  · have hi : k / (8 * w) < n := by
      rw [Nat.div_lt_iff_lt_mul (by omega)]
      calc k < 8 * (w * n) := hk
        _ = n * (8 * w) := by ring
    rw [testBit_eq_lane w v k hw, h _ hi, Nat.testBit_two_pow_sub_one]
    simp [hk, Nat.mod_lt k (show 0 < 8 * w by omega)]
  · simp [hk]

theorem byteAt_of_GetSrc_ones (n v i : Nat) (h : GetSrc n v = 2 ^ (8 * n) - 1) (hi : i < n) :
    byteAt v i = 0xFF := by
  refine Nat.eq_of_testBit_eq fun j => ?_
  rw [testBit_byteAt, show (0xFF : Nat) = 2 ^ 8 - 1 by norm_num, Nat.testBit_two_pow_sub_one]
  by_cases hj : j < 8
  · have hb : (GetSrc n v).testBit (8 * i + j) = true := by
      rw [h, Nat.testBit_two_pow_sub_one]
      simp; omega
    unfold GetSrc at hb
    rw [Nat.testBit_mod_two_pow] at hb
    simp only [Bool.and_eq_true, decide_eq_true_eq] at hb
    simp [hj, hb.2]
  · simp [hj]

/-! ## Packed compares, saturating subtract, moves -/

theorem ones64_mod (k : Nat) (hk : k ≤ 64) : (2 ^ 64 - 1) % 2 ^ k = 2 ^ k - 1 := by
  refine Nat.eq_of_testBit_eq fun i => ?_
  rw [Nat.testBit_mod_two_pow, Nat.testBit_two_pow_sub_one, Nat.testBit_two_pow_sub_one]
  by_cases hi : i < k
  · simp [hi, show i < 64 by omega]
  · simp [hi]

theorem VSQSub_Func_clamp_narrow (w : Nat) (hw : 0 < w) (hw32 : w < 32) (a b : Nat) :
    toSigned w (VSQSub_Func w a b % 2 ^ w)
      = max (-(2 : Int) ^ (w - 1)) (min (2 ^ (w - 1) - 1) (toSigned w a - toSigned w b)) := by
  have hA := toSigned_bounds w hw a
  have hB := toSigned_bounds w hw b
  have hwrap : ∀ z : Int, toSigned w (toUnsigned w z % 2 ^ w) = wrapSigned w z := by
    intro z
    rw [Nat.mod_eq_of_lt (toUnsigned_lt w z)]
    rfl
  have hpos : (0 : Int) < 2 ^ (w - 1) := by positivity
  have hP31 : (2 : Int) ^ (w - 1) ≤ 2 ^ 30 := pow_le_pow_right₀ (by norm_num) (by omega)
  unfold VSQSub_Func
  simp only [if_pos hw32]
  generalize toSigned w a = sa at *
  generalize toSigned w b = sb at *
  have hrange : ∀ z : Int, -(2 : Int) ^ (w - 1) ≤ z → z < 2 ^ (w - 1) → wrapSigned w z = z :=
    fun z h1 h2 => wrapSigned_of_range w hw z h1 h2
  have hres : wrapSigned 32 (sa - sb) = sa - sb :=
    wrapSigned_of_range 32 (by norm_num) _ (by norm_num; linarith) (by norm_num; linarith)
  rw [hres]
  generalize (2 : Int) ^ (w - 1) = P at *
  by_cases h1 : sa - sb < -P
  · rw [if_pos h1, hwrap, hrange _ (by linarith) (by linarith)]
    rw [min_eq_right (by linarith), max_eq_left (by linarith)]
  · rw [if_neg h1]
    by_cases h2 : sa - sb > P - 1
    · rw [if_pos h2, hwrap, hrange _ (by linarith) (by linarith)]
      rw [min_eq_left (by linarith), max_eq_right (by linarith)]
    · rw [if_neg h2, hwrap, hrange _ (by linarith) (by linarith)]
      rw [min_eq_right (by linarith), max_eq_right (by linarith)]

/-- C21 (evaluation at the failing input): at element width 4 with the lanes
`a = -2^31` and `b = 1`, `a - b` wraps to `2^31 - 1` in `int` before the
conversion to `__int128_t`, no clamp applies and VSQSub writes `0x7FFFFFFF`,
while the exact difference clamped to the element range is `-2^31`
(`0x80000000`); likewise at width 8 with `a = -2^63` and `b = 1` it writes
`2^63 - 1`. -/
theorem C21_vsqsub_width4_wraps :
    (Op_VSQSub 0 8 4 0 0x80000000 1).map (fun d => lane 4 d 0) = some 0x7FFFFFFF ∧
    toSigned 32 (lane 4 0x80000000 0) = -2 ^ 31 ∧ toSigned 32 (lane 4 1 0) = 1 ∧
    toUnsigned 32 (max (-(2 : Int) ^ 31) (min (2 ^ 31 - 1) (-2 ^ 31 - 1))) = 0x80000000 ∧
    (Op_VSQSub 0 8 8 0 (2 ^ 63) 1).map (fun d => lane 8 d 0) = some (2 ^ 63 - 1) := by
  decide

/-- C22: for every element width `w` in 1, 2, 4, 8 bytes, every operand size up to
16 and every lane `i` below `OpSize / w`, VCMPGT returns a slot whose lane `i` is
all-ones when lane `i` of source 1 is greater than lane `i` of source 2 as
signed integers and zero otherwise; at width 2 the lanes
`0x0001, 0x8000, 0x7FFF, 0x0000` against zeros give
`0xFFFF, 0x0000, 0xFFFF, 0x0000`. -/
theorem C22_vcmpgt_mask (Tmp : Slot) (OpSize w : Nat) (dst Src1 Src2 : Slot) (i : Nat)
    (hw : w = 1 ∨ w = 2 ∨ w = 4 ∨ w = 8) (_hOp : OpSize ≤ 16) (hi : i < OpSize / w) :
    (∃ d, Op_VCMPGT Tmp OpSize w dst Src1 Src2 = some d ∧
      lane w d i = if toSigned (8 * w) (lane w Src1 i) > toSigned (8 * w) (lane w Src2 i)
        then 2 ^ (8 * w) - 1 else 0) ∧
    (∃ d, Op_VCMPGT Tmp 8 2 dst 0x00007FFF80000001 0 = some d ∧
      lane 2 d 0 = 0xFFFF ∧ lane 2 d 1 = 0x0000 ∧ lane 2 d 2 = 0xFFFF ∧ lane 2 d 3 = 0x0000) := by
  have key : ∀ (n s j : Nat) (x y : Slot), 8 * s ≤ 64 → j < n / s →
      lane s (storeLow n dst (DO_VECTOR_OP s VCMPGT_Func (n / s) Tmp x y)) j
        = if toSigned (8 * s) (lane s x j) > toSigned (8 * s) (lane s y j)
          then 2 ^ (8 * s) - 1 else 0 := by
    intro n s j x y hs hj
    rw [lane_storeLow _ _ _ _ _ (lane_index_le hj), lane_DO_VECTOR_OP _ _ _ _ _ _ _ hj]
    unfold VCMPGT_Func
    split
    · exact ones64_mod _ hs
    · rfl
  refine ⟨?_, ⟨_, rfl, ?_, ?_, ?_, ?_⟩⟩
  · rcases hw with rfl | rfl | rfl | rfl
    · exact ⟨_, rfl, key OpSize 1 i _ _ (by norm_num) hi⟩
    · exact ⟨_, rfl, key OpSize 2 i _ _ (by norm_num) hi⟩
    · exact ⟨_, rfl, key OpSize 4 i _ _ (by norm_num) hi⟩
    · exact ⟨_, rfl, key OpSize 8 i _ _ (by norm_num) hi⟩
  · rw [key 8 2 0 _ _ (by norm_num) (by norm_num)]; decide
  · rw [key 8 2 1 _ _ (by norm_num) (by norm_num)]; decide
  · rw [key 8 2 2 _ _ (by norm_num) (by norm_num)]; decide
  · rw [key 8 2 3 _ _ (by norm_num) (by norm_num)]; decide

/-- Witness for C22: lane 1 of the scenario of the specification. -/
theorem C22_vcmpgt_mask_witness :
    ((2 : Nat) = 1 ∨ (2 : Nat) = 2 ∨ (2 : Nat) = 4 ∨ (2 : Nat) = 8) ∧ 8 ≤ 16 ∧ 1 < 8 / 2 ∧
    (∃ d, Op_VCMPGT 0 8 2 0 0x00007FFF80000001 0 = some d ∧
      lane 2 d 1 = if toSigned (8 * 2) (lane 2 0x00007FFF80000001 1)
          > toSigned (8 * 2) (lane 2 0 1)
        then 2 ^ (8 * 2) - 1 else 0) ∧
    (∃ d, Op_VCMPGT 0 8 2 0 0x00007FFF80000001 0 = some d ∧
      lane 2 d 0 = 0xFFFF ∧ lane 2 d 1 = 0x0000 ∧ lane 2 d 2 = 0xFFFF ∧ lane 2 d 3 = 0x0000) :=
  ⟨by decide, by decide, by decide,
    C22_vcmpgt_mask 0 8 2 0 0x00007FFF80000001 0 1 (by decide) (by decide) (by decide)⟩

/-- C23: for `OpSize` in 8, 16, every element width in 1, 2, 4, 8 and every
vector `a`, VCMPEQ of `a` with itself returns a slot whose low `OpSize` bytes
are all `0xFF`. -/
theorem C23_vcmpeq_self (Tmp : Slot) (OpSize w : Nat) (dst a : Slot)
    (hOp : OpSize = 8 ∨ OpSize = 16) (hw : w = 1 ∨ w = 2 ∨ w = 4 ∨ w = 8) :
    ∃ d, Op_VCMPEQ Tmp OpSize w dst a a = some d ∧
      GetSrc OpSize d = 2 ^ (8 * OpSize) - 1 ∧ ∀ i, i < OpSize → byteAt d i = 0xFF := by
  have key : ∀ (n s : Nat), 0 < s → 8 * s ≤ 64 → s * (n / s) = n →
      GetSrc n (storeLow n dst (DO_VECTOR_OP s VCMPEQ_Func (n / s) Tmp a a))
        = 2 ^ (8 * n) - 1 := by
    intro n s hs hs64 hdiv
    have h := GetSrc_of_lanes_ones s (n / s)
      (storeLow n dst (DO_VECTOR_OP s VCMPEQ_Func (n / s) Tmp a a)) hs (fun j hj => by
        rw [lane_storeLow _ _ _ _ _ (lane_index_le hj), lane_DO_VECTOR_OP _ _ _ _ _ _ _ hj]
        unfold VCMPEQ_Func
        rw [if_pos rfl]
        exact ones64_mod _ hs64)
    rw [hdiv] at h
    exact h
  have fin : ∀ (n : Nat) (d : Slot), GetSrc n d = 2 ^ (8 * n) - 1 →
      GetSrc n d = 2 ^ (8 * n) - 1 ∧ ∀ i, i < n → byteAt d i = 0xFF :=
    fun n d h => ⟨h, fun i hi => byteAt_of_GetSrc_ones n d i h hi⟩
  rcases hOp with rfl | rfl <;> rcases hw with rfl | rfl | rfl | rfl
  · exact ⟨_, rfl, fin 8 _ (key 8 1 (by norm_num) (by norm_num) (by norm_num))⟩
  · exact ⟨_, rfl, fin 8 _ (key 8 2 (by norm_num) (by norm_num) (by norm_num))⟩
  · exact ⟨_, rfl, fin 8 _ (key 8 4 (by norm_num) (by norm_num) (by norm_num))⟩
  · exact ⟨_, rfl, fin 8 _ (key 8 8 (by norm_num) (by norm_num) (by norm_num))⟩
  · exact ⟨_, rfl, fin 16 _ (key 16 1 (by norm_num) (by norm_num) (by norm_num))⟩
  · exact ⟨_, rfl, fin 16 _ (key 16 2 (by norm_num) (by norm_num) (by norm_num))⟩
  · exact ⟨_, rfl, fin 16 _ (key 16 4 (by norm_num) (by norm_num) (by norm_num))⟩
  · exact ⟨_, rfl, fin 16 _ (key 16 8 (by norm_num) (by norm_num) (by norm_num))⟩

/-- Witness for C23: sixteen bytes in lanes of four bytes. -/
theorem C23_vcmpeq_self_witness :
    ((16 : Nat) = 8 ∨ (16 : Nat) = 16) ∧
    ((4 : Nat) = 1 ∨ (4 : Nat) = 2 ∨ (4 : Nat) = 4 ∨ (4 : Nat) = 8) ∧
    ∃ d, Op_VCMPEQ 0 16 4 0 0x1234 0x1234 = some d ∧
      GetSrc 16 d = 2 ^ (8 * 16) - 1 ∧ ∀ i, i < 16 → byteAt d i = 0xFF :=
  ⟨by decide, by decide, C23_vcmpeq_self 0 16 4 0 0x1234 (by decide) (by decide)⟩

/-- C24 (counterexample): with the immediate `0xFF` at element width 2, VectorImm
writes the lane `0x00FF`, while `0xFF` sign-extended from 8 to 16 bits is
`0xFFFF`. -/
theorem C24_vectorimm_counterexample :
    (Op_VectorImm 0 8 2 0xFF 0).map (fun d => lane 2 d 0) = some 0x00FF ∧
    toUnsigned 16 (toSigned 8 0xFF) = 0xFFFF ∧
    (Op_VectorImm 0 8 2 0xFF 0).map (fun d => lane 2 d 0)
      ≠ some (toUnsigned 16 (toSigned 8 0xFF)) := by
  decide

/-- C24 (amended): for every element width `w` in 1, 2, 4, 8 bytes, every operand
size up to 16, every immediate and every lane `i` below `OpSize / w`, VectorImm
returns a slot whose lane `i` is the 8-bit immediate zero-extended to `8w`
bits. -/
theorem C24_vectorimm_zero_extends (Tmp : Slot) (OpSize w Immediate : Nat) (dst : Slot)
    (i : Nat) (hw : w = 1 ∨ w = 2 ∨ w = 4 ∨ w = 8) (_hOp : OpSize ≤ 16)
    (hi : i < OpSize / w) :
    ∃ d, Op_VectorImm Tmp OpSize w Immediate dst = some d ∧ lane w d i = Immediate % 2 ^ 8 := by
  have key : ∀ s : Nat, 1 ≤ s → i < OpSize / s →
      lane s (storeLow OpSize dst
        (DO_VECTOR_0SRC_OP s (fun _ => Immediate % 2 ^ 8) (OpSize / s) Tmp)) i
        = Immediate % 2 ^ 8 := by
    intro s hs hj
    rw [lane_storeLow _ _ _ _ _ (lane_index_le hj), lane_DO_VECTOR_0SRC_OP _ _ _ _ _ hj]
    exact Nat.mod_eq_of_lt (lt_of_lt_of_le (Nat.mod_lt _ (by norm_num))
      (Nat.pow_le_pow_right (by norm_num) (by omega)))
  rcases hw with rfl | rfl | rfl | rfl
  · exact ⟨_, rfl, key 1 (by norm_num) hi⟩
  · exact ⟨_, rfl, key 2 (by norm_num) hi⟩
  · exact ⟨_, rfl, key 4 (by norm_num) hi⟩
  · exact ⟨_, rfl, key 8 (by norm_num) hi⟩

/-- Witness for C24 (amended): the immediate `0xFF` in lane 3 at width 2. -/
theorem C24_vectorimm_zero_extends_witness :
    ((2 : Nat) = 1 ∨ (2 : Nat) = 2 ∨ (2 : Nat) = 4 ∨ (2 : Nat) = 8) ∧ 8 ≤ 16 ∧ 3 < 8 / 2 ∧
    ∃ d, Op_VectorImm 0 8 2 0xFF 0 = some d ∧ lane 2 d 3 = 0xFF % 2 ^ 8 :=
  ⟨by decide, by decide, by decide,
    C24_vectorimm_zero_extends 0 8 2 0xFF 0 3 (by decide) (by decide) (by decide)⟩

/-- C25 (counterexample): with `OpSize = 8`, a destination slot of sixteen `0xFF`
bytes and a zero source, byte 8 of the destination slot after VMov is `0xFF`,
not zero. -/
theorem C25_vmov_counterexample :
    (Op_VMov 8 (2 ^ 128 - 1) 0).map (fun d => byteAt d 8) = some 0xFF ∧
    (Op_VMov 8 (2 ^ 128 - 1) 0).map (fun d => byteAt d 8) ≠ some 0 := by
  decide

/-- C25 (amended): for every `OpSize < 16` and every prior content of the
destination slot, VMov returns a slot whose low `OpSize` bytes are the low
`OpSize` bytes of the source and whose remaining bytes keep the content the
destination slot held before. -/
theorem C25_vmov_frame (OpSize : Nat) (dst Src : Slot) (hOp : OpSize < 16) :
    ∃ d, Op_VMov OpSize dst Src = some d ∧ GetSrc OpSize d = GetSrc OpSize Src ∧
      ∀ i, OpSize ≤ i → byteAt d i = byteAt dst i := by
  refine ⟨_, rfl, ?_, fun i hi => byteAt_storeLow_above _ _ _ _ hi⟩
  rw [GetSrc_storeLow]
  exact GetSrc_GetSrc_of_le (by omega) Src

/-- Witness for C25 (amended): eight bytes moved into a slot of `0xFF` bytes. -/
theorem C25_vmov_frame_witness :
    8 < 16 ∧
    ∃ d, Op_VMov 8 (2 ^ 128 - 1) 0x1234 = some d ∧ GetSrc 8 d = GetSrc 8 0x1234 ∧
      ∀ i, 8 ≤ i → byteAt d i = byteAt (2 ^ 128 - 1) i :=
  ⟨by decide, C25_vmov_frame 8 (2 ^ 128 - 1) 0x1234 (by decide)⟩

/-- C27: for all sources `mask`, `a`, `b` read on 128 bits, VBSL returns a slot
whose sixteen bytes are `(a & mask) | (b & ~mask)`: each of the 128 result
bits is the bit of `a` where the mask bit is 1 and the bit of `b` where it is
0. -/
theorem C27_vbsl_selects (dst mask a b : Slot) :
    ∃ d, Op_VBSL dst mask a b = some d ∧
      GetSrc 16 d = (GetSrc 16 a &&& GetSrc 16 mask)
        ||| (GetSrc 16 b &&& bitNot 128 (GetSrc 16 mask)) ∧
      ∀ i, (GetSrc 16 d).testBit i
        = (decide (i < 128) &&
            (if (GetSrc 16 mask).testBit i then (GetSrc 16 a).testBit i
              else (GetSrc 16 b).testBit i)) := by
  have hA : GetSrc 16 a < 2 ^ 128 := GetSrc_lt 16 a
  have hval : GetSrc 16 (storeLow 16 dst ((GetSrc 16 a &&& GetSrc 16 mask)
        ||| (GetSrc 16 b &&& bitNot 128 (GetSrc 16 mask))))
      = (GetSrc 16 a &&& GetSrc 16 mask)
        ||| (GetSrc 16 b &&& bitNot 128 (GetSrc 16 mask)) := by
    rw [GetSrc_storeLow]
    exact Nat.mod_eq_of_lt (Nat.or_lt_two_pow (lt_of_le_of_lt Nat.and_le_left hA)
      (lt_of_le_of_lt Nat.and_le_right (by unfold bitNot; omega)))
  refine ⟨_, rfl, hval, fun i => ?_⟩
  rw [hval, Nat.testBit_or, Nat.testBit_and, Nat.testBit_and, testBit_bitNot,
    Nat.mod_eq_of_lt (GetSrc_lt 16 mask)]
  by_cases hi : i < 128
  · by_cases hm : (GetSrc 16 mask).testBit i = true
    · simp [hi, hm]
    · simp [hi, hm]
  · simp [hi, testBit_eq_false_of_lt hA (not_lt.mp hi)]


/-! ## VExtr, VShlI, VUShrNI2 -/

theorem lane_foldl_setLane_off (size E : Nat) (f : Nat → Nat) (n : Nat) (T0 : Slot) (i : Nat) :
    lane size ((List.range n).foldl (fun T j => setLane size T (j + E) (f j)) T0) i
      = if E ≤ i ∧ i < E + n then f (i - E) % 2 ^ (8 * size) else lane size T0 i := by
  induction n with
  | zero =>
    rw [List.range_zero, List.foldl_nil, if_neg (by omega)]
  | succ m ih =>
    rw [List.range_succ, List.foldl_append]
    simp only [List.foldl_cons, List.foldl_nil]
    by_cases h : i = m + E
    · subst h
      rw [lane_setLane_same, if_pos (by omega), Nat.add_sub_cancel]
    · rw [lane_setLane_ne _ _ _ _ _ h, ih]
      by_cases h2 : E ≤ i ∧ i < E + m
      · rw [if_pos h2, if_pos (by omega)]
      · rw [if_neg h2, if_neg (by omega)]

theorem GetSrc_eq_of_lanes (w n u v : Nat) (hw : 0 < w)
    (h : ∀ i, i < n → lane w u i = lane w v i) :
    GetSrc (w * n) u = GetSrc (w * n) v := by
  unfold GetSrc
  refine Nat.eq_of_testBit_eq fun k => ?_
  rw [Nat.testBit_mod_two_pow, Nat.testBit_mod_two_pow]
  by_cases hk : k < 8 * (w * n)
  · have hi : k / (8 * w) < n := by
      rw [Nat.div_lt_iff_lt_mul (by omega)]
      have : 8 * (w * n) = n * (8 * w) := by ring
      omega
    rw [testBit_eq_lane w u k hw, testBit_eq_lane w v k hw, h _ hi]
  · simp [hk]

theorem shr_shl_low (x k m W : Nat) (hk : k + m ≤ W) :
    (((x <<< k) % 2 ^ W) >>> k) % 2 ^ m = x % 2 ^ m := by
  refine Nat.eq_of_testBit_eq fun j => ?_
  rw [Nat.testBit_mod_two_pow, Nat.testBit_mod_two_pow, Nat.testBit_shiftRight,
    Nat.testBit_mod_two_pow, Nat.testBit_shiftLeft]
  by_cases hj : j < m
  · have h1 : k + j < W := by omega
    have h2 : k + j ≥ k := by omega
    simp [hj, h1, Nat.add_sub_cancel_left]
  · simp [hj]

/-- The upper lanes written by the narrowing macro after a widening-lane left
shift by the same count: narrow lane `i + Elements` is the low half of wide lane
`i` of the shifted vector. -/
theorem lane_narrow_of_shl (N E k : Nat) (Tmp1 Tmp2 dst1 source1 v : Slot) (i : Nat)
    (hN : 0 < N) (hE : E * (2 * N) ≤ 16) (hk : k < 8 * N) (hi : i < E) :
    lane N (DO_VECTOR_1SRC_2TYPE_OP_TOP N (VUShrNI2_Func k) E Tmp2 source1
        (storeLow 16 dst1 (DO_VECTOR_1SRC_OP (2 * N) (VShlI_Func k) E Tmp1 v))) (i + E)
      = lane (2 * N) v i % 2 ^ (8 * N) := by
  unfold DO_VECTOR_1SRC_2TYPE_OP_TOP
  rw [lane_foldl_setLane_off N E
    (fun j => VUShrNI2_Func k (8 * (2 * N))
      (lane (2 * N) (storeLow 16 dst1 (DO_VECTOR_1SRC_OP (2 * N) (VShlI_Func k) E Tmp1 v)) j)),
    if_pos (by omega), Nat.add_sub_cancel]
  have hle : (i + 1) * (2 * N) ≤ 16 :=
    le_trans (Nat.mul_le_mul_right _ (by omega)) hE
  rw [lane_storeLow _ _ _ _ _ hle, lane_DO_VECTOR_1SRC_OP _ _ _ _ _ _ hi]
  unfold VUShrNI2_Func VShlI_Func
  have h1 : ¬ k ≥ 8 * (2 * N) := by omega
  simp only [if_neg h1]
  have hp : 8 * (2 * N) ≤ (if 8 * (2 * N) < 32 then 32 else 8 * (2 * N)) := by
    split <;> omega
  rw [Nat.mod_mod_of_dvd _ (pow_dvd_pow 2 hp)]
  exact shr_shl_low _ k (8 * N) (8 * (2 * N)) (by omega)

/-- The lower lanes written by the narrowing macro are those of source 1. -/
theorem lane_narrow_low (N E : Nat) (Func : Nat → Nat → Nat) (Tmp source1 Src2 : Slot) (i : Nat)
    (hi : i < E) :
    lane N (DO_VECTOR_1SRC_2TYPE_OP_TOP N Func E Tmp source1 Src2) i = lane N source1 i := by
  unfold DO_VECTOR_1SRC_2TYPE_OP_TOP
  rw [lane_foldl_setLane_off N E
    (fun j => Func (8 * (2 * N)) (lane (2 * N) Src2 j)), if_neg (by omega)]
  refine lane_storeLow _ _ _ _ _ ?_
  rw [Nat.mul_comm N E]
  exact Nat.mul_le_mul_right _ (by omega)

theorem VUShrNI2_VShlI_core (N E k : Nat) (Tmp1 Tmp2 dst1 dst2 source1 v : Slot)
    (hN : 0 < N) (hE : E * (2 * N) = 16) (hk : k < 8 * N) :
    (∀ i, i < E →
      lane N (storeLow 16 dst2 (DO_VECTOR_1SRC_2TYPE_OP_TOP N (VUShrNI2_Func k) E Tmp2 source1
        (storeLow 16 dst1 (DO_VECTOR_1SRC_OP (2 * N) (VShlI_Func k) E Tmp1 v)))) (E + i)
        = lane (2 * N) v i % 2 ^ (8 * N)) ∧
    GetSrc (N * E) (storeLow 16 dst2 (DO_VECTOR_1SRC_2TYPE_OP_TOP N (VUShrNI2_Func k) E Tmp2
        source1 (storeLow 16 dst1 (DO_VECTOR_1SRC_OP (2 * N) (VShlI_Func k) E Tmp1 v))))
      = GetSrc (N * E) source1 := by
  have hNE : N * E = 8 := by
    have : E * (2 * N) = 2 * (N * E) := by ring
    omega
  constructor
  · intro i hi
    have hle : (E + i + 1) * N ≤ 16 := by
      have h1 : (E + i + 1) * N ≤ (2 * E) * N := Nat.mul_le_mul_right _ (by omega)
      have h2 : (2 * E) * N = 2 * (N * E) := by ring
      omega
    rw [lane_storeLow _ _ _ _ _ hle, Nat.add_comm E i]
    exact lane_narrow_of_shl N E k Tmp1 Tmp2 dst1 source1 v i hN (le_of_eq hE) hk hi
  · refine GetSrc_eq_of_lanes N E _ _ hN fun i hi => ?_
    have hle : (i + 1) * N ≤ 16 := by
      have h1 : (i + 1) * N ≤ E * N := Nat.mul_le_mul_right _ (by omega)
      have h2 : E * N = N * E := Nat.mul_comm _ _
      omega
    rw [lane_storeLow _ _ _ _ _ hle]
    exact lane_narrow_low N E _ Tmp2 source1 _ i hi

/-- C26 (code defect): `Op_VExtr` reads both sources at 128 bits whatever the
operand size. At `OpSize = 8`, `ElementSize = 1`, `Index = 1` (offset 8 bits),
with source 1 zero and source 2 holding `2^64` (low 8 bytes zero, byte 8 equal
to 1), the 8 bytes written are `0x0100000000000000`, on either hardware
behaviour of the full-width shift, whereas the low 8 bytes of
`(s1 * 2^64 + s2) >> 8` with the sources read at 8 bytes are 0; the result
changes with byte 8 of source 2 although the low 8 bytes of the source are the
same. -/
theorem C26_vextr_reads_upper_source_bytes :
    (Op_VExtr true 8 1 1 0 0 (2 ^ 64)).map (GetSrc 8) = some 0x0100000000000000 ∧
    (Op_VExtr false 8 1 1 0 0 (2 ^ 64)).map (GetSrc 8) = some 0x0100000000000000 ∧
    ((GetSrc 8 0 * 2 ^ (8 * 8) + GetSrc 8 (2 ^ 64)) >>> (1 * 1 * 8)) % 2 ^ (8 * 8) = 0 ∧
    GetSrc 8 (2 ^ 64) = GetSrc 8 0 ∧
    (Op_VExtr false 8 1 1 0 0 0).map (GetSrc 8) = some 0 := by
  decide

/-- C28: at `OpSize = 16` and narrow element size `N` in {1, 2, 4}, for every
shift `k < 8 * N`, `VUShrNI2(source1, VShlI(v, k) at element size 2N, k)`
returns; narrow lane `i` of its upper 8 bytes is the low `N` bytes of wide lane
`i` of `v`, and its lower 8 bytes are those of source 1, whatever the scratch
arrays and the destinations held. -/
theorem C28_vushrni2_vshli_roundtrip (N k : Nat) (Tmp1 Tmp2 dst1 dst2 v source1 : Slot)
    (hN : N = 1 ∨ N = 2 ∨ N = 4) (hk : k < 8 * N) :
    ∃ sh d, Op_VShlI Tmp1 16 (2 * N) k dst1 v = some sh ∧
      Op_VUShrNI2 Tmp2 16 N k dst2 source1 sh = some d ∧
      (∀ i, i < 8 / N → lane N d (8 / N + i) = lane (2 * N) v i % 2 ^ (8 * N)) ∧
      GetSrc 8 d = GetSrc 8 source1 := by
  have hk8 : k % 2 ^ 8 = k := Nat.mod_eq_of_lt (by omega)
  rcases hN with h | h | h <;> subst h
  · have core := VUShrNI2_VShlI_core 1 8 k Tmp1 Tmp2 dst1 dst2 source1 v (by omega) rfl hk
    refine ⟨_, _, rfl, rfl, ?_, ?_⟩
    · simpa only [hk8] using core.1
    · simpa only [hk8] using core.2
  · have core := VUShrNI2_VShlI_core 2 4 k Tmp1 Tmp2 dst1 dst2 source1 v (by omega) rfl hk
    refine ⟨_, _, rfl, rfl, ?_, ?_⟩
    · simpa only [hk8] using core.1
    · simpa only [hk8] using core.2
  · have core := VUShrNI2_VShlI_core 4 2 k Tmp1 Tmp2 dst1 dst2 source1 v (by omega) rfl hk
    refine ⟨_, _, rfl, rfl, ?_, ?_⟩
    · simpa only [hk8] using core.1
    · simpa only [hk8] using core.2

theorem C28_vushrni2_vshli_roundtrip_witness :
    (2 = 1 ∨ 2 = 2 ∨ 2 = 4) ∧ 4 < 8 * 2 ∧
    ∃ sh d, Op_VShlI 0 16 (2 * 2) 4 0 0x1234567890abcdef1122334455667788 = some sh ∧
      Op_VUShrNI2 0 16 2 4 0 0xAAAABBBBCCCCDDDDEEEEFFFF00001111 sh = some d ∧
      (∀ i, i < 8 / 2 →
        lane 2 d (8 / 2 + i) = lane (2 * 2) 0x1234567890abcdef1122334455667788 i % 2 ^ (8 * 2)) ∧
      GetSrc 8 d = GetSrc 8 0xAAAABBBBCCCCDDDDEEEEFFFF00001111 :=
  ⟨by decide, by decide,
    C28_vushrni2_vshli_roundtrip 2 4 0 0 0 0 0x1234567890abcdef1122334455667788
      0xAAAABBBBCCCCDDDDEEEEFFFF00001111 (by decide) (by decide)⟩


/-! ## FCmp and the float compare kernels -/

theorem and_one_shl_ne_zero (x F : Nat) : (x &&& (1 <<< F) ≠ 0) ↔ x.testBit F = true := by
  rw [Nat.one_shiftLeft]
  constructor
  · intro h
    by_contra hb
    apply h
    refine Nat.eq_of_testBit_eq fun j => ?_
    rw [Nat.testBit_and, Nat.testBit_two_pow, Nat.zero_testBit]
    by_cases hj : F = j
    · subst hj; simp [hb]
    · simp [hj]
  · intro h h0
    have : (x &&& 2 ^ F).testBit F = true := by
      rw [Nat.testBit_and, Nat.testBit_two_pow, h]; simp
    rw [h0, Nat.zero_testBit] at this
    exact Bool.noConfusion this

theorem testBit_setFlag (R F i : Nat) :
    (setFlag R F).testBit i = (decide (i < 32) && (R.testBit i || decide (F = i))) := by
  unfold setFlag
  rw [Nat.testBit_mod_two_pow, Nat.testBit_or, Nat.one_shiftLeft, Nat.testBit_two_pow]

theorem flag_step (R F Flags i : Nat) (hF : F < 32) (hR : R < 2 ^ 32) :
    (if Flags.testBit F = true then setFlag R F else R) < 2 ^ 32 ∧
    (if Flags.testBit F = true then setFlag R F else R).testBit i
      = (R.testBit i || (Flags.testBit F && decide (i = F))) := by
  by_cases h : Flags.testBit F = true
  · rw [if_pos h]
    refine ⟨Nat.mod_lt _ (by positivity), ?_⟩
    rw [testBit_setFlag, h]
    by_cases hi : i < 32
    · simp [hi, eq_comm]
    · have h1 : R.testBit i = false :=
        Nat.testBit_lt_two_pow (lt_of_lt_of_le hR (Nat.pow_le_pow_right (by omega) (by omega)))
      have h2 : i ≠ F := by omega
      simp [hi, h1, h2]
  · rw [if_neg h]
    refine ⟨hR, ?_⟩
    simp [h]

/-- With an unordered pair of operands each of the three tests of `Op_FCmp`
reduces to the test of its mask bit. -/
theorem FCmp_flags_unordered (LT UN EQ w Flags a b : Nat)
    (hLT : LT < 32) (hUN : UN < 32) (hEQ : EQ < 32)
    (hU : (isnan w a || isnan w b) = true) (i : Nat) :
    FCmp_flags LT UN EQ w Flags a b < 2 ^ 32 ∧
    (FCmp_flags LT UN EQ w Flags a b).testBit i
      = (Flags.testBit i && decide (i = LT ∨ i = EQ ∨ i = UN)) := by
  unfold FCmp_flags
  simp only [hU, Bool.true_or, if_true, and_one_shl_ne_zero]
  have s1 := flag_step 0 LT Flags i hLT (by norm_num)
  have s2 := flag_step _ UN Flags i hUN s1.1
  have s3 := flag_step _ EQ Flags i hEQ s2.1
  refine ⟨s3.1, ?_⟩
  rw [s3.2, s2.2, s1.2, Nat.zero_testBit]
  by_cases e1 : i = LT <;> by_cases e2 : i = UN <;> by_cases e3 : i = EQ <;> simp_all

theorem lane_zero (w : Nat) (v : Slot) : lane w v 0 = GetSrc w v := by
  unfold lane GetSrc
  simp

/-- The scalar path of the float compare kernels: the low lane is the compare
mask and the bytes above it are those of the destination slot. -/
theorem VFCMP_body_scalar (Func : Nat → Nat → Nat → Nat) (P : Nat → Nat → Nat → Bool)
    (hF : ∀ w a b, Func w a b = if P w a b = true then 2 ^ 64 - 1 else 0)
    (Tmp : Slot) (OpSize : Nat) (dst Src1 Src2 : Slot) (hS : OpSize = 4 ∨ OpSize = 8) :
    ∃ d, VFCMP_body Func Tmp OpSize OpSize dst Src1 Src2 = some d ∧
      GetSrc OpSize d
        = (if P (8 * OpSize) (GetSrc OpSize Src1) (GetSrc OpSize Src2) = true
            then 2 ^ (8 * OpSize) - 1 else 0) ∧
      ∀ i, OpSize ≤ i → byteAt d i = byteAt dst i := by
  have key : ∀ n : Nat, 8 * n ≤ 64 →
      GetSrc n (storeLow n dst (DO_SCALAR_COMPARE_OP n Func Tmp Src1 Src2))
        = (if P (8 * n) (GetSrc n Src1) (GetSrc n Src2) = true then 2 ^ (8 * n) - 1 else 0) := by
    intro n hn
    rw [GetSrc_storeLow]
    unfold DO_SCALAR_COMPARE_OP
    have h0 : ∀ v : Slot, v % 2 ^ (8 * n) = lane n v 0 := fun v => by
      rw [lane_zero]; rfl
    rw [h0, lane_setLane_same, lane_zero, lane_zero, hF]
    split
    · exact ones64_mod _ hn
    · exact Nat.zero_mod _
  rcases hS with h | h <;> subst h
  · exact ⟨_, rfl, key 4 (by norm_num), fun i hi => byteAt_storeLow_above _ _ _ _ hi⟩
  · exact ⟨_, rfl, key 8 (by norm_num), fun i hi => byteAt_storeLow_above _ _ _ _ hi⟩

/-- C29: for FCmp at element width 4 or 8, with flag bit indices below 32, when
at least one operand is a NaN the kernel returns and bit `i` of the result is
set exactly when `i` is one of the LT, EQ, UNORDERED indices and bit `i` of the
requested mask `Flags` is set. -/
theorem C29_fcmp_nan_flags (LT UN EQ ElementSize Flags : Nat) (dst Src1 Src2 : Slot)
    (hLT : LT < 32) (hUN : UN < 32) (hEQ : EQ < 32)
    (hE : ElementSize = 4 ∨ ElementSize = 8)
    (hnan : isnan (8 * ElementSize) (GetSrc ElementSize Src1) = true ∨
      isnan (8 * ElementSize) (GetSrc ElementSize Src2) = true) :
    ∃ d, Op_FCmp LT UN EQ ElementSize Flags dst Src1 Src2 = some d ∧
      ∀ i, (GetSrc 8 d).testBit i
        = (Flags.testBit i && decide (i = LT ∨ i = EQ ∨ i = UN)) := by
  rcases hE with h | h <;> subst h
  · have hU : (isnan 32 (GetSrc 4 Src1) || isnan 32 (GetSrc 4 Src2)) = true := by
      rw [Bool.or_eq_true]; exact hnan
    refine ⟨_, rfl, fun i => ?_⟩
    have s := FCmp_flags_unordered LT UN EQ 32 Flags _ _ hLT hUN hEQ hU i
    rw [GetSrc_GD, Nat.mod_eq_of_lt (lt_trans s.1 (by norm_num))]
    exact s.2
  · have hU : (isnan 64 (GetSrc 8 Src1) || isnan 64 (GetSrc 8 Src2)) = true := by
      rw [Bool.or_eq_true]; exact hnan
    refine ⟨_, rfl, fun i => ?_⟩
    have s := FCmp_flags_unordered LT UN EQ 64 Flags _ _ hLT hUN hEQ hU i
    rw [GetSrc_GD, Nat.mod_eq_of_lt (lt_trans s.1 (by norm_num))]
    exact s.2

/-- Witness for C29: LT, UNORDERED, EQ at bits 1, 2, 0, the mask `0b101`, a
`float` quiet NaN against zero. -/
theorem C29_fcmp_nan_flags_witness :
    1 < 32 ∧ 2 < 32 ∧ 0 < 32 ∧ ((4 : Nat) = 4 ∨ (4 : Nat) = 8) ∧
    (isnan (8 * 4) (GetSrc 4 0x7fc00000) = true ∨ isnan (8 * 4) (GetSrc 4 0) = true) ∧
    ∃ d, Op_FCmp 1 2 0 4 5 0 0x7fc00000 0 = some d ∧
      ∀ i, (GetSrc 8 d).testBit i = (Nat.testBit 5 i && decide (i = 1 ∨ i = 0 ∨ i = 2)) :=
  ⟨by decide, by decide, by decide, by decide, by decide,
    C29_fcmp_nan_flags 1 2 0 4 5 0 0x7fc00000 0 (by decide) (by decide) (by decide)
      (by decide) (by decide)⟩

/-- C30 (counterexample): VFCMPEQ with `OpSize = ElementSize = 4`, a destination
slot of sixteen `0xFF` bytes and two zero sources: byte 4 of the result slot is
`0xFF`, the byte the destination held, while byte 4 of source 1 is 0. -/
theorem C30_scalar_fcmp_counterexample :
    (Op_VFCMPEQ 0 4 4 (2 ^ 128 - 1) 0 0).map (fun d => byteAt d 4) = some 0xFF ∧
    byteAt 0 4 = 0 ∧
    (Op_VFCMPEQ 0 4 4 (2 ^ 128 - 1) 0 0).map (fun d => byteAt d 4) ≠ some (byteAt 0 4) := by
  decide

/-- C30 (amended): each of the seven float compare kernels, paired with its
comparison, invoked with `OpSize` equal to `ElementSize` (4 or 8) returns a slot
whose low lane is all ones when the comparison of the low lanes of the sources
holds and zero otherwise, and whose bytes above the low lane keep the content
the destination slot held before. -/
theorem C30_scalar_fcmp_frame
    (K : Slot → Nat → Nat → Slot → Slot → Slot → Option Slot) (P : Nat → Nat → Nat → Bool)
    (hK : (K, P) ∈
      [(Op_VFCMPEQ, fun w a b => float_eq w a b),
       (Op_VFCMPNEQ, fun w a b => !float_eq w a b),
       (Op_VFCMPLT, fun w a b => float_lt w a b),
       (Op_VFCMPGT, fun w a b => float_lt w b a),
       (Op_VFCMPLE, fun w a b => float_lt w a b || float_eq w a b),
       (Op_VFCMPORD, fun w a b => !isnan w a && !isnan w b),
       (Op_VFCMPUNO, fun w a b => isnan w a || isnan w b)])
    (Tmp : Slot) (OpSize : Nat) (dst Src1 Src2 : Slot) (hS : OpSize = 4 ∨ OpSize = 8) :
    ∃ d, K Tmp OpSize OpSize dst Src1 Src2 = some d ∧
      GetSrc OpSize d
        = (if P (8 * OpSize) (GetSrc OpSize Src1) (GetSrc OpSize Src2) = true
            then 2 ^ (8 * OpSize) - 1 else 0) ∧
      ∀ i, OpSize ≤ i → byteAt d i = byteAt dst i := by
  simp only [List.mem_cons, List.mem_singleton, Prod.mk.injEq, List.not_mem_nil, or_false] at hK
  rcases hK with ⟨rfl, rfl⟩ | ⟨rfl, rfl⟩ | ⟨rfl, rfl⟩ | ⟨rfl, rfl⟩ | ⟨rfl, rfl⟩ | ⟨rfl, rfl⟩ |
    ⟨rfl, rfl⟩
  · exact VFCMP_body_scalar VFCMPEQ_Func _ (fun _ _ _ => rfl) Tmp OpSize dst Src1 Src2 hS
  · exact VFCMP_body_scalar VFCMPNEQ_Func _ (fun _ _ _ => rfl) Tmp OpSize dst Src1 Src2 hS
  · exact VFCMP_body_scalar VFCMPLT_Func _ (fun _ _ _ => rfl) Tmp OpSize dst Src1 Src2 hS
  · exact VFCMP_body_scalar VFCMPGT_Func _ (fun _ _ _ => rfl) Tmp OpSize dst Src1 Src2 hS
  · exact VFCMP_body_scalar VFCMPLE_Func _ (fun _ _ _ => rfl) Tmp OpSize dst Src1 Src2 hS
  · exact VFCMP_body_scalar VFCMPORD_Func _ (fun _ _ _ => rfl) Tmp OpSize dst Src1 Src2 hS
  · exact VFCMP_body_scalar VFCMPUNO_Func _ (fun _ _ _ => rfl) Tmp OpSize dst Src1 Src2 hS

/-- Witness for C30 (amended): VFCMPUNO at `OpSize = ElementSize = 4`, a `float`
quiet NaN against zero, the destination slot holding sixteen `0xFF` bytes. -/
theorem C30_scalar_fcmp_frame_witness :
    ((4 : Nat) = 4 ∨ (4 : Nat) = 8) ∧
    ∃ d, Op_VFCMPUNO 0 4 4 (2 ^ 128 - 1) 0x7fc00000 0 = some d ∧
      GetSrc 4 d
        = (if (isnan (8 * 4) (GetSrc 4 0x7fc00000) || isnan (8 * 4) (GetSrc 4 0)) = true
            then 2 ^ (8 * 4) - 1 else 0) ∧
      ∀ i, 4 ≤ i → byteAt d i = byteAt (2 ^ 128 - 1) i :=
  ⟨by decide,
    C30_scalar_fcmp_frame Op_VFCMPUNO (fun w a b => isnan w a || isnan w b) (by simp)
      0 4 (2 ^ 128 - 1) 0x7fc00000 0 (by decide)⟩


/-! ## VExtr at the full operand size -/

/-- At `OpSize = 16` with a bit offset strictly between 0 and 256, the 16 bytes
written by `Op_VExtr` are the low 16 bytes of the 32-byte concatenation
(source 1 high, source 2 low) shifted right by the offset. -/
theorem VExtr_size16_value (wrapCount : Bool) (ElementSize Index : Nat) (dst Src1 Src2 : Slot)
    (h0 : 0 < Index * ElementSize * 8) (h1 : Index * ElementSize * 8 < 256) :
    ∃ d, Op_VExtr wrapCount 16 ElementSize Index dst Src1 Src2 = some d ∧
      GetSrc 16 d
        = ((GetSrc 16 Src1 * 2 ^ 128 + GetSrc 16 Src2) >>> (Index * ElementSize * 8)) % 2 ^ 128 := by
  refine ⟨_, rfl, ?_⟩
  rw [GetSrc_storeLow]
  generalize Index * ElementSize * 8 = Offset at h0 h1
  have hS2 : GetSrc 16 Src2 < 2 ^ 128 := GetSrc_lt 16 Src2
  generalize GetSrc 16 Src1 = S1
  generalize GetSrc 16 Src2 = S2 at hS2
  refine Nat.eq_of_testBit_eq fun j => ?_
  rw [Nat.testBit_mod_two_pow, Nat.testBit_mod_two_pow, Nat.testBit_shiftRight,
    Nat.mul_comm S1, Nat.testBit_mul_pow_two_add _ hS2]
  by_cases hj : j < 128
  · by_cases hO : Offset ≥ 16 * 8
    · rw [if_pos hO, Nat.testBit_shiftRight, if_neg (by omega)]
      have e : Offset - 16 * 8 + j = Offset + j - 128 := by omega
      simp [hj, e]
    · rw [if_neg hO]
      have hn : 16 * 8 - Offset < 128 := by omega
      unfold shlU
      rw [if_pos hn, Nat.testBit_or, Nat.testBit_mod_two_pow, Nat.testBit_shiftLeft,
        Nat.testBit_shiftRight]
      by_cases hlow : Offset + j < 128
      · rw [if_pos hlow]
        have : ¬ j ≥ 16 * 8 - Offset := by omega
        simp [this]
      · rw [if_neg hlow]
        have h2 : S2.testBit (Offset + j) = false :=
          testBit_eq_false_of_lt hS2 (by omega)
        have h3 : j ≥ 16 * 8 - Offset := by omega
        have e : j - (16 * 8 - Offset) = Offset + j - 128 := by omega
        simp [hj, h2, h3, e]
  · simp [hj]

/-- At `OpSize = 16` and offset 0 the left shift of `Op_VExtr` is by the full
128 bits: a shifter that takes the count modulo the width gives the bitwise OR
of the two sources, one that shifts every bit out gives source 2. -/
theorem VExtr_size16_offset0 :
    (Op_VExtr true 16 1 0 0 0x11 0x22).map (GetSrc 16) = some 0x33 ∧
    (Op_VExtr false 16 1 0 0 0x11 0x22).map (GetSrc 16) = some 0x22 := by
  decide


/-! ## Guest context layouts -/

/-- C31 (counterexample): in `x86::_libc_fpstate` the running sum of the declared
member sizes puts `mxcsr` at offset 136 and `_xmm` at offset 272, not at 152 and
288: the eight `_libc_fpreg` of `_st` take 10 bytes each. -/
theorem C31_x86_fpstate_counterexample :
    offsetof x86._libc_fpstate .mxcsr = some 136 ∧
    offsetof x86._libc_fpstate .mxcsr ≠ some 152 ∧
    offsetof x86._libc_fpstate ._xmm = some 272 ∧
    offsetof x86._libc_fpstate ._xmm ≠ some 288 ∧
    sizeof x86._libc_fpreg = 10 := by
  decide

/-- C31 (amended): in the packed `x86::_libc_fpstate`, with offsets computed as
the running sum of the declared member sizes, `fcw` is at offset 0, `fsw` at 4,
`mxcsr` at 136 and `_xmm` at 272, and the total size is 624 bytes. -/
theorem C31_x86_fpstate_layout :
    offsetof x86._libc_fpstate .fcw = some 0 ∧
    offsetof x86._libc_fpstate .fsw = some 4 ∧
    offsetof x86._libc_fpstate .mxcsr = some 136 ∧
    offsetof x86._libc_fpstate ._xmm = some 272 ∧
    memberSize x86._libc_fpstate ._xmm = some (16 * 8) ∧
    sizeof x86._libc_fpstate = 624 := by
  decide

/-- C32: with host pointers of 8 bytes and packed layout, the 64-bit guest
structs have the sizes and offsets of the table: `stack_t` 24 bytes, the FXSAVE
state 512, `mcontext_t` 256, `sigset_t` 128, `ucontext_t` 424; the 23
enumerators of `x86_64::ContextRegs` take the values 0 to 22 in declaration
order, each value once, `gregs` has 23 elements and `FEX_REG_CR2` is 22. -/
theorem C32_x86_64_layouts :
    (sizeof (x86_64.stack_t 8) = 24 ∧
      offsetof (x86_64.stack_t 8) .ss_sp = some 0 ∧
      offsetof (x86_64.stack_t 8) .ss_flags = some 8 ∧
      offsetof (x86_64.stack_t 8) .ss_size = some 16) ∧
    (sizeof x86_64._libc_fpstate = 512 ∧
      offsetof x86_64._libc_fpstate .fcw = some 0 ∧
      offsetof x86_64._libc_fpstate .fsw = some 2 ∧
      offsetof x86_64._libc_fpstate .ftw = some 4 ∧
      offsetof x86_64._libc_fpstate .mxcsr = some 24 ∧
      offsetof x86_64._libc_fpstate ._st = some 32 ∧
      offsetof x86_64._libc_fpstate ._xmm = some 160) ∧
    (sizeof (x86_64.mcontext_t 8) = 256 ∧
      offsetof (x86_64.mcontext_t 8) .gregs = some 0 ∧
      memberSize (x86_64.mcontext_t 8) .gregs = some (8 * 23) ∧
      offsetof (x86_64.mcontext_t 8) .fpregs = some 184) ∧
    sizeof x86_64.sigset_t = 128 ∧
    (sizeof (x86_64.ucontext_t 8) = 424 ∧
      offsetof (x86_64.ucontext_t 8) .uc_flags = some 0 ∧
      offsetof (x86_64.ucontext_t 8) .uc_link = some 8 ∧
      offsetof (x86_64.ucontext_t 8) .uc_stack = some 16 ∧
      offsetof (x86_64.ucontext_t 8) .uc_mcontext = some 40 ∧
      offsetof (x86_64.ucontext_t 8) .uc_sigmask = some 296) ∧
    (x86_64.ContextRegs.enumerators.map (enumValue x86_64.ContextRegs.enumerators)
        = List.range 23 ∧
      (∀ r : x86_64.ContextRegs, enumValue x86_64.ContextRegs.enumerators r < 23) ∧
      (∀ r s : x86_64.ContextRegs,
        enumValue x86_64.ContextRegs.enumerators r = enumValue x86_64.ContextRegs.enumerators s →
          r = s) ∧
      (∀ i, i < 23 → ∃ r : x86_64.ContextRegs,
        enumValue x86_64.ContextRegs.enumerators r = i) ∧
      enumValue x86_64.ContextRegs.enumerators .FEX_REG_CR2 = 22) := by
  refine ⟨by decide, by decide, by decide, by decide, by decide, by decide, by decide, ?_,
    by decide, by decide⟩
  intro r s h
  have key : ∀ t : x86_64.ContextRegs,
      x86_64.ContextRegs.enumerators[enumValue x86_64.ContextRegs.enumerators t]? = some t := by
    intro t; cases t <;> rfl
  have hr := key r
  rw [h, key s] at hr
  exact (Option.some.inj hr).symm

/-- C33: with packed layout, the 32-bit guest structs have the sizes and offsets
of the table: `stack_t` 12 bytes, `mcontext_t` 88, `ucontext_t` 236,
`siginfo_t` 128 with the union of 29 words at offset 12; the 19 enumerators of
`x86::ContextRegs` take the values 0 to 18 in declaration order, each value
once, `gregs` has 19 elements and `FEX_REG_SS` is 18. -/
theorem C33_x86_layouts :
    (sizeof x86.stack_t = 12 ∧
      offsetof x86.stack_t .ss_sp = some 0 ∧
      offsetof x86.stack_t .ss_flags = some 4 ∧
      offsetof x86.stack_t .ss_size = some 8) ∧
    (sizeof x86.mcontext_t = 88 ∧
      offsetof x86.mcontext_t .gregs = some 0 ∧
      memberSize x86.mcontext_t .gregs = some (4 * 19) ∧
      offsetof x86.mcontext_t .fpregs = some 76 ∧
      offsetof x86.mcontext_t .oldmask = some 80 ∧
      offsetof x86.mcontext_t .cr2 = some 84) ∧
    (sizeof x86.ucontext_t = 236 ∧
      offsetof x86.ucontext_t .uc_flags = some 0 ∧
      offsetof x86.ucontext_t .uc_link = some 4 ∧
      offsetof x86.ucontext_t .uc_stack = some 8 ∧
      offsetof x86.ucontext_t .uc_mcontext = some 20 ∧
      offsetof x86.ucontext_t .uc_sigmask = some 108) ∧
    (sizeof x86.siginfo_t.layout = 128 ∧
      offsetof x86.siginfo_t.layout .si_signo = some 0 ∧
      offsetof x86.siginfo_t.layout .si_errno = some 4 ∧
      offsetof x86.siginfo_t.layout .si_code = some 8 ∧
      offsetof x86.siginfo_t.layout ._sifields = some 12 ∧
      x86.siginfo_t._sifields = 4 * 29) ∧
    (x86.ContextRegs.enumerators.map (enumValue x86.ContextRegs.enumerators) = List.range 19 ∧
      (∀ r : x86.ContextRegs, enumValue x86.ContextRegs.enumerators r < 19) ∧
      (∀ r s : x86.ContextRegs,
        enumValue x86.ContextRegs.enumerators r = enumValue x86.ContextRegs.enumerators s →
          r = s) ∧
      (∀ i, i < 19 → ∃ r : x86.ContextRegs, enumValue x86.ContextRegs.enumerators r = i) ∧
      enumValue x86.ContextRegs.enumerators .FEX_REG_SS = 18) := by
  refine ⟨by decide, by decide, by decide, by decide, by decide, by decide, ?_,
    by decide, by decide⟩
  intro r s h
  have key : ∀ t : x86.ContextRegs,
      x86.ContextRegs.enumerators[enumValue x86.ContextRegs.enumerators t]? = some t := by
    intro t; cases t <;> rfl
  have hr := key r
  rw [h, key s] at hr
  exact (Option.some.inj hr).symm


/-! ## Conversions of the 32-bit guest `siginfo_t` -/

theorem memcpy_words_pad (dst src : List Nat) (h : 28 ≤ src.length) :
    (memcpy_words dst src (min (uint32_t * 28) (uint32_t * 29))).take 28 = src.take 28 := by
  have e : min (uint32_t * 28) (uint32_t * 29) / uint32_t = 28 := by decide
  unfold memcpy_words
  rw [e, List.take_append_of_le_length (by rw [List.length_take]; omega), List.take_take]
  simp

theorem take_set_self (l : List Nat) (n a : Nat) : (l.set n a).take n = l.take n := by
  induction l generalizing n with
  | nil => simp
  | cons x xs ih =>
    cases n with
    | zero => simp
    | succ k => simp [ih]

theorem toHost_pad (g : x86.siginfo_t) : (x86.siginfo_t.toHost g)._pad = g.pad.take 28 := by
  have e : min (uint32_t * 28) (uint32_t * 29) / uint32_t = 28 := by decide
  show memcpy_words (List.replicate 28 0) g.pad (min (uint32_t * 28) (uint32_t * 29)) = _
  unfold memcpy_words
  rw [e]
  simp

/-- C34: for every host `siginfo_t` value `h` (three `uint32_t`, the 4-byte pad
and 28 payload words) and every prior content of the guest object, converting
`h` to the 32-bit guest value and back gives a host value with the same
`si_signo`, `si_errno` and `si_code`, the same 28 payload words and a zero
4-byte pad; each conversion copies `min(112, 116) = 112` bytes of payload. -/
theorem C34_siginfo_host_guest_host (self : x86.siginfo_t) (h : x86.HostSigInfo_t)
    (h1 : h.si_signo < 2 ^ 32) (h2 : h.si_errno < 2 ^ 32) (h3 : h.si_code < 2 ^ 32)
    (hp : h._pad.length = 28) :
    (x86.siginfo_t.toHost (x86.siginfo_t.ofHost self h)).si_signo = h.si_signo ∧
    (x86.siginfo_t.toHost (x86.siginfo_t.ofHost self h)).si_errno = h.si_errno ∧
    (x86.siginfo_t.toHost (x86.siginfo_t.ofHost self h)).si_code = h.si_code ∧
    (x86.siginfo_t.toHost (x86.siginfo_t.ofHost self h))._pad = h._pad ∧
    (x86.siginfo_t.toHost (x86.siginfo_t.ofHost self h)).__pad0 = 0 ∧
    min (uint32_t * 28) (uint32_t * 29) = 112 := by
  have conv : ∀ x : Nat, x < 2 ^ 32 → toUnsigned 32 (toSigned 32 x) = x := fun x hx => by
    rw [toUnsigned_toSigned, Nat.mod_eq_of_lt hx]
  refine ⟨conv _ h1, conv _ h2, conv _ h3, ?_, rfl, by decide⟩
  rw [toHost_pad]
  show (memcpy_words self.pad h._pad (min (uint32_t * 28) (uint32_t * 29))).take 28 = _
  rw [memcpy_words_pad _ _ (by omega)]
  exact List.take_of_length_le (by omega)

/-- Witness for C34: a SIGSEGV-like host value with a non-zero pad, converted
into a guest object that held `0xEE` words. -/
theorem C34_siginfo_host_guest_host_witness :
    (11 : Nat) < 2 ^ 32 ∧ (0xFFFFFFFF : Nat) < 2 ^ 32 ∧ (2 : Nat) < 2 ^ 32 ∧
    (List.replicate 28 0xABCD).length = 28 ∧
    (x86.siginfo_t.toHost (x86.siginfo_t.ofHost ⟨7, 7, 7, List.replicate 29 0xEE⟩
      ⟨11, 0xFFFFFFFF, 2, 0xDEAD, List.replicate 28 0xABCD⟩)).si_signo = 11 ∧
    (x86.siginfo_t.toHost (x86.siginfo_t.ofHost ⟨7, 7, 7, List.replicate 29 0xEE⟩
      ⟨11, 0xFFFFFFFF, 2, 0xDEAD, List.replicate 28 0xABCD⟩)).si_errno = 0xFFFFFFFF ∧
    (x86.siginfo_t.toHost (x86.siginfo_t.ofHost ⟨7, 7, 7, List.replicate 29 0xEE⟩
      ⟨11, 0xFFFFFFFF, 2, 0xDEAD, List.replicate 28 0xABCD⟩)).si_code = 2 ∧
    (x86.siginfo_t.toHost (x86.siginfo_t.ofHost ⟨7, 7, 7, List.replicate 29 0xEE⟩
      ⟨11, 0xFFFFFFFF, 2, 0xDEAD, List.replicate 28 0xABCD⟩))._pad
        = List.replicate 28 0xABCD ∧
    (x86.siginfo_t.toHost (x86.siginfo_t.ofHost ⟨7, 7, 7, List.replicate 29 0xEE⟩
      ⟨11, 0xFFFFFFFF, 2, 0xDEAD, List.replicate 28 0xABCD⟩)).__pad0 = 0 ∧
    min (uint32_t * 28) (uint32_t * 29) = 112 :=
  ⟨by decide, by decide, by decide, by decide,
    C34_siginfo_host_guest_host ⟨7, 7, 7, List.replicate 29 0xEE⟩
      ⟨11, 0xFFFFFFFF, 2, 0xDEAD, List.replicate 28 0xABCD⟩
      (by decide) (by decide) (by decide) (by decide)⟩

/-- C40: the conversion of a 32-bit guest `siginfo_t` to the host value does not
read `pad[28]`: replacing that word by any other gives the same host value,
whose trio is the guest trio converted to `uint32_t`, whose pad is zero and
whose 28 payload words are `pad[0..27]`; for a guest value with `int` members
in range and 29 payload words, converting the host value back reproduces the
trio and the payload words 0 to 27. -/
theorem C40_siginfo_guest_host_ignores_last_word (self g : x86.siginfo_t) (w : Nat)
    (h1 : -(2 : Int) ^ 31 ≤ g.si_signo ∧ g.si_signo < 2 ^ 31)
    (h2 : -(2 : Int) ^ 31 ≤ g.si_errno ∧ g.si_errno < 2 ^ 31)
    (h3 : -(2 : Int) ^ 31 ≤ g.si_code ∧ g.si_code < 2 ^ 31)
    (hp : g.pad.length = 29) :
    x86.siginfo_t.toHost ⟨g.si_signo, g.si_errno, g.si_code, g.pad.set 28 w⟩
      = x86.siginfo_t.toHost g ∧
    (x86.siginfo_t.toHost g)._pad = g.pad.take 28 ∧
    (x86.siginfo_t.toHost g).__pad0 = 0 ∧
    (x86.siginfo_t.ofHost self (x86.siginfo_t.toHost g)).si_signo = g.si_signo ∧
    (x86.siginfo_t.ofHost self (x86.siginfo_t.toHost g)).si_errno = g.si_errno ∧
    (x86.siginfo_t.ofHost self (x86.siginfo_t.toHost g)).si_code = g.si_code ∧
    (x86.siginfo_t.ofHost self (x86.siginfo_t.toHost g)).pad.take 28 = g.pad.take 28 := by
  have conv : ∀ z : Int, -(2 : Int) ^ 31 ≤ z ∧ z < 2 ^ 31 →
      toSigned 32 (toUnsigned 32 z) = z :=
    fun z hz => wrapSigned_of_range 32 (by norm_num) z hz.1 hz.2
  refine ⟨?_, toHost_pad g, rfl, conv _ h1, conv _ h2, conv _ h3, ?_⟩
  · have e : min (uint32_t * 28) (uint32_t * 29) / uint32_t = 28 := by decide
    unfold x86.siginfo_t.toHost memcpy_words
    simp only [e]
    rw [take_set_self]
  · show (memcpy_words self.pad (x86.siginfo_t.toHost g)._pad
      (min (uint32_t * 28) (uint32_t * 29))).take 28 = _
    rw [memcpy_words_pad _ _ (by rw [toHost_pad, List.length_take]; omega), toHost_pad,
      List.take_take]
    simp

/-- Witness for C40: a guest value with negative `si_errno` and `si_code`, the
payload words 0 to 28, and `0xFFFF` as the replacement of `pad[28]`. -/
theorem C40_siginfo_guest_host_ignores_last_word_witness :
    (-(2 : Int) ^ 31 ≤ 11 ∧ (11 : Int) < 2 ^ 31) ∧
    (-(2 : Int) ^ 31 ≤ -1 ∧ (-1 : Int) < 2 ^ 31) ∧
    (-(2 : Int) ^ 31 ≤ -6 ∧ (-6 : Int) < 2 ^ 31) ∧
    (List.range 29).length = 29 ∧
    x86.siginfo_t.toHost ⟨11, -1, -6, (List.range 29).set 28 0xFFFF⟩
      = x86.siginfo_t.toHost ⟨11, -1, -6, List.range 29⟩ ∧
    (x86.siginfo_t.toHost ⟨11, -1, -6, List.range 29⟩)._pad = (List.range 29).take 28 ∧
    (x86.siginfo_t.toHost ⟨11, -1, -6, List.range 29⟩).__pad0 = 0 ∧
    (x86.siginfo_t.ofHost ⟨0, 0, 0, List.replicate 29 0xEE⟩
      (x86.siginfo_t.toHost ⟨11, -1, -6, List.range 29⟩)).si_signo = 11 ∧
    (x86.siginfo_t.ofHost ⟨0, 0, 0, List.replicate 29 0xEE⟩
      (x86.siginfo_t.toHost ⟨11, -1, -6, List.range 29⟩)).si_errno = -1 ∧
    (x86.siginfo_t.ofHost ⟨0, 0, 0, List.replicate 29 0xEE⟩
      (x86.siginfo_t.toHost ⟨11, -1, -6, List.range 29⟩)).si_code = -6 ∧
    (x86.siginfo_t.ofHost ⟨0, 0, 0, List.replicate 29 0xEE⟩
      (x86.siginfo_t.toHost ⟨11, -1, -6, List.range 29⟩)).pad.take 28
        = (List.range 29).take 28 :=
  ⟨by decide, by decide, by decide, by decide,
    C40_siginfo_guest_host_ignores_last_word ⟨0, 0, 0, List.replicate 29 0xEE⟩
      ⟨11, -1, -6, List.range 29⟩ 0xFFFF (by decide) (by decide) (by decide) (by decide)⟩


/-! ## Unsupported operand sizes -/

/-- Every scalar integer kernel of `ALUOps.cpp` with a switch on the operand size
(or, for PDep and PExt, a guard) takes its `LOGMAN_MSG_A_FMT` branch for an
operand size that is not one of its case labels, and stores nothing. -/
theorem unsupported_size_fatal (OpSize : Nat) (dst Src1 Src2 Src3 : Slot) :
    (OpSize ≠ 4 → OpSize ≠ 8 →
      Op_Add OpSize dst Src1 Src2 = none ∧ Op_Sub OpSize dst Src1 Src2 = none ∧
      Op_Neg OpSize dst Src1 = none ∧ Op_MulH OpSize dst Src1 Src2 = none ∧
      Op_Lshl OpSize dst Src1 Src2 = none ∧ Op_Lshr OpSize dst Src1 Src2 = none ∧
      Op_Ashr OpSize dst Src1 Src2 = none ∧
      (∀ wrapCount, Op_Ror wrapCount OpSize dst Src1 Src2 = none) ∧
      (∀ LSB, Op_Extr OpSize LSB dst Src1 Src2 = none) ∧
      Op_PDep OpSize dst Src1 Src2 = none ∧ Op_PExt OpSize dst Src1 Src2 = none) ∧
    (OpSize ≠ 4 → OpSize ≠ 8 → OpSize ≠ 16 →
      Op_Mul OpSize dst Src1 Src2 = none ∧ Op_UMul OpSize dst Src1 Src2 = none ∧
      Op_UMulH OpSize dst Src1 Src2 = none) ∧
    (OpSize ≠ 1 → OpSize ≠ 2 → OpSize ≠ 4 → OpSize ≠ 8 → OpSize ≠ 16 →
      Op_Div OpSize dst Src1 Src2 = none ∧ Op_UDiv OpSize dst Src1 Src2 = none ∧
      Op_Rem OpSize dst Src1 Src2 = none ∧ Op_URem OpSize dst Src1 Src2 = none ∧
      Op_Or OpSize dst Src1 Src2 = none) ∧
    (OpSize ≠ 1 → OpSize ≠ 2 → OpSize ≠ 4 → OpSize ≠ 8 →
      Op_And OpSize dst Src1 Src2 = none ∧ Op_Andn OpSize dst Src1 Src2 = none ∧
      Op_Xor OpSize dst Src1 Src2 = none ∧ Op_FindMSB OpSize dst Src1 = none ∧
      Op_FindTrailingZeros OpSize dst Src1 = none ∧
      Op_CountLeadingZeroes OpSize dst Src1 = none) ∧
    (OpSize ≠ 2 → OpSize ≠ 4 → OpSize ≠ 8 →
      Op_LDiv OpSize dst Src1 Src2 Src3 = none ∧ Op_LUDiv OpSize dst Src1 Src2 Src3 = none ∧
      Op_LRem OpSize dst Src1 Src2 Src3 = none ∧ Op_LURem OpSize dst Src1 Src2 Src3 = none ∧
      Op_Rev OpSize dst Src1 = none) := by
  refine ⟨fun h4 h8 => ⟨?_, ?_, ?_, ?_, ?_, ?_, ?_, fun _ => ?_, fun _ => ?_, ?_, ?_⟩,
    fun h4 h8 h16 => ⟨?_, ?_, ?_⟩,
    fun h1 h2 h4 h8 h16 => ⟨?_, ?_, ?_, ?_, ?_⟩,
    fun h1 h2 h4 h8 => ⟨?_, ?_, ?_, ?_, ?_, ?_⟩,
    fun h2 h4 h8 => ⟨?_, ?_, ?_, ?_, ?_⟩⟩
  · unfold Op_Add; split <;> simp_all
  · unfold Op_Sub; split <;> simp_all
  · unfold Op_Neg; split <;> simp_all
  · unfold Op_MulH; split <;> simp_all
  · unfold Op_Lshl; split <;> simp_all
  · unfold Op_Lshr; split <;> simp_all
  · unfold Op_Ashr; split <;> simp_all
  · unfold Op_Ror; split <;> simp_all
  · unfold Op_Extr; split <;> simp_all
  · unfold Op_PDep; rw [if_pos ⟨h4, h8⟩]
  · unfold Op_PExt; rw [if_pos ⟨h4, h8⟩]
  · unfold Op_Mul; split <;> simp_all
  · unfold Op_UMul; split <;> simp_all
  · unfold Op_UMulH; split <;> simp_all
  · unfold Op_Div; split <;> simp_all
  · unfold Op_UDiv; split <;> simp_all
  · unfold Op_Rem; split <;> simp_all
  · unfold Op_URem; split <;> simp_all
  · unfold Op_Or; split <;> simp_all
  · unfold Op_And; split <;> simp_all
  · unfold Op_Andn; split <;> simp_all
  · unfold Op_Xor; split <;> simp_all
  · unfold Op_FindMSB; split <;> simp_all
  · unfold Op_FindTrailingZeros; split <;> simp_all
  · unfold Op_CountLeadingZeroes; split <;> simp_all
  · unfold Op_LDiv; split <;> simp_all
  · unfold Op_LUDiv; split <;> simp_all
  · unfold Op_LRem; split <;> simp_all
  · unfold Op_LURem; split <;> simp_all
  · unfold Op_Rev; split <;> simp_all

/-- C35 (code defect): `Op_Not` has no switch on the operand size: at
`OpSize = 3`, which it does not support, it reads the mask 0 from its table,
returns, and stores eight zero bytes in the destination slot, whatever the
source; with a destination slot of sixteen `0xFF` bytes the slot afterwards
holds zeros in its low eight bytes. -/
theorem C35_not_unsupported_size_writes (dst Src : Slot) :
    ∃ d, Op_Not 3 dst Src = some d ∧ GetSrc 8 d = 0 ∧ Op_Not 3 dst Src ≠ none ∧
      (Op_Not 3 (2 ^ 128 - 1) 0x1122334455667788).map (GetSrc 16)
        = some 0xFFFFFFFFFFFFFFFF0000000000000000 := by
  refine ⟨_, rfl, ?_, by simp [Op_Not], by decide⟩
  rw [GetSrc_GD]
  simp


/-! ## UMulH at sixteen bytes, Mul and UMul -/

theorem umul_high (S1 S2 : Nat) (h1 : S1 < 2 ^ 64) (h2 : S2 < 2 ^ 64) :
    (((S1 * S2) % 2 ^ 128) >>> 64) % 2 ^ 64 = S1 * S2 / 2 ^ 64 := by
  have hlt : S1 * S2 < 2 ^ 128 := by
    calc S1 * S2 < 2 ^ 64 * 2 ^ 64 := Nat.mul_lt_mul'' h1 h2
      _ = 2 ^ 128 := by norm_num
  rw [Nat.mod_eq_of_lt hlt, Nat.shiftRight_eq_div_pow]
  exact Nat.mod_eq_of_lt (Nat.div_lt_of_lt_mul (by linarith))

/-- What `Op_UMulH` computes in its case 16, marked `XXX: This is incorrect` in
the source: the sources are read as `uint64_t` before the switch, so the value
stored in the low eight bytes of the destination is the high 64 bits of the
product of the low eight bytes of the two sources, the body of case 8. -/
theorem UMulH_size16_value (dst Src1 Src2 : Slot) :
    ∃ d, Op_UMulH 16 dst Src1 Src2 = some d ∧
      GetSrc 8 d = GetSrc 8 Src1 * GetSrc 8 Src2 / 2 ^ 64 ∧
      (∀ i, 8 ≤ i → byteAt d i = byteAt dst i) ∧
      Op_UMulH 16 dst Src1 Src2 = Op_UMulH 8 dst Src1 Src2 := by
  refine ⟨_, rfl, ?_, fun i hi => byteAt_storeLow_above _ _ _ _ hi, rfl⟩
  rw [GetSrc_GD]
  exact umul_high _ _ (GetSrc_lt 8 Src1) (GetSrc_lt 8 Src2)

/-- C36 (code defect): at `OpSize = 16` with source 1 holding `2^64` (low eight
bytes zero, byte 8 equal to 1) and source 2 holding 1, UMulH writes 0, the
value it writes for a zero source 1, while the high 64 bits of the low 128 bits
of the product of the two 128-bit source values are 1: bytes 8 to 15 of the
sources are never read. -/
theorem C36_umulh16_reads_low_halves :
    (Op_UMulH 16 0 (2 ^ 64) 1).map (GetSrc 8) = some 0 ∧
    (GetSrc 16 (2 ^ 64) * GetSrc 16 1) % 2 ^ 128 / 2 ^ 64 % 2 ^ 64 = 1 ∧
    (Op_UMulH 16 0 (2 ^ 64) 1).map (GetSrc 8)
      ≠ some ((GetSrc 16 (2 ^ 64) * GetSrc 16 1) % 2 ^ 128 / 2 ^ 64 % 2 ^ 64) ∧
    Op_UMulH 16 0 (2 ^ 64) 1 = Op_UMulH 16 0 0 1 := by
  decide


theorem int_split_128 (P : Int) :
    P % 2 ^ 128 = (P / 2 ^ 64 % 2 ^ 64) * 2 ^ 64 + P % 2 ^ 64 := by
  norm_num
  omega

theorem smul_in_range (a b : Nat) :
    wrapSigned 128 (toSigned 64 a * toSigned 64 b) = toSigned 64 a * toSigned 64 b := by
  have hA := toSigned_bounds 64 (by norm_num) a
  have hB := toSigned_bounds 64 (by norm_num) b
  have hm := mul_bounds (toSigned 64 a) (toSigned 64 b) (2 ^ 63)
    ⟨by norm_num at hA ⊢; omega, by norm_num at hA ⊢; omega⟩
    ⟨by norm_num at hB ⊢; omega, by norm_num at hB ⊢; omega⟩
  refine wrapSigned_of_range 128 (by norm_num) _ ?_ ?_
  · norm_num at hm ⊢; omega
  · norm_num at hm ⊢; omega

/-- C39: for all source slots and destinations, Mul at `OpSize = 16` returns a
slot whose sixteen bytes are MulH at 8 (high eight bytes) over Mul at 8 (low
eight bytes) on the same sources, UMul at 16 likewise is UMulH at 8 over UMul
at 8, and both depend on the low eight bytes of each source only. -/
theorem C39_mul16_is_mulh8_mul8 (dst dstH dstL Src1 Src2 : Slot) :
    (∃ m mh ml, Op_Mul 16 dst Src1 Src2 = some m ∧ Op_MulH 8 dstH Src1 Src2 = some mh ∧
      Op_Mul 8 dstL Src1 Src2 = some ml ∧
      GetSrc 16 m = GetSrc 8 mh * 2 ^ 64 + GetSrc 8 ml) ∧
    (∃ u uh ul, Op_UMul 16 dst Src1 Src2 = some u ∧ Op_UMulH 8 dstH Src1 Src2 = some uh ∧
      Op_UMul 8 dstL Src1 Src2 = some ul ∧
      GetSrc 16 u = GetSrc 8 uh * 2 ^ 64 + GetSrc 8 ul) ∧
    Op_Mul 16 dst Src1 Src2 = Op_Mul 16 dst (GetSrc 8 Src1) (GetSrc 8 Src2) ∧
    Op_UMul 16 dst Src1 Src2 = Op_UMul 16 dst (GetSrc 8 Src1) (GetSrc 8 Src2) := by
  have hgg : ∀ s : Slot, GetSrc 8 (GetSrc 8 s) = GetSrc 8 s :=
    fun s => GetSrc_GetSrc_of_le (le_refl 8) s
  refine ⟨⟨_, _, _, rfl, rfl, rfl, ?_⟩, ⟨_, _, _, rfl, rfl, rfl, ?_⟩, ?_, ?_⟩
  · rw [GetSrc_storeLow, GetSrc_GD, GetSrc_GD]
    simp only [smul_in_range]
    rw [Nat.mod_eq_of_lt (toUnsigned_lt 128 _), Nat.mod_eq_of_lt (toUnsigned_lt 64 _),
      Nat.mod_eq_of_lt (toUnsigned_lt 64 _), toUnsigned_wrapSigned]
    zify
    rw [toUnsigned_cast, toUnsigned_cast, toUnsigned_cast, Int.shiftRight_eq_div_pow]
    exact int_split_128 _
  · rw [GetSrc_storeLow, GetSrc_GD, GetSrc_GD]
    have h1 := GetSrc_lt 8 Src1
    have h2 := GetSrc_lt 8 Src2
    rw [umul_high _ _ h1 h2, Nat.mod_mod, Nat.mod_mod]
    have hlt : GetSrc 8 Src1 * GetSrc 8 Src2 < 2 ^ 128 := by
      calc GetSrc 8 Src1 * GetSrc 8 Src2 < 2 ^ 64 * 2 ^ 64 := Nat.mul_lt_mul'' h1 h2
        _ = 2 ^ 128 := by norm_num
    rw [Nat.mod_eq_of_lt hlt]
    exact (Nat.div_add_mod' _ _).symm
  · unfold Op_Mul
    simp only [hgg]
  · unfold Op_UMul
    simp only [hgg]


/-! ## PDep and PExt: iteration count and round trip -/

theorem exists_nth_set_bit (M : Nat) : ∀ (w i : Nat), i < popcount w M →
    ∃ p, p < w ∧ M.testBit p = true ∧ popcount p M = i := by
  intro w
  induction w with
  | zero =>
    intro i hi
    simp [popcount] at hi
  | succ n ih =>
    intro i hi
    rw [popcount_succ] at hi
    by_cases hlt : i < popcount n M
    · obtain ⟨p, hp, hb, hc⟩ := ih i hlt
      exact ⟨p, by omega, hb, hc⟩
    · by_cases hb : M.testBit n = true
      · rw [if_pos hb] at hi
        exact ⟨n, by omega, hb, by omega⟩
      · rw [if_neg hb] at hi
        omega

/-- C38: for `OpSize` in 4, 8, with `x` and `m` the two sources truncated to
`OpSize` bytes, the PDep loop and the PExt loop started from counter 0 return
within `popcount(m)` iterations with the counter at `popcount(m)`; PDep and
PExt return; PDep(x, m) has no bit set where `m` has none;
PExt(x, m) < 2^popcount(m); and PExt(PDep(x, m), m) = x mod 2^popcount(m). -/
theorem C38_pdep_pext_loops (OpSize : Nat) (dst1 dst2 dst3 Src1 Src2 : Slot)
    (hsize : OpSize = 4 ∨ OpSize = 8) :
    (∃ R, PDep_loop (GetSrc OpSize Src1) (popcount 64 (GetSrc OpSize Src2))
        (GetSrc OpSize Src2) 0 0 = some (popcount 64 (GetSrc OpSize Src2), R)) ∧
    (∃ R, PExt_loop (GetSrc OpSize Src1) (popcount 64 (GetSrc OpSize Src2))
        (GetSrc OpSize Src2) 0 0 = some (popcount 64 (GetSrc OpSize Src2), R)) ∧
    ∃ d e r, Op_PDep OpSize dst1 Src1 Src2 = some d ∧ Op_PExt OpSize dst2 Src1 Src2 = some e ∧
      Op_PExt OpSize dst3 d Src2 = some r ∧
      (∀ p, (GetSrc OpSize Src2).testBit p = false → (GetSrc 8 d).testBit p = false) ∧
      GetSrc 8 e < 2 ^ popcount 64 (GetSrc OpSize Src2) ∧
      GetSrc 8 r = GetSrc OpSize Src1 % 2 ^ popcount 64 (GetSrc OpSize Src2) := by
  have h8 : 8 * OpSize ≤ 64 := by rcases hsize with rfl | rfl <;> norm_num
  have hM : GetSrc OpSize Src2 < 2 ^ 64 :=
    lt_of_lt_of_le (GetSrc_lt OpSize Src2) (Nat.pow_le_pow_right (by norm_num) h8)
  obtain ⟨R1, hR1, -⟩ := PDep_loop_spec (GetSrc OpSize Src1) (popcount 64 (GetSrc OpSize Src2))
    (GetSrc OpSize Src2) 0 0 hM (le_refl _)
  obtain ⟨R2, hR2, -⟩ := PExt_loop_spec (GetSrc OpSize Src1) (popcount 64 (GetSrc OpSize Src2))
    (GetSrc OpSize Src2) 0 0 hM (le_refl _) (by have := popcount_le 64 (GetSrc OpSize Src2); omega)
    (by norm_num)
  rw [Nat.zero_add] at hR1 hR2
  obtain ⟨d, hd, hdb⟩ := PDep_kernel OpSize dst1 Src1 Src2 hsize
  obtain ⟨e, he, -, helt⟩ := PExt_kernel OpSize dst2 Src1 Src2 hsize
  obtain ⟨r, hr, hrb, hrlt⟩ := PExt_kernel OpSize dst3 d Src2 hsize
  refine ⟨⟨R1, hR1⟩, ⟨R2, hR2⟩, d, e, r, hd, he, hr, ?_, helt, ?_⟩
  · intro p hp
    rw [hdb p, hp]
    rfl
  · refine Nat.eq_of_testBit_eq fun i => ?_
    rw [Nat.testBit_mod_two_pow]
    by_cases hi : i < popcount 64 (GetSrc OpSize Src2)
    · obtain ⟨p, hp, hb, hc⟩ := exists_nth_set_bit (GetSrc OpSize Src2) 64 i hi
      have hp' : p < 8 * OpSize := by
        by_contra hge
        rw [testBit_eq_false_of_lt (GetSrc_lt OpSize Src2) (by omega)] at hb
        exact Bool.noConfusion hb
      have hbit := hrb p hb
      rw [hc] at hbit
      have hd1 : (GetSrc OpSize d).testBit p = (GetSrc 8 d).testBit p := by
        unfold GetSrc
        rw [Nat.testBit_mod_two_pow, Nat.testBit_mod_two_pow]
        simp [hp', show p < 8 * 8 by omega]
      rw [hbit, hd1, hdb p, hb, hc]
      simp [hi]
    · rw [testBit_eq_false_of_lt hrlt (by omega)]
      simp [hi]

/-- Witness for C38: `x = 0b10110`, `m = 0b11010` at size 4. -/
theorem C38_pdep_pext_loops_witness :
    ((4 : Nat) = 4 ∨ (4 : Nat) = 8) ∧
    (∃ R, PDep_loop (GetSrc 4 0b10110) (popcount 64 (GetSrc 4 0b11010))
        (GetSrc 4 0b11010) 0 0 = some (popcount 64 (GetSrc 4 0b11010), R)) ∧
    (∃ R, PExt_loop (GetSrc 4 0b10110) (popcount 64 (GetSrc 4 0b11010))
        (GetSrc 4 0b11010) 0 0 = some (popcount 64 (GetSrc 4 0b11010), R)) ∧
    ∃ d e r, Op_PDep 4 0 0b10110 0b11010 = some d ∧ Op_PExt 4 0 0b10110 0b11010 = some e ∧
      Op_PExt 4 0 d 0b11010 = some r ∧
      (∀ p, (GetSrc 4 0b11010).testBit p = false → (GetSrc 8 d).testBit p = false) ∧
      GetSrc 8 e < 2 ^ popcount 64 (GetSrc 4 0b11010) ∧
      GetSrc 8 r = GetSrc 4 0b10110 % 2 ^ popcount 64 (GetSrc 4 0b11010) :=
  ⟨by decide, C38_pdep_pext_loops 4 0 0 0 0b10110 0b11010 (by decide)⟩


/-! ## VZip and VUnZip -/

theorem lane_self_mod (w v i : Nat) : lane w v i % 2 ^ (8 * w) = lane w v i :=
  Nat.mod_eq_of_lt (lane_lt w v i)

theorem lane_VZip_loop (size n B : Nat) (Tmp Src1 Src2 : Slot) (j : Nat) :
    lane size (VZip_loop size n B Tmp Src1 Src2) j
      = if j < 2 * n then
          (if j % 2 = 0 then lane size Src1 (B + j / 2) else lane size Src2 (B + j / 2))
        else lane size Tmp j := by
  unfold VZip_loop
  induction n with
  | zero => simp
  | succ k ih =>
    rw [List.range_succ, List.foldl_append]
    simp only [List.foldl_cons, List.foldl_nil]
    by_cases h1 : j = k * 2 + 1
    · subst h1
      rw [lane_setLane_same, lane_self_mod, if_pos (by omega), if_neg (by omega)]
      congr 2
      omega
    · rw [lane_setLane_ne _ _ _ _ _ h1]
      by_cases h0 : j = k * 2
      · subst h0
        rw [lane_setLane_same, lane_self_mod, if_pos (by omega), if_pos (by omega)]
        congr 2
        omega
      · rw [lane_setLane_ne _ _ _ _ _ h0, ih]
        by_cases hlt : j < 2 * k
        · rw [if_pos hlt, if_pos (show j < 2 * (k + 1) by omega)]
        · rw [if_neg hlt, if_neg (show ¬ j < 2 * (k + 1) by omega)]

theorem lane_foldl_unzip (size E : Nat) (f g : Nat → Nat) (T0 : Slot) (j : Nat) :
    ∀ n, n ≤ E →
    lane size ((List.range n).foldl
        (fun T i => setLane size (setLane size T i (f i)) (E + i) (g i)) T0) j
      = if j < n then f j % 2 ^ (8 * size)
        else if E ≤ j ∧ j < E + n then g (j - E) % 2 ^ (8 * size)
        else lane size T0 j := by
  intro n
  induction n with
  | zero =>
    intro _
    rw [List.range_zero, List.foldl_nil, if_neg (by omega), if_neg (by omega)]
  | succ k ih =>
    intro hk
    rw [List.range_succ, List.foldl_append]
    simp only [List.foldl_cons, List.foldl_nil]
    by_cases h1 : j = E + k
    · subst h1
      rw [lane_setLane_same, if_neg (by omega), if_pos (by omega), Nat.add_sub_cancel_left]
    · rw [lane_setLane_ne _ _ _ _ _ h1]
      by_cases h0 : j = k
      · subst h0
        rw [lane_setLane_same, if_pos (by omega)]
      · rw [lane_setLane_ne _ _ _ _ _ h0, ih (by omega)]
        by_cases hlt : j < k
        · rw [if_pos hlt, if_pos (show j < k + 1 by omega)]
        · rw [if_neg hlt, if_neg (show ¬ j < k + 1 by omega)]
          by_cases h2 : E ≤ j ∧ j < E + k
          · rw [if_pos h2, if_pos (show E ≤ j ∧ j < E + (k + 1) by omega)]
          · rw [if_neg h2, if_neg (show ¬ (E ≤ j ∧ j < E + (k + 1)) by omega)]

theorem lane_VUnZip_loop (size E Start : Nat) (Tmp Src1 Src2 : Slot) (j : Nat) :
    lane size (VUnZip_loop size E Start Tmp Src1 Src2) j
      = if j < E then lane size Src1 (Start + j * 2)
        else if E ≤ j ∧ j < E + E then lane size Src2 (Start + (j - E) * 2)
        else lane size Tmp j := by
  unfold VUnZip_loop
  rw [lane_foldl_unzip size E (fun i => lane size Src1 (Start + i * 2))
    (fun i => lane size Src2 (Start + i * 2)) Tmp j E (le_refl E)]
  simp only [lane_self_mod]

/-- The low `n` bytes of the de-interleave of the two interleaves of `a` and `b`:
the even elements (`Start = 0`) give back `a`, the odd ones (`Start = 1`) `b`. -/
theorem unzip_zip_core (s half n Start : Nat) (Tmp1 Tmp2 Tmp3 dst1 dst2 dst3 a b : Slot)
    (hs : 0 < s) (hn : s * (2 * half) = n) (hStart : Start = 0 ∨ Start = 1) :
    GetSrc n (storeLow n dst3 (VUnZip_loop s half Start Tmp3
        (storeLow n dst1 (VZip_loop s half 0 Tmp1 a b))
        (storeLow n dst2 (VZip_loop s half half Tmp2 a b))))
      = GetSrc n (if Start = 0 then a else b) := by
  subst hn
  refine GetSrc_eq_of_lanes s (2 * half) _ _ hs fun j hj => ?_
  have hle : ∀ i, i < 2 * half → (i + 1) * s ≤ s * (2 * half) := fun i hi => by
    rw [Nat.mul_comm s]
    exact Nat.mul_le_mul_right _ (by omega)
  rw [lane_storeLow _ _ _ _ _ (hle j hj), lane_VUnZip_loop]
  by_cases hlt : j < half
  · rw [if_pos hlt, lane_storeLow _ _ _ _ _ (hle _ (by omega)), lane_VZip_loop,
      if_pos (by omega)]
    rcases hStart with h | h <;> subst h
    · rw [if_pos (by omega), if_pos rfl]
      congr 1
      omega
    · rw [if_neg (by omega), if_neg (by omega)]
      congr 1
      omega
  · rw [if_neg hlt, if_pos (by omega), lane_storeLow _ _ _ _ _ (hle _ (by omega)),
      lane_VZip_loop, if_pos (by omega)]
    rcases hStart with h | h <;> subst h
    · rw [if_pos (by omega), if_pos rfl]
      congr 1
      omega
    · rw [if_neg (by omega), if_neg (by omega)]
      congr 1
      omega

/-- C37: for `OpSize` in 8, 16 and every element size in 1, 2, 4, 8 with at least
two lanes, whatever the scratch arrays and the destinations held, the four
kernels return and, on the low `OpSize` bytes,
`VUnZip(VZip(a, b), VZip2(a, b)) = a` and `VUnZip2(VZip(a, b), VZip2(a, b)) = b`. -/
theorem C37_zip_unzip_inverse (Tmp1 Tmp2 Tmp3 Tmp4 dst1 dst2 dst3 dst4 : Slot)
    (OpSize ElementSize : Nat) (a b : Slot)
    (hOp : OpSize = 8 ∨ OpSize = 16)
    (hE : ElementSize = 1 ∨ ElementSize = 2 ∨ ElementSize = 4 ∨ ElementSize = 8)
    (hl : 2 ≤ OpSize / ElementSize) :
    ∃ z1 z2 u1 u2, Op_VZip false Tmp1 OpSize ElementSize dst1 a b = some z1 ∧
      Op_VZip true Tmp2 OpSize ElementSize dst2 a b = some z2 ∧
      Op_VUnZip true Tmp3 OpSize ElementSize dst3 z1 z2 = some u1 ∧
      Op_VUnZip false Tmp4 OpSize ElementSize dst4 z1 z2 = some u2 ∧
      GetSrc OpSize u1 = GetSrc OpSize a ∧ GetSrc OpSize u2 = GetSrc OpSize b := by
  have core := fun (s half n Start : Nat) (T3 d3 : Slot) (hs : 0 < s)
      (hn : s * (2 * half) = n) (hS : Start = 0 ∨ Start = 1) =>
    unzip_zip_core s half n Start Tmp1 Tmp2 T3 dst1 dst2 d3 a b hs hn hS
  rcases hOp with rfl | rfl <;> rcases hE with rfl | rfl | rfl | rfl
  · exact ⟨_, _, _, _, rfl, rfl, rfl, rfl,
      core 1 4 8 0 Tmp3 dst3 (by norm_num) (by norm_num) (Or.inl rfl),
      core 1 4 8 1 Tmp4 dst4 (by norm_num) (by norm_num) (Or.inr rfl)⟩
  · exact ⟨_, _, _, _, rfl, rfl, rfl, rfl,
      core 2 2 8 0 Tmp3 dst3 (by norm_num) (by norm_num) (Or.inl rfl),
      core 2 2 8 1 Tmp4 dst4 (by norm_num) (by norm_num) (Or.inr rfl)⟩
  · exact ⟨_, _, _, _, rfl, rfl, rfl, rfl,
      core 4 1 8 0 Tmp3 dst3 (by norm_num) (by norm_num) (Or.inl rfl),
      core 4 1 8 1 Tmp4 dst4 (by norm_num) (by norm_num) (Or.inr rfl)⟩
  · exact absurd hl (by norm_num)
  · exact ⟨_, _, _, _, rfl, rfl, rfl, rfl,
      core 1 8 16 0 Tmp3 dst3 (by norm_num) (by norm_num) (Or.inl rfl),
      core 1 8 16 1 Tmp4 dst4 (by norm_num) (by norm_num) (Or.inr rfl)⟩
  · exact ⟨_, _, _, _, rfl, rfl, rfl, rfl,
      core 2 4 16 0 Tmp3 dst3 (by norm_num) (by norm_num) (Or.inl rfl),
      core 2 4 16 1 Tmp4 dst4 (by norm_num) (by norm_num) (Or.inr rfl)⟩
  · exact ⟨_, _, _, _, rfl, rfl, rfl, rfl,
      core 4 2 16 0 Tmp3 dst3 (by norm_num) (by norm_num) (Or.inl rfl),
      core 4 2 16 1 Tmp4 dst4 (by norm_num) (by norm_num) (Or.inr rfl)⟩
  · exact ⟨_, _, _, _, rfl, rfl, rfl, rfl,
      core 8 1 16 0 Tmp3 dst3 (by norm_num) (by norm_num) (Or.inl rfl),
      core 8 1 16 1 Tmp4 dst4 (by norm_num) (by norm_num) (Or.inr rfl)⟩

/-- Witness for C37: sixteen bytes in lanes of four bytes. -/
theorem C37_zip_unzip_inverse_witness :
    ((16 : Nat) = 8 ∨ (16 : Nat) = 16) ∧
    ((4 : Nat) = 1 ∨ (4 : Nat) = 2 ∨ (4 : Nat) = 4 ∨ (4 : Nat) = 8) ∧ 2 ≤ 16 / 4 ∧
    ∃ z1 z2 u1 u2,
      Op_VZip false 0 16 4 0 0x0f0e0d0c0b0a09080706050403020100
        0x1f1e1d1c1b1a19181716151413121110 = some z1 ∧
      Op_VZip true 0 16 4 0 0x0f0e0d0c0b0a09080706050403020100
        0x1f1e1d1c1b1a19181716151413121110 = some z2 ∧
      Op_VUnZip true 0 16 4 0 z1 z2 = some u1 ∧
      Op_VUnZip false 0 16 4 0 z1 z2 = some u2 ∧
      GetSrc 16 u1 = GetSrc 16 0x0f0e0d0c0b0a09080706050403020100 ∧
      GetSrc 16 u2 = GetSrc 16 0x1f1e1d1c1b1a19181716151413121110 :=
  ⟨by decide, by decide, by decide,
    C37_zip_unzip_inverse 0 0 0 0 0 0 0 0 16 4 0x0f0e0d0c0b0a09080706050403020100
      0x1f1e1d1c1b1a19181716151413121110 (by decide) (by decide) (by decide)⟩

end FEXCore.CPU
